import Mathlib

/-!
# EventHint — verification of the extraction/merge/approval pipeline

A shallow embedding, in Lean 4, of the core of the EventHint backend
(`src/backend/app`): the Python dict-based event drafts, the merger/validator
(`services/extraction/merger.py`), the confidence scorer and auto-approval
policy (`utils/confidence.py`), the pipeline orchestrator's persist stage
(`tasks/process_message.py`), the calendar sync task (`tasks/sync_calendar.py`),
the approve/reject endpoints (`api/events.py`), the deterministic extractors
(`services/extraction/deterministic.py`, `patterns/hungarian.py`,
`patterns/english.py`) and the LLM extractor skeleton
(`services/extraction/llm.py`).

Modelling conventions:
* Python dicts are insertion-ordered association lists `List (String × Value)`.
* Python floats are modelled as exact rationals `ℚ`.  Every numeric comparison
  appearing in the verified properties is robust to the ≤ 2⁻⁵⁰ deviation of
  IEEE-754 doubles from the exact rational sums involved.
* Fallible Python code (statements that can raise) returns `Except PyErr _`.
* `str.lower` is modelled as ASCII lowering; on every string this development
  evaluates, Unicode lowering and ASCII lowering agree (the non-ASCII
  characters that occur are already lowercase).
* Python's salted-hash `set` iteration order is unspecified; `pySetList`
  fixes first-occurrence order, and theorems about set-valued fields only use
  membership, never order.
-/

namespace EventHint

/-- Python runtime exceptions that the embedded code can raise. -/
inductive PyErr where
  | typeError
  | valueError
  | attributeError
  | keyError
  | other (msg : String)
deriving DecidableEq, Repr

/-- A Python value as it occurs in the event-draft dicts flowing through the
extraction pipeline: `None`, booleans, numbers (exact rationals), strings,
lists and string-keyed dicts. -/
inductive Value where
  | null
  | bool (b : Bool)
  | num (q : ℚ)
  | str (s : String)
  | list (xs : List Value)
  | dict (kvs : List (String × Value))

/-- Python truthiness (`bool(v)`): `None`, `False`, `0`, `""`, `[]`, `{}` are
falsy, everything else truthy. -/
def Value.truthy : Value → Bool
  | .null => false
  | .bool b => b
  | .num q => q != 0
  | .str s => s ≠ ""
  | .list xs => !xs.isEmpty
  | .dict kvs => !kvs.isEmpty

/-- Is the value hashable (usable as a Python set element / dict key)?
Lists and dicts are unhashable. -/
def Value.hashable : Value → Bool
  | .list _ => false
  | .dict _ => false
  | _ => true

/-- Python `==` on hashable (scalar) values.  `True == 1` and `False == 0`
hold in Python because `bool` is an `int` subclass. -/
def Value.scalarEq : Value → Value → Bool
  | .null, .null => true
  | .bool a, .bool b => a == b
  | .bool a, .num q => (if a then (1 : ℚ) else 0) == q
  | .num q, .bool b => q == (if b then (1 : ℚ) else 0)
  | .num a, .num b => a == b
  | .str a, .str b => a == b
  | _, _ => false

/-- A Python dict: insertion-ordered list of distinct string keys. -/
abbrev PyDict := List (String × Value)

/-- `d[k]` lookup returning an `Option` (first binding of `k`). -/
def pyGet? (d : PyDict) (k : String) : Option Value :=
  (d.find? (fun kv => kv.1 == k)).map (·.2)

/-- `d.get(k)`: the value bound to `k`, defaulting to `None`. -/
def pyGet (d : PyDict) (k : String) : Value :=
  (pyGet? d k).getD .null

/-- `d.get(k, default)`. -/
def pyGetD (d : PyDict) (k : String) (dflt : Value) : Value :=
  (pyGet? d k).getD dflt

/-- `k in d`. -/
def pyContains (d : PyDict) (k : String) : Bool :=
  (pyGet? d k).isSome

/-- `d[k] = v`: update in place, preserving the position of an existing key,
appending a fresh key at the end (CPython insertion-order semantics). -/
def pySet (d : PyDict) (k : String) (v : Value) : PyDict :=
  if pyContains d k then
    d.map (fun kv => if kv.1 == k then (k, v) else kv)
  else
    d ++ [(k, v)]

/-- `d.setdefault(k, v)`. -/
def pySetdefault (d : PyDict) (k : String) (v : Value) : PyDict :=
  if pyContains d k then d else d ++ [(k, v)]

/-- `d.pop(k, None)` (the resulting dict; the popped value is discarded at the
only call site). -/
def pyPop (d : PyDict) (k : String) : PyDict :=
  d.filter (fun kv => kv.1 ≠ k)

/-- `set(xs)` as a first-occurrence-ordered duplicate-free list; raises
`TypeError` when an element is unhashable, as CPython does.  Iteration order
of a CPython `str` set is salted and unspecified; theorems about set-valued
fields only ever use membership. -/
def pySetListAux (acc : List Value) (xs : List Value) : Except PyErr (List Value) :=
  xs.foldlM
    (fun acc v =>
      if v.hashable then
        if acc.any (fun w => Value.scalarEq w v) then pure acc else pure (acc ++ [v])
      else
        throw .typeError)
    acc

def pySetList (xs : List Value) : Except PyErr (List Value) :=
  pySetListAux [] xs

/-- Python `iter(v)` for the shapes the merger can meet: lists yield their
elements, strings their characters, dicts their keys; everything else raises
`TypeError`. -/
def pyIter : Value → Except PyErr (List Value)
  | .list xs => pure xs
  | .str s => pure (s.toList.map (fun c => Value.str (String.mk [c])))
  | .dict kvs => pure (kvs.map (fun kv => Value.str kv.1))
  | _ => throw .typeError

/-- `v[k]` subscript on a value: raises `KeyError` on a missing dict key and
`TypeError` on non-dicts (the merger only subscripts reminder entries). -/
def pyIndex (v : Value) (k : String) : Except PyErr Value :=
  match v with
  | .dict kvs =>
    match pyGet? kvs k with
    | some w => pure w
    | none => throw .keyError
  | _ => throw .typeError

/-- `len(v)`: length of strings (code points), lists and dicts; raises
`TypeError` on numbers, booleans and `None`. -/
def pyLen : Value → Except PyErr Nat
  | .str s => pure s.length
  | .list xs => pure xs.length
  | .dict kvs => pure kvs.length
  | _ => throw .typeError

/-- Python `v == s` against a string literal: `False` whenever `v` is not a
string. -/
def Value.eqStr (v : Value) (s : String) : Bool :=
  match v with
  | .str t => t == s
  | _ => false

/-- Python `v < q` against a float literal: numbers and booleans compare,
anything else raises `TypeError`. -/
def pyLtNum (v : Value) (q : ℚ) : Except PyErr Bool :=
  match v with
  | .num x => pure (decide (x < q))
  | .bool b => pure (decide ((if b then (1 : ℚ) else 0) < q))
  | _ => throw .typeError

/-- Python `q * v` for float `q`: numbers and booleans multiply, anything else
raises `TypeError`. -/
def pyMulNum (q : ℚ) (v : Value) : Except PyErr ℚ :=
  match v with
  | .num x => pure (q * x)
  | .bool b => pure (q * (if b then 1 else 0))
  | _ => throw .typeError

/-! ## Confidence scoring (`app/utils/confidence.py`) -/

/-- The `+0.2` title-quality bonus of `calculate_event_confidence`:
`title = event_data.get("title", ""); if title and len(title) > 3:`.
`len` raises on truthy non-sized titles, exactly as in Python. -/
def titleBonus (eventData : PyDict) : Except PyErr ℚ :=
  let title := pyGetD eventData "title" (.str "")
  if title.truthy then do
    let n ← pyLen title
    pure (if n > 3 then (0.2 : ℚ) else 0)
  else
    pure 0

/-- The OCR-attenuation step of `calculate_event_confidence`:
`ocr_confidence = context.get("ocr_confidence", 1.0);
if ocr_confidence < 1.0: confidence *= ocr_confidence`. -/
def ocrAttenuate (context : PyDict) (confidence : ℚ) : Except PyErr ℚ := do
  let ocr := pyGetD context "ocr_confidence" (.num 1)
  let lt ← pyLtNum ocr 1
  if lt then pyMulNum confidence ocr else pure confidence

/-- `calculate_event_confidence(event_data, context)` from
`app/utils/confidence.py`.  Floats are modelled as exact rationals. -/
def calculate_event_confidence (eventData : PyDict) (ctx : Option PyDict) :
    Except PyErr ℚ := do
  -- `context = context or {}` (an empty dict is falsy and is replaced by `{}`,
  -- which is the same dict value).
  let context := ctx.getD []
  -- Date/time presence.
  let c1 : ℚ :=
    if (pyGet eventData "start").truthy then
      0.3 + (if (pyGet eventData "end").truthy then 0.05 else 0)
    else 0
  -- Title quality.
  let c2 ← titleBonus eventData
  -- Location.
  let c3 : ℚ :=
    if (pyGet eventData "location").truthy || (pyGet eventData "online_url").truthy
    then 0.1 else 0
  -- Extraction method.
  let em := pyGetD context "extraction_method" (.str "")
  let c4 : ℚ :=
    if em.eqStr "deterministic" then 0.2
    else if em.eqStr "llm" then 0.15
    else if em.eqStr "hybrid" then 0.25
    else 0
  -- Trusted sender.
  let c5 : ℚ := if (pyGet context "trusted_sender").truthy then 0.05 else 0
  -- OCR confidence attenuation, then cap at 1.0.
  let conf ← ocrAttenuate context (c1 + c2 + c3 + c4 + c5)
  pure (min conf 1)

/-- The `users` columns consulted by the pipeline. -/
structure UserRec where
  auto_approve_enabled : Bool
deriving DecidableEq, Repr

/-- `should_auto_approve(event_data, user, context)` from
`app/utils/confidence.py`. -/
def should_auto_approve (eventData : PyDict) (user : UserRec)
    (ctx : Option PyDict) : Except PyErr Bool := do
  if !user.auto_approve_enabled then
    pure false
  else do
    let confidence ← calculate_event_confidence eventData ctx
    if confidence ≥ 0.9 then
      pure true
    -- `if context and context.get("trusted_sender"):`
    else if (match ctx with
             | some d => !d.isEmpty && (pyGet d "trusted_sender").truthy
             | none => false) then
      pure (decide (confidence ≥ 0.7))
    else
      pure false

/-! ## The orchestrator's approval decision (`app/tasks/process_message.py`)

Step 4 of `process_message_task` decides each merged event's initial status
with

    should_auto_approve(event_data, user, {"confidence": event_data.get("confidence", 0.0)})
-/

/-- The context dict the orchestrator passes to `should_auto_approve`. -/
def pmApprovalContext (eventData : PyDict) : PyDict :=
  [("confidence", pyGetD eventData "confidence" (.num 0))]

/-- The status decision the orchestrator makes for one merged event:
`true` means the row is created `APPROVED` (with `approved_at` set),
`false` means `PENDING_APPROVAL`. -/
def pmStatusDecision (user : UserRec) (eventData : PyDict) : Except PyErr Bool :=
  should_auto_approve eventData user (some (pmApprovalContext eventData))

/-! ## Datetimes (`datetime.fromisoformat`, `isoformat`, `timedelta`)

`PyDateTime` models `datetime.datetime`; `tzoffset` is the UTC offset in
minutes (`none` for naive datetimes).  `fromisoformat` implements the ISO-8601
subset actually exercised by the pipeline:
`YYYY-MM-DD[THH:MM[:SS[.ffffff]][±HH:MM]]` (also with a space separator),
with full calendar validation as in CPython. -/

structure PyDateTime where
  year : Nat
  month : Nat
  day : Nat
  hour : Nat := 0
  minute : Nat := 0
  second : Nat := 0
  microsecond : Nat := 0
  tzoffset : Option Int := none
deriving DecidableEq, Repr

def isLeapYear (y : Nat) : Bool :=
  (y % 4 == 0 && y % 100 != 0) || y % 400 == 0

def daysInMonth (y m : Nat) : Nat :=
  if m = 2 then (if isLeapYear y then 29 else 28)
  else if m = 4 ∨ m = 6 ∨ m = 9 ∨ m = 11 then 30
  else 31

/-- Numeric value of a digit string. -/
def digitsVal (cs : List Char) : Nat :=
  cs.foldl (fun a c => a * 10 + (c.toNat - 48)) 0

/-- Split exactly `n` leading digits off a character list. -/
def splitDigits (n : Nat) (cs : List Char) : Option (Nat × List Char) :=
  let pre := cs.take n
  if pre.length = n ∧ pre.all Char.isDigit then some (digitsVal pre, cs.drop n)
  else none

def expectChar (c : Char) : List Char → Option (List Char)
  | d :: rest => if d = c then some rest else none
  | [] => none

/-- Parse a trailing `±HH:MM` UTC offset (empty input means a naive result). -/
def parseOffsetEnd : List Char → Option (Option Int)
  | [] => some none
  | c :: rest =>
    if c = '+' ∨ c = '-' then do
      let (hh, r1) ← splitDigits 2 rest
      let r2 ← expectChar ':' r1
      let (mm, r3) ← splitDigits 2 r2
      if r3 = [] ∧ hh ≤ 23 ∧ mm ≤ 59 then
        some (some ((if c = '+' then 1 else -1) * ((hh : Int) * 60 + mm)))
      else none
    else none

/-- Parse optional `:SS[.ffffff]` (also accepting 3 fractional digits),
returning `(second, microsecond, rest)`. -/
def parseSecondsOpt (cs : List Char) : Option (Nat × Nat × List Char) :=
  match cs with
  | ':' :: rest => do
    let (ss, r1) ← splitDigits 2 rest
    if ss ≥ 60 then none
    else
      match r1 with
      | '.' :: r2 =>
        match splitDigits 6 r2 with
        | some (us, r3) => some (ss, us, r3)
        | none => do
          let (ms, r3) ← splitDigits 3 r2
          some (ss, ms * 1000, r3)
      | _ => some (ss, 0, r1)
  | _ => some (0, 0, cs)

/-- `datetime.fromisoformat` on the supported subset. -/
def fromisoformat (s : String) : Option PyDateTime := do
  let cs := s.toList
  let (y, r1) ← splitDigits 4 cs
  let r2 ← expectChar '-' r1
  let (mo, r3) ← splitDigits 2 r2
  let r4 ← expectChar '-' r3
  let (d, r5) ← splitDigits 2 r4
  if ¬(1 ≤ mo ∧ mo ≤ 12 ∧ 1 ≤ d ∧ d ≤ daysInMonth y mo ∧ 1 ≤ y) then none
  else
    match r5 with
    | [] => some { year := y, month := mo, day := d }
    | c :: rest =>
      if c = 'T' ∨ c = ' ' then do
        let (hh, t1) ← splitDigits 2 rest
        let t2 ← expectChar ':' t1
        let (mi, t3) ← splitDigits 2 t2
        let (ss, us, t4) ← parseSecondsOpt t3
        let off ← parseOffsetEnd t4
        if hh ≤ 23 ∧ mi ≤ 59 then
          some { year := y, month := mo, day := d, hour := hh, minute := mi,
                 second := ss, microsecond := us, tzoffset := off }
        else none
      else none

/-- `s.replace('Z', '+00:00')`: every occurrence of the one-character needle
is replaced. -/
def replaceZ (s : String) : String :=
  String.mk (s.toList.flatMap (fun c => if c = 'Z' then "+00:00".toList else [c]))

/-- The pipeline's idiom `datetime.fromisoformat(s.replace('Z', '+00:00'))`. -/
def pyFromIso (s : String) : Option PyDateTime :=
  fromisoformat (replaceZ s)

def pad2 (n : Nat) : String :=
  if n < 10 then "0" ++ toString n else toString n

def pad4 (n : Nat) : String :=
  if n < 10 then "000" ++ toString n
  else if n < 100 then "00" ++ toString n
  else if n < 1000 then "0" ++ toString n
  else toString n

def pad6 (n : Nat) : String :=
  (String.mk (List.replicate (6 - (toString n).length) '0')) ++ toString n

def offsetSuffix : Option Int → String
  | none => ""
  | some off =>
    (if off ≥ 0 then "+" else "-") ++ pad2 (off.natAbs / 60) ++ ":" ++ pad2 (off.natAbs % 60)

/-- `datetime.isoformat()`: seconds always printed, microseconds only when
nonzero, offset appended for aware datetimes. -/
def PyDateTime.isoformat (dt : PyDateTime) : String :=
  pad4 dt.year ++ "-" ++ pad2 dt.month ++ "-" ++ pad2 dt.day ++ "T" ++
    pad2 dt.hour ++ ":" ++ pad2 dt.minute ++ ":" ++ pad2 dt.second ++
    (if dt.microsecond = 0 then "" else "." ++ pad6 dt.microsecond) ++
    offsetSuffix dt.tzoffset

/-- Days since 1970-01-01 of a proleptic-Gregorian date (the standard
`days_from_civil` algorithm; all years used here are positive, where Lean's
truncating `Int` division agrees with flooring). -/
def daysFromCivil (y : Int) (m d : Nat) : Int :=
  let y' : Int := y - (if m ≤ 2 then 1 else 0)
  let era : Int := (if y' ≥ 0 then y' else y' - 399) / 400
  let yoe : Int := y' - era * 400
  let mp : Int := ((m : Int) + 9) % 12
  let doy : Int := (153 * mp + 2) / 5 + (d : Int) - 1
  let doe : Int := yoe * 365 + yoe / 4 - yoe / 100 + doy
  era * 146097 + doe - 719468

/-- The instant a (possibly aware) datetime denotes, in seconds since the
epoch; naive datetimes are taken at UTC.  Used to state what "the same
instant" means in the bucketing claim. -/
def PyDateTime.instantSeconds (dt : PyDateTime) : Int :=
  daysFromCivil dt.year dt.month dt.day * 86400 +
    (dt.hour : Int) * 3600 + (dt.minute : Int) * 60 + (dt.second : Int) -
    (dt.tzoffset.getD 0) * 60

def nextDay : Nat × Nat × Nat → Nat × Nat × Nat
  | (y, m, d) =>
    if d < daysInMonth y m then (y, m, d + 1)
    else if m < 12 then (y, m + 1, 1)
    else (y + 1, 1, 1)

def addDays : Nat → Nat × Nat × Nat → Nat × Nat × Nat
  | 0, x => x
  | k + 1, x => addDays k (nextDay x)

/-- `dt + timedelta(minutes=k)` on an aware or naive datetime: wall-clock
arithmetic, the `tzinfo` (offset) is untouched — exactly Python's behaviour
on fixed-offset datetimes. -/
def PyDateTime.addMinutes (dt : PyDateTime) (k : Nat) : PyDateTime :=
  let total := dt.hour * 60 + dt.minute + k
  let carryDays := total / 1440
  let rem := total % 1440
  let (y, m, d) := addDays carryDays (dt.year, dt.month, dt.day)
  { dt with year := y, month := m, day := d, hour := rem / 60, minute := rem % 60 }

/-- `dt + timedelta(hours=k)`. -/
def PyDateTime.addHours (dt : PyDateTime) (k : Nat) : PyDateTime :=
  dt.addMinutes (k * 60)

/-- The merger's 15-minute rounding:
`dt.replace(minute=(dt.minute // 15) * 15, second=0, microsecond=0)` —
a wall-clock replacement that keeps the original UTC offset. -/
def roundTo15 (dt : PyDateTime) : PyDateTime :=
  { dt with minute := dt.minute / 15 * 15, second := 0, microsecond := 0 }

/-! ## Event lifecycle (`app/models/event.py`, `app/api/events.py`,
`app/tasks/process_message.py`, `app/tasks/sync_calendar.py`)

`EventRow` models the columns of the `events` table that the lifecycle
operations read or write.  Payload columns carry `Value`s as they arrive from
the merged event dicts; `start`/`end` are parsed datetimes as in the
`Event(...)` constructor call of `process_message_task`. -/

inductive EventStatus where
  | pending_approval
  | approved
  | rejected
  | synced
  | error
deriving DecidableEq, Repr

structure EventRow where
  user_id : Nat
  type_ : Value
  title : Value
  start : PyDateTime
  end_ : Option PyDateTime
  allday : Value
  timezone : Value
  location : Value
  online_url : Value
  notes : Value
  attendees : Value
  reminders : Value
  labels : Value
  recurrence : Value
  provider : String
  confidence : Value
  extraction_method : Value
  status : EventStatus
  approved_at : Option Nat
  calendar_id : Option Nat := none
  external_event_id : Option String := none
  synced_at : Option Nat := none
  rejected_at : Option Nat := none

/-- The fields of the `EventUpdate` Pydantic schema — the only attributes the
`PATCH` endpoint and the approval `modifications` can set (`status`,
`external_event_id`, the audit timestamps and the source-tracking columns are
not in the schema). -/
inductive PatchField where
  | title | start | end_ | allday | timezone | location | online_url | notes
  | attendees | reminders | recurrence | labels
deriving DecidableEq, Repr

/-- One `setattr(event, field, value)` for a field of `EventUpdate`.
`start`/`end` arrive as already-parsed datetimes from Pydantic. -/
def setField (row : EventRow) : PatchField → Value ⊕ (Option PyDateTime) → EventRow
  | .title, .inl v => { row with title := v }
  | .start, .inr (some dt) => { row with start := dt }
  | .end_, .inr v => { row with end_ := v }
  | .allday, .inl v => { row with allday := v }
  | .timezone, .inl v => { row with timezone := v }
  | .location, .inl v => { row with location := v }
  | .online_url, .inl v => { row with online_url := v }
  | .notes, .inl v => { row with notes := v }
  | .attendees, .inl v => { row with attendees := v }
  | .reminders, .inl v => { row with reminders := v }
  | .recurrence, .inl v => { row with recurrence := v }
  | .labels, .inl v => { row with labels := v }
  | _, _ => row

/-- Apply an `EventUpdate` patch (`model_dump(exclude_unset=True)` then
`setattr` per field), as in `update_event` and in `approve_event`'s
`modifications`. -/
def applyPatch (mods : List (PatchField × (Value ⊕ Option PyDateTime)))
    (row : EventRow) : EventRow :=
  mods.foldl (fun r kv => setField r kv.1 kv.2) row

/-- `reject_event`'s row mutation: `status = REJECTED; rejected_at = now`. -/
def rejectRow (now : Nat) (e : EventRow) : EventRow :=
  { e with status := .rejected, rejected_at := some now }

/-- `approve_event`'s row mutation: apply the modifications, then
`status = APPROVED; approved_at = now`. -/
def approveRow (now : Nat) (mods : List (PatchField × (Value ⊕ Option PyDateTime)))
    (e : EventRow) : EventRow :=
  { applyPatch mods e with status := .approved, approved_at := some now }

/-- `sync_event_to_calendar`'s success mutation: `status = SYNCED`,
`synced_at = now`, `calendar_id`, `external_event_id = provider id`. -/
def syncOkRow (now : Nat) (extId : String) (cid : Nat) (e : EventRow) : EventRow :=
  { e with status := .synced, synced_at := some now,
           calendar_id := some cid, external_event_id := some extId }

/-- The sync task's failure mutation (`no calendar`, `no user`, or provider
exception): `status = ERROR` and commit; nothing else is touched. -/
def syncErrRow (e : EventRow) : EventRow :=
  { e with status := .error }

/-! ### The orchestrator's persist stage (step 4 of `process_message_task`) -/

/-- `d[k]` on an event dict: `KeyError` when the key is absent. -/
def pyDictIndex (d : PyDict) (k : String) : Except PyErr Value :=
  match pyGet? d k with
  | some v => pure v
  | none => throw .keyError

/-- `s.replace(...)`-style use of a value as a string: `AttributeError` on
non-strings, as in CPython. -/
def asPyStr (v : Value) : Except PyErr String :=
  match v with
  | .str s => pure s
  | _ => throw .attributeError

/-- `datetime.fromisoformat(s.replace('Z', '+00:00'))`, raising `ValueError`
on unparseable input. -/
def parseIsoOrRaise (s : String) : Except PyErr PyDateTime :=
  match pyFromIso s with
  | some dt => pure dt
  | none => throw .valueError

/-- `datetime.fromisoformat(event_data["end"]...) if event_data.get("end")
else None` in the `Event(...)` constructor call. -/
def buildRowEnd (eventData : PyDict) : Except PyErr (Option PyDateTime) :=
  if (pyGet eventData "end").truthy then do
    let s ← asPyStr (pyGet eventData "end")
    let dt ← parseIsoOrRaise s
    pure (some dt)
  else
    pure none

/-- Build the `Event(...)` row for one merged event dict, with the status
decided by `should_auto_approve(event_data, user, {"confidence": ...})`.
`event_data["title"]` / `event_data["start"]` raise `KeyError` when absent,
and `start`/`end` go through `datetime.fromisoformat(s.replace('Z',...))`. -/
def buildEventRow (user : UserRec) (uid now : Nat) (provider : String)
    (eventData : PyDict) : Except PyErr EventRow := do
  let approve ← pmStatusDecision user eventData
  let title ← pyDictIndex eventData "title"
  let startRaw ← pyDictIndex eventData "start"
  let startStr ← asPyStr startRaw
  let start ← parseIsoOrRaise startStr
  let endOpt ← buildRowEnd eventData
  pure {
    user_id := uid
    type_ := pyGetD eventData "type" (.str "event")
    title := title
    start := start
    end_ := endOpt
    allday := pyGetD eventData "allday" (.bool false)
    timezone := pyGetD eventData "timezone" (.str "Europe/Budapest")
    location := pyGet eventData "location"
    online_url := pyGet eventData "online_url"
    notes := pyGet eventData "notes"
    attendees := pyGetD eventData "attendees" (.list [])
    reminders := pyGetD eventData "reminders" (.list [])
    labels := pyGetD eventData "labels" (.list [])
    recurrence := pyGet eventData "recurrence"
    provider := provider
    confidence := pyGetD eventData "confidence" (.num 0)
    extraction_method := pyGetD eventData "_source" (.str "hybrid")
    status := if approve then .approved else .pending_approval
    approved_at := if approve then some now else none }

/-- A Celery `sync_event_to_calendar.delay(event_id, calendar_id)` call. -/
structure SyncJob where
  event_id : Nat
  calendar_id : Option Nat
deriving DecidableEq, Repr

/-- Step 4–5 of `process_message_task`: create one row per merged event and
return the rows together with the sync jobs enqueued along the way.  The loop
body only calls `db.add(event)`; `process_message_task` contains no
`sync_event_to_calendar.delay` call, so the enqueued-job list is `[]`. -/
def processPersistStage (user : UserRec) (uid now : Nat) (provider : String)
    (merged : List PyDict) : Except PyErr (List EventRow × List SyncJob) := do
  let rows ← merged.mapM (buildEventRow user uid now provider)
  pure (rows, [])

/-! ### Endpoints (`app/api/events.py`) and the sync task -/

inductive ApiError where
  | notFound404
  | badRequest400
deriving DecidableEq, Repr

/-- The database of event rows, keyed by event id. -/
abbrev EventDB := List (Nat × EventRow)

/-- `db.query(Event).filter(Event.id == id, Event.user_id == user).first()`. -/
def findOwnedEvent (db : EventDB) (eid uid : Nat) : Option EventRow :=
  (db.find? (fun r => r.1 == eid && r.2.user_id == uid)).map (·.2)

/-- Replace the owned row `eid`/`uid` using `f`. -/
def updateOwnedEvent (db : EventDB) (eid uid : Nat) (f : EventRow → EventRow) :
    EventDB :=
  db.map (fun r => if r.1 == eid && r.2.user_id == uid then (r.1, f r.2) else r)

/-- `POST /api/events/{id}/reject`: 404 when the event does not exist or
belongs to another user; otherwise — with no check of the current status —
set `status = REJECTED`, `rejected_at = now`, commit. -/
def reject_event (db : EventDB) (eid uid now : Nat) : Except ApiError EventDB :=
  match findOwnedEvent db eid uid with
  | none => throw .notFound404
  | some _ => pure (updateOwnedEvent db eid uid (rejectRow now))

/-- `POST /api/events/{id}/approve`: 404 when not owned; 400 when the status
is not `PENDING_APPROVAL`; otherwise apply the optional modifications, mark
approved and enqueue a `sync_event_to_calendar` job. -/
def approve_event (db : EventDB) (eid uid now : Nat)
    (mods : List (PatchField × (Value ⊕ Option PyDateTime)))
    (calReq : Option Nat) : Except ApiError (EventDB × List SyncJob) :=
  match findOwnedEvent db eid uid with
  | none => throw .notFound404
  | some ev =>
    if ev.status ≠ .pending_approval then throw .badRequest400
    else pure (updateOwnedEvent db eid uid (approveRow now mods), [⟨eid, calReq⟩])

/-- The `calendars` columns the sync task consults. -/
structure CalendarRec where
  id : Nat
  user_id : Nat
  is_default : Bool
  is_active : Bool
deriving DecidableEq, Repr

def setEventRow (db : EventDB) (eid : Nat) (row : EventRow) : EventDB :=
  db.map (fun r => if r.1 == eid then (r.1, row) else r)

/-- `sync_event_to_calendar(event_id, calendar_id)` from
`app/tasks/sync_calendar.py`.  `providerResult` is the outcome of the external
`GoogleCalendarService.create_event` call (its id on success).  Missing event
or non-`APPROVED` status: return unchanged.  No calendar or no user:
`status = ERROR`.  Provider exception: `status = ERROR` (committed before the
re-raise).  Success: `SYNCED` with `synced_at`, `calendar_id`,
`external_event_id`. -/
def sync_event_to_calendar (db : EventDB) (cals : List CalendarRec)
    (users : List Nat) (providerResult : Except PyErr String)
    (eid : Nat) (calendar_id : Option Nat) (now : Nat) : EventDB :=
  match (db.find? (fun r => r.1 == eid)).map (·.2) with
  | none => db
  | some ev =>
    if ev.status ≠ .approved then db
    else
      let cal? : Option CalendarRec := match calendar_id with
        | some cid => cals.find? (fun c => c.id == cid)
        | none =>
          cals.find? (fun c => c.user_id == ev.user_id && c.is_default && c.is_active)
      match cal? with
      | none => setEventRow db eid (syncErrRow ev)
      | some cal =>
        if !users.contains ev.user_id then setEventRow db eid (syncErrRow ev)
        else
          match providerResult with
          | .error _ => setEventRow db eid (syncErrRow ev)
          | .ok extId => setEventRow db eid (syncOkRow now extId cal.id ev)

/-- `undo_calendar_event(event_id)`: deletes the row (after a best-effort
external delete whose failure is swallowed); a missing row is a no-op. -/
def undo_calendar_event (db : EventDB) (eid : Nat) : EventDB :=
  match db.find? (fun r => r.1 == eid) with
  | none => db
  | some _ => db.filter (fun r => r.1 ≠ eid)

/-! ### The lifecycle transition system

One step per mutation any operation of the system performs on a surviving
event row (`undo_calendar_event` deletes the row, so it contributes no step).
Preconditions are the ones the corresponding function checks before mutating. -/

inductive Step : EventRow → EventRow → Prop where
  | patch (mods) (e : EventRow) :
      Step e (applyPatch mods e)
  | approve (now mods) (e : EventRow) (h : e.status = .pending_approval) :
      Step e (approveRow now mods e)
  | reject (now) (e : EventRow) :
      Step e (rejectRow now e)
  | syncErr (e : EventRow) (h : e.status = .approved) :
      Step e (syncErrRow e)
  | syncOk (now extId cid) (e : EventRow) (h : e.status = .approved) :
      Step e (syncOkRow now extId cid e)

/-- Rows reachable by the system: created by the pipeline's persist stage,
then mutated by any sequence of operations. -/
inductive ReachableRow : EventRow → Prop where
  | init (user : UserRec) (uid now : Nat) (provider : String) (eventData : PyDict)
      (row : EventRow) (h : buildEventRow user uid now provider eventData = .ok row) :
      ReachableRow row
  | step (e e' : EventRow) (h : ReachableRow e) (hs : Step e e') : ReachableRow e'

/-! ## The merger (`app/services/extraction/merger.py`)

Python statements that can raise are modelled in `Except PyErr`; in
particular `_deduplicate_by_similarity` parses `start` strings with
`datetime.fromisoformat` *outside* any `try`, so an unparseable truthy start
propagates an exception out of `merge_and_validate_events`. -/

/-- ASCII `str.lower()`.  On every string this development evaluates, Unicode
lowering and ASCII lowering agree. -/
def asciiLower (s : String) : String :=
  String.mk (s.toList.map Char.toLower)

/-- Python `str.strip()` (whitespace both ends). -/
def pyStrip (s : String) : String :=
  String.mk (((s.toList.dropWhile Char.isWhitespace).reverse.dropWhile
    Char.isWhitespace).reverse)

/-- Python `str.split()` with no separator: split on whitespace runs,
discarding empty pieces. -/
def splitWsAux : List Char → List Char → List String
  | [], acc => if acc.isEmpty then [] else [String.mk acc.reverse]
  | c :: rest, acc =>
    if c.isWhitespace then
      if acc.isEmpty then splitWsAux rest []
      else String.mk acc.reverse :: splitWsAux rest []
    else splitWsAux rest (c :: acc)

def pySplitWs (s : String) : List String :=
  splitWsAux s.toList []

/-- First-occurrence deduplication — the `set(...)` of a list of strings,
compared by membership only. -/
def dedupFirst (l : List String) : List String :=
  l.foldl (fun acc s => if acc.contains s then acc else acc ++ [s]) []

/-- The pure core of `_titles_similar(title1, title2, threshold=0.5)`:
word sets are whitespace-split lowercase tokens, and the Jaccard ratio
`overlap / total` is compared with the threshold (floats as exact
rationals). -/
def titlesSimilarStr (s1 s2 : String) (threshold : ℚ) : Bool :=
  let words1 := dedupFirst (pySplitWs (asciiLower s1))
  let words2 := dedupFirst (pySplitWs (asciiLower s2))
  if words1.isEmpty || words2.isEmpty then false
  else
    let overlap := (words1.filter (fun w => words2.contains w)).length
    let total := (words1 ++ words2.filter (fun w => !words1.contains w)).length
    decide ((overlap : ℚ) / (total : ℚ) ≥ threshold)

/-- `_titles_similar` as called by the merger: `.lower()` raises
`AttributeError` on non-string titles. -/
def _titles_similar (title1 title2 : Value) : Except PyErr Bool := do
  let s1 ← asPyStr title1
  let s2 ← asPyStr title2
  pure (titlesSimilarStr s1 s2 0.5)

/-- Does the key start with `"_"` (`key.startswith("_")`)? -/
def keyIsInternal (s : String) : Bool :=
  match s.toList with
  | c :: _ => c = '_'
  | [] => false

/-- Python `str(v)` as interpolated by an f-string.  Only string notes are
exercised by the verified properties; containers are abbreviated. -/
def pyFormat : Value → String
  | .str s => s
  | .bool b => if b then "True" else "False"
  | .null => "None"
  | .num q => toString q
  | .list _ => "<list>"
  | .dict _ => "<dict>"

/-- `v += s` for a string right operand: strings concatenate, lists extend
with the string's characters (CPython `list.__iadd__` takes any iterable),
everything else raises `TypeError`. -/
def pyIAdd (v : Value) (s : String) : Except PyErr Value :=
  match v with
  | .str t => pure (.str (t ++ s))
  | .list xs => pure (.list (xs ++ s.toList.map (fun c => Value.str (String.mk [c]))))
  | _ => throw .typeError

/-- Insert/update in a Python-`dict`-like association list with `Value` keys
(`==` comparison, first-insertion position kept, value replaced). -/
def assocSet (m : List (Value × Value)) (k v : Value) : List (Value × Value) :=
  if m.any (fun kv => Value.scalarEq kv.1 k) then
    m.map (fun kv => if Value.scalarEq kv.1 k then (kv.1, v) else kv)
  else m ++ [(k, v)]

/-- `{r["minutes"]: r for r in rems}` (and further updates): keys must be
hashable, `r["minutes"]` raises on non-dicts/missing keys. -/
def remMapInsert (m : List (Value × Value)) (r : Value) :
    Except PyErr (List (Value × Value)) := do
  let mk ← pyIndex r "minutes"
  if !mk.hashable then throw .typeError
  else pure (assocSet m mk r)

/-- Merging one `(key, value)` item of a later draft into the accumulating
base dict — the body of the field loop in `_merge_event_group`:

    if key.startswith("_"): continue
    if key not in base or not base.get(key): base[key] = value
    elif key == "labels": union as a set
    elif key == "reminders": union keyed by minutes (later entry wins)
    elif key == "notes": base["notes"] += "\n" + str(event["notes"])
                         (only when both truthy)
-/
def mergeField (base eventD : PyDict) (k : String) (v : Value) :
    Except PyErr PyDict :=
  if keyIsInternal k then pure base
  else if !(pyContains base k) || !(pyGet base k).truthy then
    pure (pySet base k v)
  else if k == "labels" then do
    let bl ← pyIter (pyGetD base "labels" (.list []))
    let el ← pyIter (pyGetD eventD "labels" (.list []))
    let s ← pySetList (bl ++ el)
    pure (pySet base "labels" (.list s))
  else if k == "reminders" then do
    let br ← pyIter (pyGetD base "reminders" (.list []))
    let m1 ← br.foldlM remMapInsert []
    let er ← pyIter (pyGetD eventD "reminders" (.list []))
    let m2 ← er.foldlM remMapInsert m1
    pure (pySet base "reminders" (.list (m2.map (·.2))))
  else if k == "notes" then
    if (pyGet base "notes").truthy && (pyGet eventD "notes").truthy then do
      let upd ← pyIAdd (pyGet base "notes") ("\n" ++ pyFormat (pyGet eventD "notes"))
      pure (pySet base "notes" upd)
    else pure base
  else pure base

/-- `events.sort(key=lambda e: 0 if e.get("_source") == "deterministic" else 1)`:
Python's stable sort on a two-valued key is the stable partition —
deterministic-tagged drafts first, original order kept within each class. -/
def sortBySourcePref (events : List PyDict) : List PyDict :=
  events.filter (fun e => (pyGet e "_source").eqStr "deterministic")
  ++ events.filter (fun e => !(pyGet e "_source").eqStr "deterministic")

/-- `_merge_event_group(events)`: sort so `deterministic` precedes `llm`,
take the first as the base (a copy), then fold every item of every later
draft through the field-merge rule. -/
def _merge_event_group (events : List PyDict) : Except PyErr PyDict :=
  match sortBySourcePref events with
  | [] => throw (.other "IndexError")    -- `events[0]` on an empty group
  | base :: rest =>
    rest.foldlM (fun b ev => ev.foldlM (fun b2 kv => mergeField b2 ev kv.1 kv.2) b) base

/-- Lower every draft's title (`event.get("title", "")` then `.lower()`),
pairing each draft with the resulting string.  In the source the `.lower()`
calls happen lazily inside the pairwise comparisons of
`_merge_similar_events`; hoisting them is observationally equivalent: when
all titles are strings the comparisons are pure, and otherwise both
formulations raise `AttributeError` (the seed round already lowers every
title of a multi-draft group). -/
def lowerTitles (events : List PyDict) : Except PyErr (List (PyDict × String)) :=
  events.mapM (fun e => do
    let s ← asPyStr (pyGetD e "title" (.str ""))
    pure (e, s))

/-- The greedy grouping of `_merge_similar_events`: the first unprocessed
draft seeds a group collecting every later unprocessed draft whose title is
similar to the *seed's*. -/
def groupSimilarPure : List (PyDict × String) → List (List (PyDict × String))
  | [] => []
  | e :: rest =>
    let sim := rest.filter (fun e2 => titlesSimilarStr e.2 e2.2 0.5)
    let other := rest.filter (fun e2 => !titlesSimilarStr e.2 e2.2 0.5)
    (e :: sim) :: groupSimilarPure other
termination_by l => l.length
decreasing_by
  simp only [List.length_cons]
  exact Nat.lt_succ_of_le (List.length_filter_le _ _)

/-- `_merge_similar_events(events)`. -/
def _merge_similar_events (events : List PyDict) : Except PyErr (List PyDict) :=
  if events.length = 1 then pure events
  else do
    let tagged ← lowerTitles events
    (groupSimilarPure tagged).mapM (fun g => _merge_event_group (g.map (·.1)))

/-- The bucketing key of `_deduplicate_by_similarity`:
`datetime.fromisoformat(start.replace('Z', '+00:00'))` (a `ValueError`
propagates — no `try` here), rounded down to the 15-minute wall-clock
boundary, then `rounded.isoformat()` *including the original UTC offset*. -/
def bucketKey (startStr : String) : Except PyErr String := do
  let dt ← parseIsoOrRaise startStr
  pure (roundTo15 dt).isoformat

/-- Append a draft to its `defaultdict` bucket (first-insertion key order,
as `dict.values()` iterates). -/
def appendToGroup (groups : List (String × List PyDict)) (key : String)
    (e : PyDict) : List (String × List PyDict) :=
  if groups.any (fun g => g.1 == key) then
    groups.map (fun g => if g.1 == key then (g.1, g.2 ++ [e]) else g)
  else groups ++ [(key, [e])]

/-- One iteration of the grouping loop of `_deduplicate_by_similarity`:
drafts whose `start` is absent or falsy are silently skipped (never placed in
any bucket). -/
def buildTimeGroupsStep (groups : List (String × List PyDict)) (e : PyDict) :
    Except PyErr (List (String × List PyDict)) := do
  let start := pyGet e "start"
  if start.truthy then do
    let s ← asPyStr start
    let key ← bucketKey s
    pure (appendToGroup groups key e)
  else pure groups

/-- The grouping loop of `_deduplicate_by_similarity`. -/
def buildTimeGroups (events : List PyDict) :
    Except PyErr (List (String × List PyDict)) :=
  events.foldlM buildTimeGroupsStep []

/-- `_deduplicate_by_similarity(events)`. -/
def _deduplicate_by_similarity (events : List PyDict) :
    Except PyErr (List PyDict) :=
  if events.isEmpty then pure []
  else do
    let groups ← buildTimeGroups events
    groups.foldlM (fun acc g =>
      if g.2.length = 1 then pure (acc ++ g.2)
      else do
        let merged ← _merge_similar_events g.2
        pure (acc ++ merged)) []

/-- `_validate_event(event)`: the returned pair is (verdict, the event dict
after the in-place type normalization and default filling).  The title
`.strip()` happens outside any `try` (raises on truthy non-string titles);
the `fromisoformat` check catches `ValueError`/`AttributeError` and returns
`False`. -/
def _validate_event (event : PyDict) : Except PyErr (Bool × PyDict) := do
  let t := pyGet event "title"
  if !t.truthy then pure (false, event)
  else do
    let ts ← asPyStr t
    if (pyStrip ts).length < 2 then pure (false, event)
    else
      let s := pyGet event "start"
      if !s.truthy then pure (false, event)
      else
        let parsedOk := match s with
          | .str str => (pyFromIso str).isSome
          | _ => false
        if !parsedOk then pure (false, event)
        else
          let tv := pyGet event "type"
          let isNoneV := match tv with
            | .null => true
            | _ => false
          let e1 := if !(tv.eqStr "event" || tv.eqStr "task" || isNoneV) then
              pySet event "type" (.str "event")
            else event
          let e2 := pySetdefault e1 "allday" (.bool false)
          let e3 := pySetdefault e2 "timezone" (.str "Europe/Budapest")
          let e4 := pySetdefault e3 "attendees" (.list [])
          let e5 := pySetdefault e4 "reminders" (.list [])
          let e6 := pySetdefault e5 "labels" (.list [])
          pure (true, e6)

/-- `merge_and_validate_events(deterministic_events, llm_events, context)`:
tag with `_source`, deduplicate, validate, score confidence, strip the tag. -/
def merge_and_validate_events (deterministic_events llm_events : List PyDict)
    (context : Option PyDict) : Except PyErr (List PyDict) := do
  let ctx := context.getD []
  let all_events :=
    deterministic_events.map (fun e => pySet e "_source" (.str "deterministic"))
    ++ llm_events.map (fun e => pySet e "_source" (.str "llm"))
  let unique ← _deduplicate_by_similarity all_events
  unique.foldlM (fun acc event => do
    let vr ← _validate_event event
    if vr.1 then do
      let event_context := pySet ctx "extraction_method"
        (pyGetD vr.2 "_source" (.str "unknown"))
      let confidence ← calculate_event_confidence vr.2 (some event_context)
      let ev2 := pySet vr.2 "confidence" (.num confidence)
      pure (acc ++ [pyPop ev2 "_source"])
    else pure acc) []

/-! ### Canonical draft shapes

The canonical event JSON shape (§6 of the spec) prescribes `labels` as a list
of strings, `reminders` as a list of `{method, minutes}` dicts with numeric
minutes, and `notes`/`title` as strings or `null`.  The merge theorems
quantify over drafts whose *present* fields respect those shapes; nothing
else is constrained. -/

def isStrVal : Value → Bool
  | .str _ => true
  | _ => false

def isStrOrNull : Value → Bool
  | .str _ => true
  | .null => true
  | _ => false

/-- `r["minutes"]` of a reminder entry, when `r` is a dict. -/
def minutesOf? (r : Value) : Option Value :=
  match r with
  | .dict kvs => pyGet? kvs "minutes"
  | _ => none

/-- A reminder entry of canonical shape: a dict whose `minutes` is a number. -/
def wfRem (r : Value) : Bool :=
  match minutesOf? r with
  | some (.num _) => true
  | _ => false

def wfFieldVal (k : String) (v : Value) : Bool :=
  if k == "labels" then
    match v with
    | .list xs => xs.all isStrVal
    | _ => false
  else if k == "reminders" then
    match v with
    | .list xs => xs.all wfRem
    | _ => false
  else if k == "notes" then isStrOrNull v
  else if k == "title" then isStrOrNull v
  else true

def WFDraft (d : PyDict) : Bool :=
  d.all (fun kv => wfFieldVal kv.1 kv.2)

/-- The labels a draft carries (empty for an absent or non-list field). -/
def labelsOf (d : PyDict) : List Value :=
  match pyGet d "labels" with
  | .list xs => xs
  | _ => []

/-- The reminder entries a draft carries. -/
def remindersOf (d : PyDict) : List Value :=
  match pyGet d "reminders" with
  | .list xs => xs
  | _ => []

/-- The reminder `minutes` keys a draft carries. -/
def remMinutes (d : PyDict) : List Value :=
  (remindersOf d).filterMap minutesOf?

/-- The elements of a list value (empty for non-lists): the view the merge
invariants take of `labels` and `reminders` values. -/
def valueItems : Value → List Value
  | .list xs => xs
  | _ => []

/-- The string a draft's `notes` contributes when merged behind a base whose
notes are already non-empty: `"\n" + str(notes)` when truthy (a canonical
draft's truthy notes are a non-empty string), nothing otherwise. -/
def evNotesSuffix (e : PyDict) : String :=
  match pyGet e "notes" with
  | .str s => if s = "" then "" else "\n" ++ s
  | _ => ""

/-- Concatenation of a list of strings, in order. -/
def strConcat : List String → String
  | [] => ""
  | s :: l => s ++ strConcat l

/-- A two-draft group exercising every field-merge rule: a deterministic base
with truthy title/notes/labels and an llm draft adding labels, notes, a
location and reminders. -/
def c5ExampleGroup : List PyDict :=
  [ [("_source", .str "deterministic"), ("title", .str "Exam"),
     ("notes", .str "Room A"), ("labels", .list [.str "exam"])],
    [("_source", .str "llm"), ("title", .str "Exam appointment"),
     ("notes", .str "bring ID"),
     ("labels", .list [.str "exam", .str "school"]),
     ("location", .str "B-201"),
     ("reminders", .list [.dict [("method", .str "popup"), ("minutes", .num 30)]])] ]

/-- The bucket key a draft would get in `_deduplicate_by_similarity`
(empty for unparseable or non-string starts; only applied under hypotheses
making the parse succeed). -/
def draftKey (e : PyDict) : String :=
  match pyGet e "start" with
  | .str s =>
    match pyFromIso s with
    | some dt => (roundTo15 dt).isoformat
    | none => ""
  | _ => ""

/-- Two drafts with the same `_source` tag, identical starts and similar
titles — the merge-commutativity probe. -/
def c8a : PyDict :=
  [("title", .str "Exam"), ("start", .str "2025-11-04T08:50:00+01:00"),
   ("_source", .str "llm")]

def c8b : PyDict :=
  [("title", .str "Exam appointment"),
   ("start", .str "2025-11-04T08:50:00+01:00"), ("_source", .str "llm")]

/-- `c8a` after the merger retags it `deterministic` (first positional
argument). -/
def c8aDet : PyDict :=
  [("title", .str "Exam"), ("start", .str "2025-11-04T08:50:00+01:00"),
   ("_source", .str "deterministic")]

/-- `c8b` after the merger retags it `deterministic`. -/
def c8bDet : PyDict :=
  [("title", .str "Exam appointment"),
   ("start", .str "2025-11-04T08:50:00+01:00"), ("_source", .str "deterministic")]

/-- The validated dict of the `merge(A,B)` run (defaults filled in). -/
def c8e6AB : PyDict :=
  [("title", .str "Exam"), ("start", .str "2025-11-04T08:50:00+01:00"),
   ("_source", .str "deterministic"), ("allday", .bool false),
   ("timezone", .str "Europe/Budapest"), ("attendees", .list []),
   ("reminders", .list []), ("labels", .list [])]

/-- The validated dict of the `merge(B,A)` run. -/
def c8e6BA : PyDict :=
  [("title", .str "Exam appointment"),
   ("start", .str "2025-11-04T08:50:00+01:00"),
   ("_source", .str "deterministic"), ("allday", .bool false),
   ("timezone", .str "Europe/Budapest"), ("attendees", .list []),
   ("reminders", .list []), ("labels", .list [])]

/-- The single event `merge(A,B)` emits. -/
def c8OutAB : PyDict :=
  [("title", .str "Exam"), ("start", .str "2025-11-04T08:50:00+01:00"),
   ("allday", .bool false), ("timezone", .str "Europe/Budapest"),
   ("attendees", .list []), ("reminders", .list []), ("labels", .list []),
   ("confidence", .num 0.7)]

/-- The single event `merge(B,A)` emits. -/
def c8OutBA : PyDict :=
  [("title", .str "Exam appointment"),
   ("start", .str "2025-11-04T08:50:00+01:00"),
   ("allday", .bool false), ("timezone", .str "Europe/Budapest"),
   ("attendees", .list []), ("reminders", .list []), ("labels", .list []),
   ("confidence", .num 0.7)]

/-! ## A small regular-expression engine

The deterministic extractor is driven by `re` patterns.  They are embedded
as data over a bounded-backtracking engine: every quantifier in the source
patterns ranges over a single character class, so the engine needs literals,
counted character classes (greedy or lazy), capturing groups, alternation,
optional groups and word boundaries.  `re.search` takes the leftmost match
in backtracking-priority order, `re.finditer` the successive non-overlapping
leftmost matches — both as in CPython. -/

/-- Python `\s` (ASCII part; the texts handled contain no exotic spaces). -/
def isSpaceChar (c : Char) : Bool :=
  c = ' ' || c = '\t' || c = '\n' || c = '\r' || c = '\x0b' || c = '\x0c'

/-- Python `\w` on `str`: Unicode word characters.  ASCII alphanumerics and
underscore plus the Hungarian accented letters occurring in the handled
texts. -/
def isWordChar (c : Char) : Bool :=
  c.isAlphanum || c = '_' || ("áéíóöőúüűÁÉÍÓÖŐÚÜŰ".toList.contains c)

inductive RE where
  | lit (s : String) (ci : Bool)
  | cls (p : Char → Bool) (lo : Nat) (hi : Option Nat) (lazyMode : Bool)
  | grp (idx : Nat) (rs : List RE)
  | alt (a b : List RE)
  | opt (rs : List RE)
  | wb

/-- Captures: group index to matched substring. -/
abbrev RECaps := List (Nat × String)

def ciEqChar (ci : Bool) (a b : Char) : Bool :=
  if ci then a.toLower == b.toLower else a == b

def litMatch (ci : Bool) : List Char → List Char → Option (List Char)
  | [], s => some s
  | _ :: _, [] => none
  | p :: ps, c :: cs => if ciEqChar ci p c then litMatch ci ps cs else none

/-- The length of the longest run of `p`-characters, capped at `bound`. -/
def clsRunLen (p : Char → Bool) : Nat → List Char → Nat
  | _, [] => 0
  | 0, _ => 0
  | b + 1, c :: cs => if p c then clsRunLen p b cs + 1 else 0

/-- Candidate consumption counts for `p{lo,hi}`, in backtracking priority
order: greedy tries the longest first, lazy the shortest. -/
def countChoices (lo maxk : Nat) (lazyMode : Bool) : List Nat :=
  if lo > maxk then []
  else
    let r := (List.range (maxk - lo + 1)).map (lo + ·)
    if lazyMode then r else r.reverse

/-- Consume `k` characters, tracking the last consumed character. -/
def consumeK : Option Char → List Char → Nat → Option Char × List Char
  | prev, s, 0 => (prev, s)
  | prev, [], _ + 1 => (prev, [])
  | _, c :: cs, k + 1 => consumeK (some c) cs k

def lastOr (l : List Char) (dflt : Option Char) : Option Char :=
  match l.getLast? with
  | some c => some c
  | none => dflt

/-- All ways `pat` matches a prefix of `s` (`prev` is the character before
`s`, for word boundaries), in backtracking priority order; each result is
(captures, character before the suffix, remaining suffix).  The fuel bounds
the number of pattern nodes traversed along one path, making the recursion
structural; every pattern below is far smaller than the fuel `reSearch`
supplies. -/
def matchSeqF : Nat → List RE → Option Char → List Char → List (RECaps × Option Char × List Char)
  | 0, _, _, _ => []
  | _ + 1, [], prev, s => [([], prev, s)]
  | f + 1, .lit ls ci :: es, prev, s =>
    match litMatch ci ls.toList s with
    | none => []
    | some s' => matchSeqF f es (lastOr ls.toList prev) s'
  | f + 1, .cls p lo hi lazyMode :: es, prev, s =>
    let maxk := clsRunLen p (hi.getD s.length) s
    (countChoices lo maxk lazyMode).flatMap (fun k =>
      let st := consumeK prev s k
      matchSeqF f es st.1 st.2)
  | f + 1, .grp idx rs :: es, prev, s =>
    (matchSeqF f rs prev s).flatMap (fun r =>
      let taken := s.take (s.length - r.2.2.length)
      (matchSeqF f es r.2.1 r.2.2).map (fun r2 =>
        (r.1 ++ [(idx, String.mk taken)] ++ r2.1, r2.2)))
  | f + 1, .alt a b :: es, prev, s =>
    ((matchSeqF f a prev s).flatMap (fun r =>
      (matchSeqF f es r.2.1 r.2.2).map (fun r2 => (r.1 ++ r2.1, r2.2))))
    ++ ((matchSeqF f b prev s).flatMap (fun r =>
      (matchSeqF f es r.2.1 r.2.2).map (fun r2 => (r.1 ++ r2.1, r2.2))))
  | f + 1, .opt rs :: es, prev, s =>
    ((matchSeqF f rs prev s).flatMap (fun r =>
      (matchSeqF f es r.2.1 r.2.2).map (fun r2 => (r.1 ++ r2.1, r2.2))))
    ++ matchSeqF f es prev s
  | f + 1, .wb :: es, prev, s =>
    let before := match prev with | some c => isWordChar c | none => false
    let after := match s with | c :: _ => isWordChar c | [] => false
    if before != after then matchSeqF f es prev s else []

def matchSeq (pat : List RE) (prev : Option Char) (s : List Char) :
    List (RECaps × Option Char × List Char) :=
  matchSeqF 1000 pat prev s

/-- `re.search`, returning the captures and suffix after the leftmost
match. -/
def reSearchAux (pat : List RE) : Option Char → List Char → Option (RECaps × List Char)
  | prev, [] =>
    match matchSeq pat prev [] with
    | r :: _ => some (r.1, r.2.2)
    | [] => none
  | prev, c :: cs =>
    match matchSeq pat prev (c :: cs) with
    | r :: _ => some (r.1, r.2.2)
    | [] => reSearchAux pat (some c) cs

def reSearch (pat : List RE) (s : String) : Option RECaps :=
  (reSearchAux pat none s.toList).map (·.1)

/-- `re.finditer` (captures of each match); fuel bounds the scan. -/
def reFindIterAux (pat : List RE) : Option Char → List Char → Nat → List RECaps
  | _, _, 0 => []
  | prev, s, fuel + 1 =>
    match matchSeq pat prev s with
    | r :: _ =>
      if r.2.2.length = s.length then
        r.1 :: (match s with
          | [] => []
          | c :: cs => reFindIterAux pat (some c) cs fuel)
      else r.1 :: reFindIterAux pat r.2.1 r.2.2 fuel
    | [] =>
      match s with
      | [] => []
      | c :: cs => reFindIterAux pat (some c) cs fuel

def reFindIter (pat : List RE) (s : String) : List RECaps :=
  reFindIterAux pat none s.toList (s.toList.length + 1)

def capStr (caps : RECaps) (i : Nat) : String :=
  match caps.find? (fun p => p.1 == i) with
  | some p => p.2
  | none => ""

def natOfDigits (s : String) : Nat :=
  s.toList.foldl (fun n c => n * 10 + (c.toNat - 48)) 0

def capNat (caps : RECaps) (i : Nat) : Nat :=
  natOfDigits (capStr caps i)

/-! ## The deterministic extractor
(`app/services/extraction/deterministic.py`,
`app/services/extraction/patterns/hungarian.py`,
`app/services/extraction/patterns/english.py`)

`dateparser.parse` is an external library and enters as the parameter `dp`
(`None`/datetime result); `pytz` is the external timezone database, of which
the verified scenario touches only `Europe/Budapest`, embedded via the EU
daylight-saving rule. -/

/-- Substring containment (`needle in hay` on Python strings; the empty
needle is contained everywhere). -/
def containsSubAux (needle : List Char) : List Char → Bool
  | [] => needle.isEmpty
  | c :: rest => needle.isPrefixOf (c :: rest) || containsSubAux needle rest

def strContainsSub (hay needle : String) : Bool :=
  containsSubAux needle.toList hay.toList

/-- `DATE_HEADER_PATTERN = r"(?P<y>\d{4})\.(?P<m>\d{2})\.(?P<d>\d{2})\."`
(named groups as 1/2/3). -/
def dateHeaderPattern : List RE :=
  [.grp 1 [.cls (fun c => c.isDigit) 4 (some 4) false], .lit "." false,
   .grp 2 [.cls (fun c => c.isDigit) 2 (some 2) false], .lit "." false,
   .grp 3 [.cls (fun c => c.isDigit) 2 (some 2) false], .lit "." false]

def wsCls : RE := .cls isSpaceChar 0 none false

def ws1Cls : RE := .cls isSpaceChar 1 none false

/-- `TIME_PATTERN = r"(?P<h>\d{1,2})\s*óra\s*(?P<m>\d{1,2})\s*perc"`. -/
def timePattern : List RE :=
  [.grp 1 [.cls (fun c => c.isDigit) 1 (some 2) false], wsCls, .lit "óra" false,
   wsCls, .grp 2 [.cls (fun c => c.isDigit) 1 (some 2) false], wsCls,
   .lit "perc" false]

/-- `TIME_PATTERN_ALT = r"(?P<h>\d{1,2}):(?P<m>\d{2})"`. -/
def timePatternAlt : List RE :=
  [.grp 1 [.cls (fun c => c.isDigit) 1 (some 2) false], .lit ":" false,
   .grp 2 [.cls (fun c => c.isDigit) 2 (some 2) false]]

/-- `r"(?i)terem\s*:?\s*([A-Z0-9\-\.]+)"` (the class is case-insensitive
under `(?i)`). -/
def roomPattern1 : List RE :=
  [.lit "terem" true, wsCls, .opt [.lit ":" false], wsCls,
   .grp 1 [.cls (fun c => c.isAlpha || c.isDigit || c = '-' || c = '.') 1 none false]]

/-- `r"\b([A-Z]{1,2}[\-\.]?\d{2,4})\b"` (no `(?i)`). -/
def roomPattern2 : List RE :=
  [.wb, .grp 1 [.cls (fun c => 'A' ≤ c && c ≤ 'Z') 1 (some 2) false,
    .cls (fun c => c = '-' || c = '.') 0 (some 1) false,
    .cls (fun c => c.isDigit) 2 (some 4) false], .wb]

/-- The `\d{1,2}[\/\-]\d{1,2}[\/\-]\d{2,4}` date group of the English
patterns. -/
def dateGrp (idx : Nat) : RE :=
  .grp idx [.cls (fun c => c.isDigit) 1 (some 2) false,
    .cls (fun c => c = '/' || c = '-') 1 (some 1) false,
    .cls (fun c => c.isDigit) 1 (some 2) false,
    .cls (fun c => c = '/' || c = '-') 1 (some 1) false,
    .cls (fun c => c.isDigit) 2 (some 4) false]

/-- The `(\d{1,2}:\d{2}\s*(?:AM|PM)?)` time group. -/
def clockGrp (idx : Nat) : RE :=
  .grp idx [.cls (fun c => c.isDigit) 1 (some 2) false, .lit ":" false,
    .cls (fun c => c.isDigit) 2 (some 2) false, wsCls,
    .opt [.alt [.lit "AM" true] [.lit "PM" true]]]

/-- First meeting pattern:
`r"(?i)meeting[:\s]+([^\.]+?)(?:\s+on\s+|\s+)(date)(?:\s+at\s+|\s+)(time)"`. -/
def meetingPattern1 : List RE :=
  [.lit "meeting" true, .cls (fun c => c = ':' || isSpaceChar c) 1 none false,
   .grp 1 [.cls (fun c => c != '.') 1 none true],
   .alt [ws1Cls, .lit "on" true, ws1Cls] [ws1Cls],
   dateGrp 2,
   .alt [ws1Cls, .lit "at" true, ws1Cls] [ws1Cls],
   clockGrp 3]

/-- Second meeting pattern:
`r"(?i)(\w+.*?)\s+meeting\s+(?:on\s+)?(date)\s+(?:at\s+)?(time)"`. -/
def meetingPattern2 : List RE :=
  [.grp 1 [.cls isWordChar 1 none false, .cls (fun c => c != '\n') 0 none true],
   ws1Cls, .lit "meeting" true, ws1Cls, .opt [.lit "on" true, ws1Cls],
   dateGrp 2, ws1Cls, .opt [.lit "at" true, ws1Cls], clockGrp 3]

/-- The flight pattern:
`r"(?i)(?:flight\s+)?([A-Z]{2}\s*\d{3,4}).*?(?:from\s+)?([A-Z]{3}).*?(?:to\s+)?([A-Z]{3}).*?(date)\s+(?:at\s+)?(time)"`. -/
def flightPattern : List RE :=
  [.opt [.lit "flight" true, ws1Cls],
   .grp 1 [.cls (fun c => c.isAlpha) 2 (some 2) false, wsCls,
     .cls (fun c => c.isDigit) 3 (some 4) false],
   .cls (fun c => c != '\n') 0 none true,
   .opt [.lit "from" true, ws1Cls],
   .grp 2 [.cls (fun c => c.isAlpha) 3 (some 3) false],
   .cls (fun c => c != '\n') 0 none true,
   .opt [.lit "to" true, ws1Cls],
   .grp 3 [.cls (fun c => c.isAlpha) 3 (some 3) false],
   .cls (fun c => c != '\n') 0 none true,
   dateGrp 4, ws1Cls, .opt [.lit "at" true, ws1Cls], clockGrp 5]

/-- First deadline pattern: `r"(?i)([^\.]+?)\s+due\s+(?:on\s+)?(date)"`. -/
def deadlinePattern1 : List RE :=
  [.grp 1 [.cls (fun c => c != '.') 1 none true], ws1Cls, .lit "due" true,
   ws1Cls, .opt [.lit "on" true, ws1Cls], dateGrp 2]

/-- Second deadline pattern:
`r"(?i)deadline[:\s]+([^\.]+?)\s+(?:on\s+)?(date)"`. -/
def deadlinePattern2 : List RE :=
  [.lit "deadline" true, .cls (fun c => c = ':' || isSpaceChar c) 1 none false,
   .grp 1 [.cls (fun c => c != '.') 1 none true], ws1Cls,
   .opt [.lit "on" true, ws1Cls], dateGrp 2]

/-- The anchored generic-title pattern `r'^([^:;,\.]{5,50})'`. -/
def genericTitlePattern : List RE :=
  [.grp 1 [.cls (fun c => !(c = ':' || c = ';' || c = ',' || c = '.')) 5 (some 50) false]]

/-- The day of the last Sunday of a month (1970-01-04 was a Sunday). -/
def lastSunday (y m : Nat) : Nat :=
  let d := daysInMonth y m
  let z := daysFromCivil (y : Int) m d
  Int.toNat ((d : Int) - (z - 3) % 7)

/-- Is a Budapest wall-clock datetime in daylight-saving time?  EU rule:
DST runs from the last Sunday of March 01:00 UTC (02:00→03:00 local) to the
last Sunday of October 01:00 UTC (03:00→02:00 local); `pytz.localize` with
the default `is_dst=False` resolves ambiguous and nonexistent wall times
towards standard time. -/
def budapestIsDst (dt : PyDateTime) : Bool :=
  if dt.month < 3 || dt.month > 10 then false
  else if 3 < dt.month && dt.month < 10 then true
  else if dt.month = 3 then
    let ls := lastSunday dt.year 3
    dt.day > ls || (dt.day = ls && dt.hour ≥ 3)
  else
    let ls := lastSunday dt.year 10
    dt.day < ls || (dt.day = ls && dt.hour < 2)

def budapestLocalize (dt : PyDateTime) : PyDateTime :=
  { dt with tzoffset := some (if budapestIsDst dt then 120 else 60) }

/-- `pytz.timezone(name).localize(dt)`: the modelled zone database contains
`Europe/Budapest`; other names are outside the verified scope and leave the
datetime naive. -/
def pytzLocalize (tzName : String) (dt : PyDateTime) : PyDateTime :=
  if tzName = "Europe/Budapest" then budapestLocalize dt else dt

/-- `datetime(y, m, d)` with CPython's calendar validation. -/
def pyDatetime (y m d : Nat) : Except PyErr PyDateTime :=
  if y < 1 || y > 9999 || m < 1 || m > 12 || d < 1 || d > daysInMonth y m then
    throw .valueError
  else pure ⟨y, m, d, 0, 0, 0, 0, none⟩

/-- `dt.replace(hour=h, minute=mnt)` with CPython's range validation. -/
def pyReplaceHM (dt : PyDateTime) (h mnt : Nat) : Except PyErr PyDateTime :=
  if h ≥ 24 || mnt ≥ 60 then throw .valueError
  else pure { dt with hour := h, minute := mnt }

/-- `text.split('\n')`. -/
def splitNlAux : List Char → List Char → List String
  | acc, [] => [String.mk acc.reverse]
  | acc, c :: cs =>
    if c = '\n' then String.mk acc.reverse :: splitNlAux [] cs
    else splitNlAux (c :: acc) cs

def splitNl (s : String) : List String :=
  splitNlAux [] s.toList

def asciiUpper (s : String) : String :=
  String.mk (s.toList.map Char.toUpper)

/-- `_is_likely_hungarian(text)`: marker substring check on the lowered
text. -/
def hungarianMarkers : List String :=
  ["óra", "perc", "neptun", "vizsga", "évfolyam", "terem", "hallgató"]

def _is_likely_hungarian (text : String) : Bool :=
  hungarianMarkers.any (fun m => strContainsSub (asciiLower text) m)

/-- `_extract_room_from_line(line)`. -/
def _extract_room_from_line (line : String) : Option String :=
  match reSearch roomPattern1 line with
  | some caps => some (capStr caps 1)
  | none =>
    match reSearch roomPattern2 line with
    | some caps => some (capStr caps 1)
    | none => none

/-- `line.split('—')[0]`. -/
def splitEmDashHead (line : String) : String :=
  String.mk (line.toList.takeWhile (fun c => c != '—'))

/-- `line.split('—')[0].strip() if '—' in line else ""`. -/
def namePartOf (line : String) : String :=
  if line.toList.contains '—' then pyStrip (splitEmDashHead line) else ""

def optLocValue : Option String → Value
  | some s => .str s
  | none => .null

/-- `extract_hungarian_exam_schedule(text, timezone, user_name, neptun_id)`.
Invalid header dates or out-of-range replace hours raise `ValueError`
exactly as the CPython `datetime` calls do. -/
def extract_hungarian_exam_schedule (text timezone : String)
    (user_name neptun_id : Option String) : Except PyErr (List PyDict) := do
  match reSearch dateHeaderPattern text with
  | none => pure []
  | some dcaps => do
    let base ← pyDatetime (capNat dcaps 1) (capNat dcaps 2) (capNat dcaps 3)
    (splitNl text).foldlM (fun events line => do
      if pyStrip line = "" then pure events
      else
        let mu1 := match user_name with
          | some u => u ≠ "" && strContainsSub (asciiLower line) (asciiLower u)
          | none => false
        let mu2 := !mu1 && (match neptun_id with
          | some nid => nid ≠ "" && strContainsSub (asciiUpper line) (asciiUpper nid)
          | none => false)
        let noFilter := (match user_name with | some u => u = "" | none => true)
          && (match neptun_id with | some nid => nid = "" | none => true)
        if !(mu1 || mu2 || noFilter) then pure events
        else
          match (match reSearch timePattern line with
                 | some t => some t
                 | none => reSearch timePatternAlt line) with
          | none => pure events
          | some tcaps => do
            let naive ← pyReplaceHM base (capNat tcaps 1) (capNat tcaps 2)
            let start := pytzLocalize timezone naive
            let endDt := start.addMinutes 30
            let name_part := namePartOf line
            pure (events ++ [[
              ("type", Value.str "event"),
              ("title", Value.str "Exam appointment"),
              ("start", Value.str start.isoformat),
              ("end", Value.str endDt.isoformat),
              ("timezone", Value.str timezone),
              ("location", optLocValue (_extract_room_from_line line)),
              ("notes", Value.str ("Imported from schedule. "
                ++ (if name_part = "" then "Matched user." else name_part))),
              ("labels", Value.list [Value.str "exam"]),
              ("reminders", Value.list [
                Value.dict [("method", Value.str "popup"), ("minutes", Value.num 1440)],
                Value.dict [("method", Value.str "popup"), ("minutes", Value.num 120)],
                Value.dict [("method", Value.str "popup"), ("minutes", Value.num 30)]])]]))
      []

/-- `extract_hungarian_patterns`: the only pattern family is the exam
schedule. -/
def extract_hungarian_patterns (text timezone : String)
    (user_name neptun_id : Option String) : Except PyErr (List PyDict) :=
  extract_hungarian_exam_schedule text timezone user_name neptun_id

/-- One match of a meeting pattern to events (`dateparser` via `dp`). -/
def mkMeetingEvent (dp : String → Option PyDateTime) (timezone : String)
    (caps : RECaps) : List PyDict :=
  let title := pyStrip (capStr caps 1)
  match dp (capStr caps 2 ++ " " ++ capStr caps 3) with
  | none => []
  | some dt =>
    [[("type", Value.str "event"),
      ("title", Value.str (if strContainsSub (asciiLower title) "meeting"
        then title else title ++ " meeting")),
      ("start", Value.str dt.isoformat),
      ("end", Value.str (dt.addHours 1).isoformat),
      ("timezone", Value.str timezone),
      ("labels", Value.list [Value.str "meeting"]),
      ("reminders", Value.list [
        Value.dict [("method", Value.str "popup"), ("minutes", Value.num 15)]])]]

def _extract_meetings (dp : String → Option PyDateTime)
    (text timezone : String) : List PyDict :=
  (reFindIter meetingPattern1 text).flatMap (mkMeetingEvent dp timezone)
  ++ (reFindIter meetingPattern2 text).flatMap (mkMeetingEvent dp timezone)

def mkFlightEvent (dp : String → Option PyDateTime) (timezone : String)
    (caps : RECaps) : List PyDict :=
  let fn := pyStrip (capStr caps 1)
  let origin := capStr caps 2
  let dest := capStr caps 3
  match dp (capStr caps 4 ++ " " ++ capStr caps 5) with
  | none => []
  | some dt =>
    [[("type", Value.str "event"),
      ("title", Value.str ("Flight " ++ fn ++ ": " ++ origin ++ " → " ++ dest)),
      ("start", Value.str dt.isoformat),
      ("end", Value.str (dt.addHours 3).isoformat),
      ("timezone", Value.str timezone),
      ("notes", Value.str ("Flight from " ++ origin ++ " to " ++ dest)),
      ("labels", Value.list [Value.str "flight", Value.str "travel"]),
      ("reminders", Value.list [
        Value.dict [("method", Value.str "popup"), ("minutes", Value.num 1440)],
        Value.dict [("method", Value.str "popup"), ("minutes", Value.num 180)],
        Value.dict [("method", Value.str "popup"), ("minutes", Value.num 60)]])]]

def _extract_flights (dp : String → Option PyDateTime)
    (text timezone : String) : List PyDict :=
  (reFindIter flightPattern text).flatMap (mkFlightEvent dp timezone)

def mkDeadlineEvent (dp : String → Option PyDateTime) (timezone : String)
    (caps : RECaps) : List PyDict :=
  let task := pyStrip (capStr caps 1)
  match dp (capStr caps 2 ++ " 23:59") with
  | none => []
  | some dt =>
    [[("type", Value.str "task"),
      ("title", Value.str task),
      ("start", Value.str dt.isoformat),
      ("timezone", Value.str timezone),
      ("allday", Value.bool true),
      ("labels", Value.list [Value.str "deadline"]),
      ("reminders", Value.list [
        Value.dict [("method", Value.str "popup"), ("minutes", Value.num 1440)],
        Value.dict [("method", Value.str "popup"), ("minutes", Value.num 360)]])]]

def _extract_deadlines (dp : String → Option PyDateTime)
    (text timezone : String) : List PyDict :=
  (reFindIter deadlinePattern1 text).flatMap (mkDeadlineEvent dp timezone)
  ++ (reFindIter deadlinePattern2 text).flatMap (mkDeadlineEvent dp timezone)

def extract_english_patterns (dp : String → Option PyDateTime)
    (text timezone : String) : List PyDict :=
  _extract_meetings dp text timezone ++ _extract_flights dp text timezone
    ++ _extract_deadlines dp text timezone

/-- `_extract_generic_dates(text, timezone)` (`dateparser` via `dp`). -/
def _extract_generic_dates (dp : String → Option PyDateTime)
    (text timezone : String) : List PyDict :=
  (splitNl text).flatMap (fun line =>
    if (pyStrip line).length < 10 then []
    else
      match dp line with
      | none => []
      | some date =>
        let stripped := pyStrip line
        let title := match matchSeq genericTitlePattern none stripped.toList with
          | r :: _ => pyStrip (capStr r.1 1)
          | [] => "Event"
        [[("title", Value.str title),
          ("start", Value.str date.isoformat),
          ("end", Value.str (date.addHours 1).isoformat),
          ("timezone", Value.str timezone),
          ("notes", Value.str stripped)]])

/-- The dedup signature `f"{start}:{title[:20]}"`; the extractors only emit
string titles, so the `.lower().strip()` chain is total here. -/
def dedupSignature (ev : PyDict) : String :=
  let startv := pyGetD ev "start" (.str "")
  let title := match pyGetD ev "title" (.str "") with
    | .str s => pyStrip (asciiLower s)
    | _ => ""
  pyFormat startv ++ ":" ++ String.mk (title.toList.take 20)

/-- `_deduplicate_events(events)`. -/
def _deduplicate_events (events : List PyDict) : List PyDict :=
  (events.foldl (fun acc ev =>
    let sig := dedupSignature ev
    if acc.1.contains sig then acc
    else (acc.1 ++ [sig], acc.2 ++ [ev])) (([], []) : List String × List PyDict)).2

/-- `extract_events_deterministic(text, timezone, user_name, neptun_id)`. -/
def extract_events_deterministic (dp : String → Option PyDateTime)
    (text timezone : String) (user_name neptun_id : Option String) :
    Except PyErr (List PyDict) := do
  let hungarian ← if _is_likely_hungarian text then
      extract_hungarian_patterns text timezone user_name neptun_id
    else pure []
  let events := hungarian ++ extract_english_patterns dp text timezone
  let events := if events.isEmpty then
      events ++ _extract_generic_dates dp text timezone
    else events
  pure (_deduplicate_events events)

/-- The Hungarian exam-schedule scenario text (§8 of the spec). -/
def scenarioText : String :=
  "2025.11.04.\nBalogh Csaba — 8 óra 50 perc\nKovács Anna — 9 óra 20 perc"

/-- The single draft the scenario is expected to produce. -/
def scenarioExamDraft : PyDict :=
  [("type", Value.str "event"),
   ("title", Value.str "Exam appointment"),
   ("start", Value.str "2025-11-04T08:50:00+01:00"),
   ("end", Value.str "2025-11-04T09:20:00+01:00"),
   ("timezone", Value.str "Europe/Budapest"),
   ("location", Value.null),
   ("notes", Value.str "Imported from schedule. Balogh Csaba"),
   ("labels", Value.list [Value.str "exam"]),
   ("reminders", Value.list [
     Value.dict [("method", Value.str "popup"), ("minutes", Value.num 1440)],
     Value.dict [("method", Value.str "popup"), ("minutes", Value.num 120)],
     Value.dict [("method", Value.str "popup"), ("minutes", Value.num 30)]])]

/-! ## The LLM extractor (`app/services/extraction/llm.py`)

The OpenAI call and `json.loads` are external libraries; they enter the
embedding as parameters: `call` is the outcome of
`openai.ChatCompletion.create(...)` followed by
`response.choices[0].message.content` (a string on success, an exception
otherwise), and `parseJson` is `json.loads`.  The prompt is built from the
inputs but cannot influence the shape of the result beyond `call`, which is
universally quantified. -/

/-- The settings the extractor guards on. -/
structure LLMSettings where
  OPENAI_API_KEY : String
  ENABLE_LLM_FALLBACK : Bool
deriving DecidableEq, Repr

/-- `result.get("events", [])`: `.get` exists on dicts; any other JSON
top-level value raises `AttributeError`. -/
def jsonGetEvents (v : Value) : Except PyErr Value :=
  match v with
  | .dict kvs => pure (pyGetD kvs "events" (.list []))
  | _ => throw .attributeError

/-- Python `needle in v`: key test on dicts, substring on strings, membership
on lists, `TypeError` otherwise. -/
def pyInV (needle : String) (v : Value) : Except PyErr Bool :=
  match v with
  | .dict kvs => pure (pyContains kvs needle)
  | .str s => pure (strContainsSub s needle)
  | .list xs => pure (xs.any (fun x => Value.scalarEq x (.str needle)))
  | _ => throw .typeError

/-- One iteration of the metadata loop:

    if "notes" not in event: event["notes"] = ""
    event["notes"] += "\n[Extracted by AI]"

Non-dict events raise (`TypeError` on item assignment / string subscripts),
and the exception is caught by the surrounding `except`. -/
def annotateEvent (event : Value) : Except PyErr Value := do
  let hasNotes ← pyInV "notes" event
  let event1 ← if !hasNotes then
      match event with
      | .dict kvs => pure (Value.dict (pySet kvs "notes" (.str "")))
      | _ => throw .typeError
    else pure event
  match event1 with
  | .dict kvs => do
    let cur ← pyIndex event1 "notes"
    let upd ← pyIAdd cur "\n[Extracted by AI]"
    pure (Value.dict (pySet kvs "notes" upd))
  | _ => throw .typeError

/-- The body of the `try:` block of `extract_events_llm` — everything from
the API call to the annotated event list. -/
def llmTryBody (call : Except PyErr String)
    (parseJson : String → Except PyErr Value) : Except PyErr (List Value) := do
  let result_text ← call
  let result ← parseJson result_text
  let eventsV ← jsonGetEvents result
  let events ← pyIter eventsV
  events.mapM annotateEvent

/-- `extract_events_llm(text, timezone, context)`: guard on the API key and
the feature flag, then run the `try:` body; *any* exception yields `[]`. -/
def extract_events_llm (st : LLMSettings) (call : Except PyErr String)
    (parseJson : String → Except PyErr Value) : List Value :=
  if st.OPENAI_API_KEY = "" then []
  else if !st.ENABLE_LLM_FALLBACK then []
  else
    match llmTryBody call parseJson with
    | .ok events => events
    | .error _ => []

/-! ### Concrete scenario data for the lifecycle results -/

/-- A merged event dict as the merger emits it: stored confidence `0.85`
(a deterministic draft with start, end, title and location merged under a
trusted-sender context would carry `0.3+0.05+0.2+0.1+0.2 = 0.85`). -/
def scenarioDict : PyDict :=
  [("title", .str "Exam appointment"),
   ("start", .str "2025-11-04T08:50:00+01:00"),
   ("confidence", .num 0.85)]

/-- The row `buildEventRow ⟨true⟩ 1 7 "gmail" scenarioDict` creates. -/
def scenarioRow : EventRow :=
  { user_id := 1
    type_ := .str "event"
    title := .str "Exam appointment"
    start := { year := 2025, month := 11, day := 4, hour := 8, minute := 50,
               tzoffset := some 60 }
    end_ := none
    allday := .bool false
    timezone := .str "Europe/Budapest"
    location := .null
    online_url := .null
    notes := .null
    attendees := .list []
    reminders := .list []
    labels := .list []
    recurrence := .null
    provider := "gmail"
    confidence := .num 0.85
    extraction_method := .str "hybrid"
    status := .pending_approval
    approved_at := none }

/-- `scenarioRow` after a user approval and a successful calendar sync. -/
def scenarioRowSynced : EventRow :=
  syncOkRow 9 "gcal-1" 5 (approveRow 8 [] scenarioRow)

/-! # Theorems -/

/-! ## Generic `Except` plumbing -/

theorem except_bind_ok {ε α β : Type} {x : Except ε α} {f : α → Except ε β}
    {b : β} (h : (x >>= f) = .ok b) : ∃ a, x = .ok a ∧ f a = .ok b := by
  cases x with
  | error e => simp [Bind.bind, Except.bind] at h
  | ok a => exact ⟨a, rfl, by simpa [Bind.bind, Except.bind] using h⟩

/-! ## Lifecycle lemmas -/

theorem pmDecision_scenario : pmStatusDecision ⟨true⟩ scenarioDict = .ok false := by
  norm_num +decide [pmStatusDecision, should_auto_approve, calculate_event_confidence,
    titleBonus, ocrAttenuate, pmApprovalContext, scenarioDict, pyGet, pyGetD,
    pyGet?, pyLen, pyLtNum, Value.truthy, Value.eqStr, Bind.bind, Except.bind,
    pure, Except.pure, min_def, List.find?_cons_of_neg, List.find?_cons_of_pos]

theorem buildEventRow_concrete :
    buildEventRow ⟨true⟩ 1 7 "gmail" scenarioDict = .ok scenarioRow := by
  simp only [buildEventRow, pmDecision_scenario, Bind.bind, Except.bind]
  rfl

/-- Every row the persist stage creates starts out `APPROVED` or
`PENDING_APPROVAL`. -/
theorem buildEventRow_status (user : UserRec) (uid now : Nat) (provider : String)
    (eventData : PyDict) (row : EventRow)
    (h : buildEventRow user uid now provider eventData = .ok row) :
    row.status = .approved ∨ row.status = .pending_approval := by
  simp only [buildEventRow] at h
  obtain ⟨approve, -, h⟩ := except_bind_ok h
  obtain ⟨title, -, h⟩ := except_bind_ok h
  obtain ⟨startRaw, -, h⟩ := except_bind_ok h
  obtain ⟨startStr, -, h⟩ := except_bind_ok h
  obtain ⟨start, -, h⟩ := except_bind_ok h
  obtain ⟨endOpt, -, h⟩ := except_bind_ok h
  simp only [pure, Except.pure, Except.ok.injEq] at h
  subst h
  cases approve with
  | true => exact Or.inl rfl
  | false => exact Or.inr rfl

theorem setField_preserves_lifecycle (e : EventRow) (f : PatchField)
    (v : Value ⊕ Option PyDateTime) :
    (setField e f v).status = e.status
    ∧ (setField e f v).external_event_id = e.external_event_id
    ∧ (setField e f v).synced_at = e.synced_at
    ∧ (setField e f v).user_id = e.user_id := by
  cases f <;> rcases v with v | (_ | dt) <;> exact ⟨rfl, rfl, rfl, rfl⟩

theorem applyPatch_preserves_lifecycle
    (mods : List (PatchField × (Value ⊕ Option PyDateTime))) (e : EventRow) :
    (applyPatch mods e).status = e.status
    ∧ (applyPatch mods e).external_event_id = e.external_event_id
    ∧ (applyPatch mods e).synced_at = e.synced_at
    ∧ (applyPatch mods e).user_id = e.user_id := by
  induction mods generalizing e with
  | nil => exact ⟨rfl, rfl, rfl, rfl⟩
  | cons kv tl ih =>
    have h1 := setField_preserves_lifecycle e kv.1 kv.2
    have h2 := ih (setField e kv.1 kv.2)
    simp only [applyPatch, List.foldl_cons] at h2 ⊢
    exact ⟨h2.1.trans h1.1, h2.2.1.trans h1.2.1, h2.2.2.1.trans h1.2.2.1,
           h2.2.2.2.trans h1.2.2.2⟩

theorem findOwnedEvent_update (db : EventDB) (eid uid : Nat)
    (f : EventRow → EventRow) (hf : ∀ r, (f r).user_id = r.user_id)
    (e : EventRow) (h : findOwnedEvent db eid uid = some e) :
    findOwnedEvent (updateOwnedEvent db eid uid f) eid uid = some (f e) := by
  induction db with
  | nil => simp [findOwnedEvent] at h
  | cons hd tl ih =>
    simp only [findOwnedEvent, updateOwnedEvent, List.map_cons, List.find?_cons] at h ⊢
    by_cases hc : (hd.1 == eid && hd.2.user_id == uid) = true
    · rw [hc] at h
      simp only [Option.map_some', Option.some.injEq] at h
      rw [if_pos hc]
      have hc' : ((hd.1, f hd.2).1 == eid && (hd.1, f hd.2).2.user_id == uid) = true := by
        simpa only [hf] using hc
      rw [hc']
      simp [h]
    · have hcf : (hd.1 == eid && hd.2.user_id == uid) = false :=
        Bool.not_eq_true _ ▸ eq_false_of_ne_true hc
      rw [hcf] at h
      rw [if_neg (by simp [hcf]), hcf]
      exact ih h

/-! ## Helper lemmas about the orchestrator's approval context -/

theorem titleBonus_bounds (e : PyDict) (c : ℚ) (h : titleBonus e = .ok c) :
    0 ≤ c ∧ c ≤ 0.2 := by
  simp only [titleBonus] at h
  split at h
  · cases hl : pyLen (pyGetD e "title" (.str "")) with
    | error err => rw [hl] at h; exact absurd h (by simp [Bind.bind, Except.bind])
    | ok n =>
      rw [hl] at h
      simp only [Bind.bind, Except.bind, pure, Except.pure, Except.ok.injEq] at h
      subst h
      split <;> norm_num
  · simp only [pure, Except.pure, Except.ok.injEq] at h
    subst h
    norm_num

theorem ocrAttenuate_pmContext (e : PyDict) (b : ℚ) :
    ocrAttenuate (pmApprovalContext e) b = .ok b := rfl

/-- Through the context the orchestrator passes (`{"confidence": ...}` only),
the recomputed confidence can never reach `0.9`: the extraction-method bonus,
the trusted-sender bonus and the stored confidence are all invisible to it,
so the score is at most `0.3 + 0.05 + 0.2 + 0.1 = 0.65`. -/
theorem calc_pmContext_lt (e : PyDict) (c : ℚ)
    (h : calculate_event_confidence e (some (pmApprovalContext e)) = .ok c) :
    c ≤ 0.65 := by
  simp only [calculate_event_confidence, Option.getD] at h
  cases hb : titleBonus e with
  | error err =>
    rw [hb] at h
    exact absurd h (by simp [Bind.bind, Except.bind])
  | ok c2 =>
    rw [hb] at h
    simp only [Bind.bind, Except.bind] at h
    rw [ocrAttenuate_pmContext] at h
    simp only [pure, Except.pure, Except.ok.injEq] at h
    obtain ⟨h0, h2⟩ := titleBonus_bounds e c2 hb
    subst h
    refine le_trans (min_le_left _ _) ?_
    have hc4 :
        pyGetD (pmApprovalContext e) "extraction_method" (.str "") = .str "" := rfl
    have hc5 : pyGet (pmApprovalContext e) "trusted_sender" = .null := rfl
    have e4 : (Value.str "").eqStr "deterministic" = false := rfl
    have e5 : (Value.str "").eqStr "llm" = false := rfl
    have e6 : (Value.str "").eqStr "hybrid" = false := rfl
    have e7 : Value.truthy .null = false := rfl
    simp only [hc4, hc5, e4, e5, e6, e7, Bool.false_eq_true, if_false]
    by_cases hA : (pyGet e "start").truthy = true <;>
      by_cases hB : (pyGet e "end").truthy = true <;>
      by_cases hC : ((pyGet e "location").truthy || (pyGet e "online_url").truthy) = true <;>
      simp [hA, hB, hC] <;> linarith

theorem pmStatusDecision_never_true (u : UserRec) (e : PyDict) :
    pmStatusDecision u e = .ok false ∨ ∃ err, pmStatusDecision u e = .error err := by
  unfold pmStatusDecision should_auto_approve
  by_cases ha : u.auto_approve_enabled
  · simp only [ha, Bool.not_true, Bind.bind]
    cases hc : calculate_event_confidence e (some (pmApprovalContext e)) with
    | error err =>
      right
      exact ⟨err, by simp [hc, Bind.bind, Except.bind]⟩
    | ok c =>
      left
      have hlt : c ≤ 0.65 := calc_pmContext_lt e c hc
      have h9 : ¬ (c ≥ 0.9) := by norm_num; linarith
      have htr : ∀ x : Value,
          (pyGet [("confidence", x)] "trusted_sender").truthy = false := fun _ => rfl
      simp [hc, Bind.bind, Except.bind, h9, htr, pmApprovalContext]
      rfl
  · simp only [ha, Bool.not_false, if_pos]
    exact Or.inl rfl



/-! ## C1, C2, C3, C10 -/

/-- C1 (code bug in the pipeline orchestrator): `process_message_task`
contains no `sync_event_to_calendar.delay` call at all, so whatever rows the
persist stage creates, the list of enqueued calendar-sync jobs is empty — the
claimed "enqueue a sync job for auto-approved events" does not happen. -/
theorem C1_persist_enqueues_no_sync_job :
    (∀ (user : UserRec) (uid now : Nat) (provider : String)
        (merged : List PyDict) (out : List EventRow × List SyncJob),
        processPersistStage user uid now provider merged = .ok out → out.2 = [])
    ∧ processPersistStage ⟨true⟩ 1 7 "gmail" [scenarioDict] =
        .ok ([scenarioRow], []) := by
  constructor
  · intro user uid now provider merged out h
    simp only [processPersistStage] at h
    obtain ⟨rows, -, h⟩ := except_bind_ok h
    simp only [pure, Except.pure, Except.ok.injEq] at h
    rw [← h]
  · simp only [processPersistStage, List.mapM, List.mapM.loop, buildEventRow_concrete,
      Bind.bind, Except.bind, pure, Except.pure, List.reverse_cons, List.reverse_nil,
      List.nil_append]

theorem C1_persist_enqueues_no_sync_job_witness :
    (([scenarioRow], ([] : List SyncJob)) : List EventRow × List SyncJob).2 = [] :=
  C1_persist_enqueues_no_sync_job.1 ⟨true⟩ 1 7 "gmail" [scenarioDict]
    ([scenarioRow], []) C1_persist_enqueues_no_sync_job.2

/-- C2 (code bug in the pipeline orchestrator): the claim's auto-approval
rule never fires.  `process_message_task` calls `should_auto_approve` with the
context `{"confidence": stored}`, which `calculate_event_confidence` ignores:
without `extraction_method` and `trusted_sender` the recomputed score is at
most `0.65 < 0.9`, and the trusted-sender branch never triggers, so every
persisted event is `PENDING_APPROVAL`.  In particular the concrete merged
event with stored confidence `0.85` from a trusted sender and a user with
`auto_approve_enabled=true` — which the claim says is created `APPROVED` — is
decided `False` (created `PENDING_APPROVAL`). -/
theorem C2_pipeline_never_auto_approves :
    (∀ (u : UserRec) (e : PyDict),
        pmStatusDecision u e = .ok false ∨ ∃ err, pmStatusDecision u e = .error err)
    ∧ pmStatusDecision ⟨true⟩ scenarioDict = .ok false :=
  ⟨pmStatusDecision_never_true, pmDecision_scenario⟩

/-- C3 counterexample: the claim's "no operation can leave a non-SYNCED event
holding a non-null `external_event_id`" is false.  A pipeline event that is
approved, successfully synced (acquiring `external_event_id = "gcal-1"`), and
then rejected — `reject_event` has no status precondition and clears nothing —
is a reachable row with `status = REJECTED` and a non-null external id. -/
theorem C3_counterexample_reject_keeps_external_id :
    ReachableRow (rejectRow 10 scenarioRowSynced)
    ∧ (rejectRow 10 scenarioRowSynced).status = .rejected
    ∧ (rejectRow 10 scenarioRowSynced).external_event_id = some "gcal-1" := by
  refine ⟨?_, rfl, rfl⟩
  have h0 : ReachableRow scenarioRow :=
    .init ⟨true⟩ 1 7 "gmail" scenarioDict scenarioRow buildEventRow_concrete
  have h1 : ReachableRow (approveRow 8 [] scenarioRow) :=
    .step _ _ h0 (.approve 8 [] scenarioRow rfl)
  have h2 : ReachableRow scenarioRowSynced :=
    .step _ _ h1 (.syncOk 9 "gcal-1" 5 _ rfl)
  exact .step _ _ h2 (.reject 10 _)

/-- C3 (amended): the forward direction of invariant I1 holds on every
reachable row — `status = SYNCED` implies `external_event_id ≠ null` and
`synced_at ≠ null`; only a successful sync sets `SYNCED`, and it sets both
fields.  (The converse direction fails: see the counterexample — rejecting a
synced event keeps its external id with `status = REJECTED`.) -/
theorem C3_synced_implies_external_id (e : EventRow) (h : ReachableRow e)
    (hs : e.status = .synced) :
    e.external_event_id.isSome = true ∧ e.synced_at.isSome = true := by
  induction h with
  | init user uid now provider eventData row hb =>
    rcases buildEventRow_status user uid now provider eventData row hb with h1 | h1 <;>
      rw [hs] at h1 <;> cases h1
  | step e e' hr hstep ih =>
    cases hstep with
    | patch mods =>
      obtain ⟨hst, hext, hsy, -⟩ := applyPatch_preserves_lifecycle mods e
      rw [hext, hsy]
      exact ih (hst.symm.trans hs)
    | approve now mods hpre => exact absurd hs (by simp [approveRow])
    | reject now => exact absurd hs (by simp [rejectRow])
    | syncErr hpre => exact absurd hs (by simp [syncErrRow])
    | syncOk now extId cid hpre => exact ⟨rfl, rfl⟩

theorem C3_synced_implies_external_id_witness :
    scenarioRowSynced.external_event_id.isSome = true
    ∧ scenarioRowSynced.synced_at.isSome = true := by
  have h0 : ReachableRow scenarioRow :=
    .init ⟨true⟩ 1 7 "gmail" scenarioDict scenarioRow buildEventRow_concrete
  have h1 : ReachableRow (approveRow 8 [] scenarioRow) :=
    .step _ _ h0 (.approve 8 [] scenarioRow rfl)
  have h2 : ReachableRow scenarioRowSynced :=
    .step _ _ h1 (.syncOk 9 "gcal-1" 5 _ rfl)
  exact C3_synced_implies_external_id scenarioRowSynced h2 rfl

/-- C10: `reject_event` has no status precondition.  For any owned event, in
any status whatsoever, the endpoint succeeds, sets `status = REJECTED` and
records `rejected_at`; it returns 404 exactly when no event with that id
belongs to the caller, and it can never return 400. -/
theorem C10_reject_any_status :
    (∀ (db : EventDB) (eid uid now : Nat) (e : EventRow),
        findOwnedEvent db eid uid = some e →
          reject_event db eid uid now =
            .ok (updateOwnedEvent db eid uid (rejectRow now))
          ∧ findOwnedEvent (updateOwnedEvent db eid uid (rejectRow now)) eid uid
              = some (rejectRow now e)
          ∧ (rejectRow now e).status = .rejected
          ∧ (rejectRow now e).rejected_at = some now)
    ∧ (∀ (db : EventDB) (eid uid now : Nat),
        findOwnedEvent db eid uid = none →
          reject_event db eid uid now = .error .notFound404)
    ∧ (∀ (db : EventDB) (eid uid now : Nat),
        reject_event db eid uid now ≠ .error .badRequest400) := by
  refine ⟨?_, ?_, ?_⟩
  · intro db eid uid now e h
    exact ⟨by unfold reject_event; rw [h]; rfl,
      findOwnedEvent_update db eid uid (rejectRow now) (fun _ => rfl) e h, rfl, rfl⟩
  · intro db eid uid now h
    unfold reject_event
    rw [h]
    rfl
  · intro db eid uid now h
    unfold reject_event at h
    cases hfind : findOwnedEvent db eid uid <;> rw [hfind] at h
    · exact ApiError.noConfusion (Except.error.inj h)
    · exact Except.noConfusion h

theorem C10_reject_any_status_witness :
    reject_event [(5, scenarioRowSynced)] 5 1 11 =
        .ok (updateOwnedEvent [(5, scenarioRowSynced)] 5 1 (rejectRow 11))
    ∧ findOwnedEvent (updateOwnedEvent [(5, scenarioRowSynced)] 5 1 (rejectRow 11)) 5 1
        = some (rejectRow 11 scenarioRowSynced)
    ∧ reject_event [] 5 1 11 = .error .notFound404 := by
  obtain ⟨h1, h2, -⟩ := C10_reject_any_status
  have hfind : findOwnedEvent [(5, scenarioRowSynced)] 5 1 = some scenarioRowSynced := rfl
  obtain ⟨a, b, -, -⟩ := h1 [(5, scenarioRowSynced)] 5 1 11 scenarioRowSynced hfind
  exact ⟨a, b, h2 [] 5 1 11 rfl⟩

/-! ## Dict algebra -/

theorem pyGet?_pySet_ne (d : PyDict) (k k' : String) (v : Value) (h : k' ≠ k) :
    pyGet? (pySet d k v) k' = pyGet? d k' := by
  unfold pySet pyGet?
  by_cases hc : pyContains d k
  · rw [if_pos hc, List.find?_map]
    have hp : ((fun kv : String × Value => kv.1 == k') ∘
        (fun kv => if kv.1 == k then (k, v) else kv))
        = (fun kv : String × Value => kv.1 == k') := by
      funext kv
      by_cases h1 : (kv.1 == k) = true
      · have hk : kv.1 = k := by simpa using h1
        simp [Function.comp, h1, hk]
      · simp [Function.comp, h1]
    rw [hp]
    cases hf : d.find? (fun kv => kv.1 == k') with
    | none => rfl
    | some kv =>
      have hpkv := List.find?_some hf
      have hk' : kv.1 = k' := by simpa using hpkv
      have hb : (kv.1 == k) = false := beq_eq_false_iff_ne.mpr (by rw [hk']; exact h)
      simp [hb]
      rw [if_neg (beq_eq_false_iff_ne.mp hb)]
  · rw [if_neg hc, List.find?_append]
    cases hf : d.find? (fun kv => kv.1 == k') with
    | none =>
      have hkk : (k == k') = false := by
        simp only [beq_eq_false_iff_ne, ne_eq]
        exact fun hh => h hh.symm
      simp [List.find?, hkk]
    | some kv => simp

theorem pyGet?_pySet_self (d : PyDict) (k : String) (v : Value) :
    pyGet? (pySet d k v) k = some v := by
  unfold pySet pyGet?
  by_cases hc : pyContains d k
  · rw [if_pos hc, List.find?_map]
    have hp : ((fun kv : String × Value => kv.1 == k) ∘
        (fun kv => if kv.1 == k then (k, v) else kv))
        = (fun kv : String × Value => kv.1 == k) := by
      funext kv
      by_cases h1 : (kv.1 == k) = true
      · simp [Function.comp, h1]
      · simp [Function.comp, h1]
    rw [hp]
    unfold pyContains pyGet? at hc
    cases hf : d.find? (fun kv => kv.1 == k) with
    | none => rw [hf] at hc; simp at hc
    | some kv =>
      have hk : kv.1 = k := by simpa using List.find?_some hf
      simp [hk]
  · rw [if_neg hc, List.find?_append]
    unfold pyContains pyGet? at hc
    cases hf : d.find? (fun kv => kv.1 == k) with
    | none => simp [List.find?]
    | some kv => rw [hf] at hc; simp at hc

theorem pyGet_pySet_ne (d : PyDict) (k k' : String) (v : Value) (h : k' ≠ k) :
    pyGet (pySet d k v) k' = pyGet d k' := by
  unfold pyGet
  rw [pyGet?_pySet_ne d k k' v h]

/-! ## Merge machinery: well-formed drafts merge without raising -/

theorem wfFieldVal_get (d : PyDict) (k : String) (dflt : Value)
    (hd : WFDraft d = true) (hdflt : wfFieldVal k dflt = true) :
    wfFieldVal k (pyGetD d k dflt) = true := by
  unfold pyGetD pyGet?
  cases hf : d.find? (fun kv => kv.1 == k) with
  | none => simpa using hdflt
  | some kv =>
    have hmem : kv ∈ d := List.mem_of_find?_eq_some hf
    have hk : kv.1 = k := by simpa using List.find?_some hf
    have hwf := List.all_eq_true.mp hd kv hmem
    simpa [hk] using hwf

theorem WFDraft_pySet (d : PyDict) (k : String) (v : Value)
    (hd : WFDraft d = true) (hv : wfFieldVal k v = true) :
    WFDraft (pySet d k v) = true := by
  unfold pySet WFDraft
  split
  · refine List.all_eq_true.mpr ?_
    intro kv hkv
    obtain ⟨kv0, hkv0, heq⟩ := List.mem_map.mp hkv
    by_cases h1 : (kv0.1 == k) = true
    · rw [if_pos h1] at heq
      rw [← heq]
      exact hv
    · rw [if_neg h1] at heq
      rw [← heq]
      exact List.all_eq_true.mp hd kv0 hkv0
  · refine List.all_eq_true.mpr ?_
    intro kv hkv
    rcases List.mem_append.mp hkv with hmem | hmem
    · exact List.all_eq_true.mp hd kv hmem
    · have : kv = (k, v) := by simpa using hmem
      rw [this]
      exact hv

theorem scalarEq_str {w v : Value} (hw : isStrVal w = true) (hv : isStrVal v = true) :
    (Value.scalarEq w v = true) ↔ w = v := by
  cases w <;> cases v <;> simp_all [isStrVal, Value.scalarEq]

theorem scalarEq_num {a b : ℚ} :
    (Value.scalarEq (.num a) (.num b) = true) ↔ Value.num a = Value.num b := by
  simp [Value.scalarEq]

theorem pySetListAux_str (l : List Value) (hl : l.all isStrVal = true)
    (acc : List Value) (hacc : acc.all isStrVal = true) :
    ∃ ys, pySetListAux acc l = .ok ys ∧ ys.all isStrVal = true
      ∧ (∀ v, v ∈ ys ↔ v ∈ acc ∨ v ∈ l) := by
  induction l generalizing acc with
  | nil => exact ⟨acc, rfl, hacc, by simp⟩
  | cons x xs ih =>
    have hl' := hl
    simp only [List.all_cons, Bool.and_eq_true] at hl'
    obtain ⟨hx, hxs⟩ := hl'
    have hhash : x.hashable = true := by
      cases x <;> simp_all [isStrVal, Value.hashable]
    unfold pySetListAux
    rw [List.foldlM_cons]
    by_cases hmem : (acc.any (fun w => Value.scalarEq w x)) = true
    · have hstep : (if x.hashable = true then
            if acc.any (fun w => Value.scalarEq w x) = true then pure acc
            else pure (acc ++ [x])
          else (throw .typeError : Except PyErr (List Value))) = pure acc := by
        simp [hhash, hmem]
      rw [hstep, pure_bind]
      obtain ⟨ys, h1, h2, h3⟩ := ih hxs acc hacc
      refine ⟨ys, h1, h2, fun v => ?_⟩
      rw [h3 v]
      constructor
      · rintro (hv | hv)
        · exact Or.inl hv
        · exact Or.inr (List.mem_cons_of_mem _ hv)
      · rintro (hv | hv)
        · exact Or.inl hv
        · rcases List.mem_cons.mp hv with rfl | hv
          · obtain ⟨w, hw, hweq⟩ := List.any_eq_true.mp hmem
            have hws : isStrVal w = true := List.all_eq_true.mp hacc w hw
            have heq := (scalarEq_str hws hx).mp hweq
            exact Or.inl (heq ▸ hw)
          · exact Or.inr hv
    · have hstep : (if x.hashable = true then
            if acc.any (fun w => Value.scalarEq w x) = true then pure acc
            else pure (acc ++ [x])
          else (throw .typeError : Except PyErr (List Value))) = pure (acc ++ [x]) := by
        simp [hhash, hmem]
      rw [hstep, pure_bind]
      have hacc' : (acc ++ [x]).all isStrVal = true := by
        simp only [List.all_append, Bool.and_eq_true]
        exact ⟨hacc, by simpa using hx⟩
      obtain ⟨ys, h1, h2, h3⟩ := ih hxs (acc ++ [x]) hacc'
      refine ⟨ys, h1, h2, fun v => ?_⟩
      rw [h3 v]
      simp only [List.mem_append, List.mem_singleton, List.mem_cons]
      tauto

theorem pySetList_str (xs : List Value) (h : xs.all isStrVal = true) :
    ∃ ys, pySetList xs = .ok ys ∧ ys.all isStrVal = true
      ∧ (∀ v, v ∈ ys ↔ v ∈ xs) := by
  obtain ⟨ys, h1, h2, h3⟩ := pySetListAux_str xs h [] rfl
  exact ⟨ys, h1, h2, fun v => by simpa using h3 v⟩

theorem wfLabels_inv {v : Value} (h : wfFieldVal "labels" v = true) :
    ∃ xs, v = .list xs ∧ xs.all isStrVal = true := by
  cases v <;> simp_all [wfFieldVal]

theorem wfRems_inv {v : Value} (h : wfFieldVal "reminders" v = true) :
    ∃ xs, v = .list xs ∧ xs.all wfRem = true := by
  cases v <;> simp_all [wfFieldVal]

theorem wfRem_num {r x : Value} (hr : wfRem r = true) (hx : minutesOf? r = some x) :
    ∃ b : ℚ, x = .num b := by
  unfold wfRem at hr
  rw [hx] at hr
  cases x <;> simp_all

theorem wfRem_shape {r : Value} (hr : wfRem r = true) :
    ∃ (kvs : List (String × Value)) (a : ℚ),
      r = .dict kvs ∧ pyGet? kvs "minutes" = some (.num a) := by
  unfold wfRem minutesOf? at hr
  cases r with
  | dict kvs =>
    dsimp only at hr
    refine ⟨kvs, ?_⟩
    cases hg : pyGet? kvs "minutes" with
    | none => rw [hg] at hr; exact absurd hr (by simp)
    | some v =>
      rw [hg] at hr
      cases v with
      | num a => exact ⟨a, rfl, rfl⟩
      | null => exact absurd hr (by simp)
      | bool b => exact absurd hr (by simp)
      | str s => exact absurd hr (by simp)
      | list xs => exact absurd hr (by simp)
      | dict kvs2 => exact absurd hr (by simp)
  | null => exact absurd hr (by simp)
  | bool b => exact absurd hr (by simp)
  | num q => exact absurd hr (by simp)
  | str s => exact absurd hr (by simp)
  | list xs => exact absurd hr (by simp)

theorem assocSet_entries (m : List (Value × Value)) (a : ℚ) (r : Value)
    (hm : ∀ p ∈ m, ∃ b : ℚ, p.1 = Value.num b) :
    ∀ p ∈ assocSet m (.num a) r, (p.1 = .num a ∧ p.2 = r) ∨ p ∈ m := by
  intro p hp
  unfold assocSet at hp
  split at hp
  · obtain ⟨kv, hkv, heq⟩ := List.mem_map.mp hp
    by_cases hc : (Value.scalarEq kv.1 (.num a)) = true
    · rw [if_pos hc] at heq
      obtain ⟨b, hb⟩ := hm kv hkv
      have : kv.1 = Value.num a := by
        rw [hb] at hc ⊢
        exact scalarEq_num.mp hc
      left
      rw [← heq]
      exact ⟨this, rfl⟩
    · rw [if_neg hc] at heq
      right
      rw [← heq]
      exact hkv
  · rcases List.mem_append.mp hp with hmem | hmem
    · exact Or.inr hmem
    · left
      have : p = (Value.num a, r) := by simpa using hmem
      rw [this]
      exact ⟨rfl, rfl⟩

theorem assocSet_keys (m : List (Value × Value)) (a : ℚ) (r : Value)
    (hm : ∀ p ∈ m, ∃ b : ℚ, p.1 = Value.num b) :
    ∀ q, (∃ p ∈ assocSet m (.num a) r, p.1 = q)
      ↔ (∃ p ∈ m, p.1 = q) ∨ q = .num a := by
  intro q
  unfold assocSet
  split
  case isTrue hany =>
    constructor
    · rintro ⟨p, hp, rfl⟩
      obtain ⟨kv, hkv, heq⟩ := List.mem_map.mp hp
      by_cases hc : (Value.scalarEq kv.1 (.num a)) = true
      · rw [if_pos hc] at heq
        rw [← heq]
        exact Or.inl ⟨kv, hkv, rfl⟩
      · rw [if_neg hc] at heq
        rw [← heq]
        exact Or.inl ⟨kv, hkv, rfl⟩
    · rintro (⟨p, hp, rfl⟩ | rfl)
      · refine ⟨if Value.scalarEq p.1 (.num a) then (p.1, r) else p, List.mem_map_of_mem _ hp, ?_⟩
        split <;> rfl
      · obtain ⟨kv, hkv, hkveq⟩ := List.any_eq_true.mp hany
        obtain ⟨b, hb⟩ := hm kv hkv
        have hk : kv.1 = Value.num a := by
          rw [hb] at hkveq ⊢
          exact scalarEq_num.mp hkveq
        refine ⟨if Value.scalarEq kv.1 (.num a) then (kv.1, r) else kv,
          List.mem_map_of_mem _ hkv, ?_⟩
        split <;> simp [hk]
  case isFalse hany =>
    constructor
    · rintro ⟨p, hp, rfl⟩
      rcases List.mem_append.mp hp with hmem | hmem
      · exact Or.inl ⟨p, hmem, rfl⟩
      · have : p = (Value.num a, r) := by simpa using hmem
        rw [this]
        exact Or.inr rfl
    · rintro (⟨p, hp, rfl⟩ | rfl)
      · exact ⟨p, List.mem_append_left _ hp, rfl⟩
      · exact ⟨(Value.num a, r), List.mem_append_right _ (by simp), rfl⟩

theorem remMapInsert_ok (m : List (Value × Value)) (r : Value) (hr : wfRem r = true)
    (hm : ∀ p ∈ m, wfRem p.2 = true ∧ minutesOf? p.2 = some p.1) :
    ∃ m', remMapInsert m r = .ok m'
      ∧ (∀ p ∈ m', wfRem p.2 = true ∧ minutesOf? p.2 = some p.1)
      ∧ (∀ q, (∃ p ∈ m', p.1 = q) ↔ (∃ p ∈ m, p.1 = q) ∨ minutesOf? r = some q) := by
  obtain ⟨kvs, a, hr1, hr2⟩ := wfRem_shape hr
  have hmins : minutesOf? r = some (.num a) := by
    rw [hr1]
    unfold minutesOf?
    exact hr2
  have hkeys : ∀ p ∈ m, ∃ b : ℚ, p.1 = Value.num b := by
    intro p hp
    obtain ⟨hw, hmin⟩ := hm p hp
    exact wfRem_num hw hmin
  have hins : remMapInsert m r = .ok (assocSet m (.num a) r) := by
    unfold remMapInsert pyIndex
    rw [hr1]
    dsimp only
    rw [hr2]
    rfl
  refine ⟨assocSet m (.num a) r, hins, ?_, ?_⟩
  · intro p hp
    rcases assocSet_entries m a r hkeys p hp with ⟨h1, h2⟩ | hmem
    · rw [h1, h2]
      exact ⟨hr, hmins⟩
    · exact hm p hmem
  · intro q
    rw [assocSet_keys m a r hkeys q, hmins]
    constructor
    · rintro (h | rfl)
      · exact Or.inl h
      · exact Or.inr rfl
    · rintro (h | h)
      · exact Or.inl h
      · exact Or.inr (by simpa using h.symm)

theorem remFold_ok (rs : List Value) (hrs : rs.all wfRem = true)
    (m : List (Value × Value))
    (hm : ∀ p ∈ m, wfRem p.2 = true ∧ minutesOf? p.2 = some p.1) :
    ∃ m', rs.foldlM remMapInsert m = .ok m'
      ∧ (∀ p ∈ m', wfRem p.2 = true ∧ minutesOf? p.2 = some p.1)
      ∧ (∀ q, (∃ p ∈ m', p.1 = q)
          ↔ (∃ p ∈ m, p.1 = q) ∨ ∃ r ∈ rs, minutesOf? r = some q) := by
  induction rs generalizing m with
  | nil => exact ⟨m, rfl, hm, by simp⟩
  | cons r rs ih =>
    have hrs' := hrs
    simp only [List.all_cons, Bool.and_eq_true] at hrs'
    obtain ⟨hr, hrest⟩ := hrs'
    obtain ⟨m1, h1, h2, h3⟩ := remMapInsert_ok m r hr hm
    obtain ⟨m', h4, h5, h6⟩ := ih hrest m1 h2
    refine ⟨m', ?_, h5, ?_⟩
    · rw [List.foldlM_cons, h1]
      simpa using h4
    · intro q
      rw [h6 q, h3 q]
      constructor
      · rintro ((h | h) | h)
        · exact Or.inl h
        · exact Or.inr ⟨r, by simp, h⟩
        · obtain ⟨r', hr', hq⟩ := h
          exact Or.inr ⟨r', List.mem_cons_of_mem _ hr', hq⟩
      · rintro (h | ⟨r', hr', hq⟩)
        · exact Or.inl (Or.inl h)
        · rcases List.mem_cons.mp hr' with rfl | hmem
          · exact Or.inl (Or.inr hq)
          · exact Or.inr ⟨r', hmem, hq⟩

theorem mergeField_ok (base ev : PyDict) (k : String) (v : Value)
    (hb : WFDraft base = true) (hev : WFDraft ev = true)
    (hv : wfFieldVal k v = true) :
    ∃ b', mergeField base ev k v = .ok b' ∧ WFDraft b' = true := by
  unfold mergeField
  by_cases hki : keyIsInternal k = true
  · rw [if_pos hki]
    exact ⟨base, rfl, hb⟩
  · rw [if_neg hki]
    by_cases hcopy : (!(pyContains base k) || !(pyGet base k).truthy) = true
    · rw [if_pos hcopy]
      exact ⟨pySet base k v, rfl, WFDraft_pySet _ _ _ hb hv⟩
    · rw [if_neg hcopy]
      by_cases hkl : (k == "labels") = true
      · rw [if_pos hkl]
        have hkeq : k = "labels" := by simpa using hkl
        subst hkeq
        have hbl : wfFieldVal "labels" (pyGetD base "labels" (.list [])) = true :=
          wfFieldVal_get base "labels" (.list []) hb rfl
        obtain ⟨bs, hbs1, hbs2⟩ := wfLabels_inv hbl
        have hel : wfFieldVal "labels" (pyGetD ev "labels" (.list [])) = true :=
          wfFieldVal_get ev "labels" (.list []) hev rfl
        obtain ⟨es, hes1, hes2⟩ := wfLabels_inv hel
        have hall : (bs ++ es).all isStrVal = true := by
          simp only [List.all_append, Bool.and_eq_true]
          exact ⟨hbs2, hes2⟩
        obtain ⟨ys, hys1, hys2, -⟩ := pySetList_str (bs ++ es) hall
        refine ⟨pySet base "labels" (.list ys), ?_, ?_⟩
        · rw [hbs1, hes1]
          simp only [pyIter, pure_bind]
          rw [hys1]
          rfl
        · refine WFDraft_pySet _ _ _ hb ?_
          simp [wfFieldVal, hys2]
      · rw [if_neg hkl]
        by_cases hkr : (k == "reminders") = true
        · rw [if_pos hkr]
          have hkeq : k = "reminders" := by simpa using hkr
          subst hkeq
          have hbr : wfFieldVal "reminders" (pyGetD base "reminders" (.list [])) = true :=
            wfFieldVal_get base "reminders" (.list []) hb rfl
          obtain ⟨brs, hbr1, hbr2⟩ := wfRems_inv hbr
          have her : wfFieldVal "reminders" (pyGetD ev "reminders" (.list [])) = true :=
            wfFieldVal_get ev "reminders" (.list []) hev rfl
          obtain ⟨ers, her1, her2⟩ := wfRems_inv her
          obtain ⟨m1, hm1, hm1inv, -⟩ := remFold_ok brs hbr2 [] (by simp)
          obtain ⟨m2, hm2, hm2inv, -⟩ := remFold_ok ers her2 m1 hm1inv
          refine ⟨pySet base "reminders" (.list (m2.map (·.2))), ?_, ?_⟩
          · rw [hbr1, her1]
            simp only [pyIter, pure_bind]
            rw [hm1]
            simp only [Bind.bind, Except.bind, pure_bind]
            rw [hm2]
            rfl
          · refine WFDraft_pySet _ _ _ hb ?_
            have : (m2.map (·.2)).all wfRem = true := by
              rw [List.all_eq_true]
              intro x hx
              obtain ⟨p, hp, hpe⟩ := List.mem_map.mp hx
              rw [← hpe]
              exact (hm2inv p hp).1
            simp [wfFieldVal, this]
        · rw [if_neg hkr]
          by_cases hkn : (k == "notes") = true
          · rw [if_pos hkn]
            by_cases hcond : ((pyGet base "notes").truthy
                && (pyGet ev "notes").truthy) = true
            · rw [if_pos hcond]
              simp only [Bool.and_eq_true] at hcond
              have hwfn : wfFieldVal "notes" (pyGetD base "notes" .null) = true :=
                wfFieldVal_get base "notes" .null hb rfl
              have hbnotes : pyGet base "notes" = pyGetD base "notes" .null := rfl
              obtain ⟨s, hsval⟩ : ∃ s, pyGet base "notes" = .str s := by
                rw [hbnotes]
                rw [hbnotes] at hcond
                cases hval : pyGetD base "notes" .null with
                | str s => exact ⟨s, rfl⟩
                | null => rw [hval] at hcond; exact absurd hcond.1 (by simp [Value.truthy])
                | bool b =>
                  rw [hval] at hwfn
                  exact absurd hwfn (by simp [wfFieldVal, isStrOrNull])
                | num q =>
                  rw [hval] at hwfn
                  exact absurd hwfn (by simp [wfFieldVal, isStrOrNull])
                | list xs =>
                  rw [hval] at hwfn
                  exact absurd hwfn (by simp [wfFieldVal, isStrOrNull])
                | dict kvs =>
                  rw [hval] at hwfn
                  exact absurd hwfn (by simp [wfFieldVal, isStrOrNull])
              refine ⟨pySet base "notes"
                (.str (s ++ ("\n" ++ pyFormat (pyGet ev "notes")))), ?_, ?_⟩
              · rw [hsval]
                simp only [pyIAdd, pure_bind]
                rfl
              · refine WFDraft_pySet _ _ _ hb ?_
                simp [wfFieldVal, isStrOrNull]
            · rw [if_neg hcond]
              exact ⟨base, rfl, hb⟩
          · rw [if_neg hkn]
            exact ⟨base, rfl, hb⟩

theorem mergeItems_ok (ev : PyDict) (hev : WFDraft ev = true)
    (items : List (String × Value))
    (hitems : ∀ kv ∈ items, wfFieldVal kv.1 kv.2 = true)
    (base : PyDict) (hb : WFDraft base = true) :
    ∃ b', items.foldlM (fun b2 kv => mergeField b2 ev kv.1 kv.2) base = .ok b'
      ∧ WFDraft b' = true := by
  induction items generalizing base with
  | nil => exact ⟨base, rfl, hb⟩
  | cons kv tl ih =>
    obtain ⟨b1, h1, h2⟩ := mergeField_ok base ev kv.1 kv.2 hb hev (hitems kv (by simp))
    obtain ⟨b', h3, h4⟩ := ih (fun x hx => hitems x (List.mem_cons_of_mem _ hx)) b1 h2
    refine ⟨b', ?_, h4⟩
    rw [List.foldlM_cons, h1]
    simpa using h3

theorem mergeFold_ok : ∀ (rest : List PyDict), (∀ e ∈ rest, WFDraft e = true) →
    ∀ (base : PyDict), WFDraft base = true →
    ∃ m, rest.foldlM (fun b ev =>
        List.foldlM (fun b2 kv => mergeField b2 ev kv.1 kv.2) b ev) base = .ok m
      ∧ WFDraft m = true := by
  intro rest
  induction rest with
  | nil =>
    intro _ base hbase
    exact ⟨base, rfl, hbase⟩
  | cons ev tl ih =>
    intro hrest base hbase
    have hev : WFDraft ev = true := hrest ev (by simp)
    obtain ⟨b1, h1, h2⟩ := mergeItems_ok ev hev ev
      (fun kv hkv => List.all_eq_true.mp hev kv hkv) base hbase
    obtain ⟨m, h3, h4⟩ := ih (fun e he => hrest e (List.mem_cons_of_mem _ he)) b1 h2
    refine ⟨m, ?_, h4⟩
    rw [List.foldlM_cons, h1]
    simpa using h3

theorem mergeGroup_ok (g : List PyDict) (hne : g ≠ [])
    (hwf : ∀ e ∈ g, WFDraft e = true) :
    ∃ m, _merge_event_group g = .ok m ∧ WFDraft m = true := by
  unfold _merge_event_group
  have hperm : List.Perm (sortBySourcePref g) g := List.filter_append_perm _ g
  cases hs : sortBySourcePref g with
  | nil =>
    exfalso
    rw [hs] at hperm
    exact hne hperm.symm.eq_nil
  | cons base rest =>
    have hmemall : ∀ e ∈ base :: rest, WFDraft e = true := by
      intro e he
      apply hwf
      have hin : e ∈ sortBySourcePref g := hs ▸ he
      exact hperm.mem_iff.mp hin
    have hbase : WFDraft base = true := hmemall base (by simp)
    have hrest : ∀ e ∈ rest, WFDraft e = true :=
      fun e he => hmemall e (List.mem_cons_of_mem _ he)
    exact mergeFold_ok rest hrest base hbase

theorem foldlM_skip {α σ : Type} (f : σ → α → Except PyErr σ) (x : α)
    (hx : ∀ s, f s x = pure s) (l1 l2 : List α) (init : σ) :
    List.foldlM f init (l1 ++ x :: l2) = List.foldlM f init (l1 ++ l2) := by
  induction l1 generalizing init with
  | nil =>
    simp only [List.nil_append, List.foldlM_cons, hx, pure_bind]
  | cons a l1 ih =>
    simp only [List.cons_append, List.foldlM_cons]
    congr 1
    funext s
    exact ih s

theorem buildTimeGroups_skip (X Y : List PyDict) (d : PyDict)
    (h : (pyGet d "start").truthy = false) :
    buildTimeGroups (X ++ d :: Y) = buildTimeGroups (X ++ Y) := by
  unfold buildTimeGroups
  exact foldlM_skip _ d (fun s => by simp [buildTimeGroupsStep, h]) X Y []

theorem dedup_skip (X Y : List PyDict) (d : PyDict)
    (h : (pyGet d "start").truthy = false) :
    _deduplicate_by_similarity (X ++ d :: Y) = _deduplicate_by_similarity (X ++ Y) := by
  unfold _deduplicate_by_similarity
  rw [buildTimeGroups_skip X Y d h]
  by_cases he : (X ++ Y).isEmpty = true
  · have hXY : X ++ Y = [] := by simpa [List.isEmpty_iff] using he
    have hne : ((X ++ d :: Y).isEmpty) = false := by
      cases X <;> simp
    rw [if_neg (by simp [hne]), if_pos he, hXY]
    rfl
  · have hne : ((X ++ d :: Y).isEmpty) = false := by
      cases X <;> simp
    rw [if_neg (by simp [hne]), if_neg (by simp [List.isEmpty_iff] at he ⊢; exact he)]

/-- C9: a draft whose `start` is absent or null (more generally: falsy) is
silently discarded by the deduplication stage — removing it from either input
list leaves the entire output of `merge_and_validate_events` unchanged, so it
is never bucketed, never validated, and never appears in the output. -/
theorem C9_startless_drafts_silently_dropped
    (detA detB llmA llmB : List PyDict) (ctx : Option PyDict) (d : PyDict)
    (h : (pyGet d "start").truthy = false) :
    merge_and_validate_events (detA ++ d :: detB) (llmA ++ llmB) ctx
      = merge_and_validate_events (detA ++ detB) (llmA ++ llmB) ctx
    ∧ merge_and_validate_events (detA ++ detB) (llmA ++ d :: llmB) ctx
      = merge_and_validate_events (detA ++ detB) (llmA ++ llmB) ctx := by
  have htag : ∀ s : String, (pyGet (pySet d "_source" (.str s)) "start").truthy = false := by
    intro s
    rw [pyGet_pySet_ne d "_source" "start" (.str s) (by decide)]
    exact h
  constructor
  · unfold merge_and_validate_events
    dsimp only
    have : _deduplicate_by_similarity
        ((detA ++ d :: detB).map (fun e => pySet e "_source" (.str "deterministic"))
          ++ (llmA ++ llmB).map (fun e => pySet e "_source" (.str "llm")))
        = _deduplicate_by_similarity
        ((detA ++ detB).map (fun e => pySet e "_source" (.str "deterministic"))
          ++ (llmA ++ llmB).map (fun e => pySet e "_source" (.str "llm"))) := by
      have hre :
          (detA ++ d :: detB).map (fun e => pySet e "_source" (.str "deterministic"))
            ++ (llmA ++ llmB).map (fun e => pySet e "_source" (.str "llm"))
          = (detA.map (fun e => pySet e "_source" (.str "deterministic")))
            ++ (pySet d "_source" (.str "deterministic"))
              :: (detB.map (fun e => pySet e "_source" (.str "deterministic"))
                  ++ (llmA ++ llmB).map (fun e => pySet e "_source" (.str "llm"))) := by
        simp
      rw [hre, dedup_skip _ _ _ (htag "deterministic")]
      simp
    rw [this]
  · unfold merge_and_validate_events
    dsimp only
    have : _deduplicate_by_similarity
        ((detA ++ detB).map (fun e => pySet e "_source" (.str "deterministic"))
          ++ (llmA ++ d :: llmB).map (fun e => pySet e "_source" (.str "llm")))
        = _deduplicate_by_similarity
        ((detA ++ detB).map (fun e => pySet e "_source" (.str "deterministic"))
          ++ (llmA ++ llmB).map (fun e => pySet e "_source" (.str "llm"))) := by
      have hre :
          (detA ++ detB).map (fun e => pySet e "_source" (.str "deterministic"))
            ++ (llmA ++ d :: llmB).map (fun e => pySet e "_source" (.str "llm"))
          = ((detA ++ detB).map (fun e => pySet e "_source" (.str "deterministic"))
              ++ llmA.map (fun e => pySet e "_source" (.str "llm")))
            ++ (pySet d "_source" (.str "llm"))
              :: (llmB.map (fun e => pySet e "_source" (.str "llm"))) := by
        simp
      rw [hre, dedup_skip _ _ _ (htag "llm")]
      simp
    rw [this]

theorem C9_startless_drafts_silently_dropped_witness :
    merge_and_validate_events [[("title", Value.str "Orphan draft")]] [] none
      = merge_and_validate_events [] [] none := by
  have h := (C9_startless_drafts_silently_dropped [] [] [] [] none
    [("title", Value.str "Orphan draft")] rfl).1
  simpa using h

/-! ## C4 -/

theorem buildTimeGroupsStep_eval (groups : List (String × List PyDict))
    (d : PyDict) (s : String) (dt : PyDateTime)
    (hs : pyGet d "start" = .str s) (hne : s ≠ "") (hp : pyFromIso s = some dt) :
    buildTimeGroupsStep groups d
      = pure (appendToGroup groups ((roundTo15 dt).isoformat) d) := by
  unfold buildTimeGroupsStep
  rw [hs]
  have htr : (Value.str s).truthy = true := by simp [Value.truthy, hne]
  rw [if_pos htr]
  show (do
    let s' ← asPyStr (.str s)
    let key ← bucketKey s'
    pure (appendToGroup groups key d)) = _
  simp only [asPyStr, pure_bind]
  unfold bucketKey parseIsoOrRaise
  rw [hp]
  rfl

theorem sortBySourcePref_singleton (d : PyDict) : sortBySourcePref [d] = [d] := by
  unfold sortBySourcePref
  by_cases hd : ((pyGet d "_source").eqStr "deterministic") = true <;>
    simp [List.filter, hd]

theorem mergeGroup_singleton (d : PyDict) : _merge_event_group [d] = .ok d := by
  unfold _merge_event_group
  rw [sortBySourcePref_singleton]
  rfl

/-- C4 counterexample: the same instant written with two different UTC
offsets — `2025-11-04T08:50:00+01:00` and `2025-11-04T07:50:00Z` — with
identical titles is *not* merged: the bucket key is the rounded datetime's
`isoformat()` string, which keeps the original offset, so the two drafts land
in different buckets and the merger emits two events where the claim requires
one. -/
theorem C4_counterexample_same_instant_diff_offset :
    (pyFromIso "2025-11-04T08:50:00+01:00").map PyDateTime.instantSeconds
      = (pyFromIso "2025-11-04T07:50:00Z").map PyDateTime.instantSeconds
    ∧ titlesSimilarStr "Exam" "Exam" 0.5 = true
    ∧ _deduplicate_by_similarity
        [[("title", Value.str "Exam"), ("start", Value.str "2025-11-04T08:50:00+01:00")],
         [("title", Value.str "Exam"), ("start", Value.str "2025-11-04T07:50:00Z")]]
      = .ok [[("title", Value.str "Exam"), ("start", Value.str "2025-11-04T08:50:00+01:00")],
             [("title", Value.str "Exam"), ("start", Value.str "2025-11-04T07:50:00Z")]] := by
  refine ⟨rfl, ?_, rfl⟩
  have h1 : dedupFirst (pySplitWs (asciiLower "Exam")) = ["exam"] := rfl
  unfold titlesSimilarStr
  rw [h1]
  have h2 : ((["exam"].filter (fun w => ["exam"].contains w)).length : ℚ) = 1 := rfl
  have h3 : ((["exam"] ++ ["exam"].filter (fun w => !(["exam"].contains w))).length : ℚ) = 1 := rfl
  simp only [h2, h3]
  norm_num

/-- C4 (amended): in `_deduplicate_by_similarity`, two drafts (with truthy,
parseable string starts and canonically shaped fields) are merged into one
event exactly when (i) their starts, rounded down to the 15-minute wall-clock
boundary, have equal `isoformat()` strings — the key keeps each draft's
original UTC offset, so equal instants in different offsets bucket apart —
and (ii) the Jaccard similarity of their whitespace-split lowercase title
token sets is at least `0.5`. -/
theorem ok_bind {ε α β : Type} (a : α) (f : α → Except ε β) :
    ((Except.ok a : Except ε α) >>= f) = f a := rfl

theorem C4_bucket_and_similarity (d1 d2 : PyDict) (s1 s2 t1 t2 : String)
    (dt1 dt2 : PyDateTime)
    (h1s : pyGet d1 "start" = .str s1) (h1ne : s1 ≠ "")
    (h1p : pyFromIso s1 = some dt1)
    (h2s : pyGet d2 "start" = .str s2) (h2ne : s2 ≠ "")
    (h2p : pyFromIso s2 = some dt2)
    (h1t : pyGetD d1 "title" (.str "") = .str t1)
    (h2t : pyGetD d2 "title" (.str "") = .str t2)
    (h1w : WFDraft d1 = true) (h2w : WFDraft d2 = true) :
    ∃ out, _deduplicate_by_similarity [d1, d2] = .ok out
      ∧ (out.length = 1 ↔ ((roundTo15 dt1).isoformat = (roundTo15 dt2).isoformat
          ∧ titlesSimilarStr t1 t2 0.5 = true)) := by
  have hg1 : appendToGroup [] ((roundTo15 dt1).isoformat) d1
      = [((roundTo15 dt1).isoformat, [d1])] := rfl
  have htg : buildTimeGroups [d1, d2]
      = pure (appendToGroup [((roundTo15 dt1).isoformat, [d1])]
          ((roundTo15 dt2).isoformat) d2) := by
    unfold buildTimeGroups
    rw [List.foldlM_cons, buildTimeGroupsStep_eval [] d1 s1 dt1 h1s h1ne h1p,
      pure_bind, List.foldlM_cons,
      buildTimeGroupsStep_eval _ d2 s2 dt2 h2s h2ne h2p, hg1, pure_bind,
      List.foldlM_nil]
  have hlt : lowerTitles [d1, d2] = .ok [(d1, t1), (d2, t2)] := by
    unfold lowerTitles
    rw [List.mapM_cons, h1t]
    simp only [asPyStr, pure_bind]
    rw [List.mapM_cons, h2t]
    simp only [asPyStr, pure_bind, List.mapM_nil, pure_bind]
    rfl
  by_cases hk : (roundTo15 dt1).isoformat = (roundTo15 dt2).isoformat
  · -- same bucket: one two-draft group
    have happ : appendToGroup [((roundTo15 dt1).isoformat, [d1])]
        ((roundTo15 dt2).isoformat) d2
        = [((roundTo15 dt1).isoformat, [d1, d2])] := by
      unfold appendToGroup
      rw [← hk]
      simp
    by_cases hsim : titlesSimilarStr t1 t2 0.5 = true
    · -- similar: merged into a single event
      have hgrp : groupSimilarPure [(d1, t1), (d2, t2)] = [[(d1, t1), (d2, t2)]] := by
        rw [groupSimilarPure]
        simp only [List.filter, hsim, Bool.not_true]
        rw [groupSimilarPure]
      obtain ⟨m, hm, -⟩ := mergeGroup_ok [d1, d2] (by simp)
        (by
          intro e he
          rcases List.mem_cons.mp he with rfl | he
          · exact h1w
          · have : e = d2 := by simpa using he
            rw [this]
            exact h2w)
      have hmse : _merge_similar_events [d1, d2] = .ok [m] := by
        unfold _merge_similar_events
        rw [if_neg (by simp), hlt, ok_bind, hgrp, List.mapM_cons]
        have hmap : ([(d1, t1), (d2, t2)].map (fun p => p.1)) = [d1, d2] := rfl
        rw [hmap, hm, ok_bind, List.mapM_nil, pure_bind]
        rfl
      refine ⟨[m], ?_, by simp [hk, hsim]⟩
      unfold _deduplicate_by_similarity
      rw [if_neg (by simp), htg, pure_bind, happ, List.foldlM_cons]
      have hstep : (if ((((roundTo15 dt1).isoformat, [d1, d2])).2.length = 1) then
            (pure ([] ++ (((roundTo15 dt1).isoformat, [d1, d2])).2) :
              Except PyErr (List PyDict))
          else do
            let merged ← _merge_similar_events (((roundTo15 dt1).isoformat, [d1, d2])).2
            pure ([] ++ merged)) = pure [m] := by
        rw [if_neg (by simp)]
        show (do
          let merged ← _merge_similar_events [d1, d2]
          pure ([] ++ merged) : Except PyErr (List PyDict)) = pure [m]
        rw [hmse, ok_bind]
        rfl
      rw [hstep, pure_bind, List.foldlM_nil]
      rfl
    · -- same bucket, dissimilar titles: two singleton groups, two events
      have hgrp : groupSimilarPure [(d1, t1), (d2, t2)] = [[(d1, t1)], [(d2, t2)]] := by
        rw [groupSimilarPure]
        simp only [List.filter, hsim, Bool.not_false]
        rw [groupSimilarPure]
        simp only [List.filter]
        rw [groupSimilarPure]
      have hmse : _merge_similar_events [d1, d2] = .ok [d1, d2] := by
        unfold _merge_similar_events
        rw [if_neg (by simp), hlt, ok_bind, hgrp, List.mapM_cons]
        have hmap1 : ([(d1, t1)].map (fun p => p.1)) = [d1] := rfl
        rw [hmap1, mergeGroup_singleton, ok_bind, List.mapM_cons]
        have hmap2 : ([(d2, t2)].map (fun p => p.1)) = [d2] := rfl
        rw [hmap2, mergeGroup_singleton, ok_bind, List.mapM_nil, pure_bind]
        rfl
      refine ⟨[d1, d2], ?_, by simp [hsim]⟩
      unfold _deduplicate_by_similarity
      rw [if_neg (by simp), htg, pure_bind, happ, List.foldlM_cons]
      have hstep : (if ((((roundTo15 dt1).isoformat, [d1, d2])).2.length = 1) then
            (pure ([] ++ (((roundTo15 dt1).isoformat, [d1, d2])).2) :
              Except PyErr (List PyDict))
          else do
            let merged ← _merge_similar_events (((roundTo15 dt1).isoformat, [d1, d2])).2
            pure ([] ++ merged)) = pure [d1, d2] := by
        rw [if_neg (by simp)]
        show (do
          let merged ← _merge_similar_events [d1, d2]
          pure ([] ++ merged) : Except PyErr (List PyDict)) = pure [d1, d2]
        rw [hmse, ok_bind]
        rfl
      rw [hstep, pure_bind, List.foldlM_nil]
      rfl
  · -- different buckets: two singleton buckets, two events
    have hbeq : (((roundTo15 dt1).isoformat) == ((roundTo15 dt2).isoformat)) = false :=
      beq_eq_false_iff_ne.mpr hk
    have happ : appendToGroup [((roundTo15 dt1).isoformat, [d1])]
        ((roundTo15 dt2).isoformat) d2
        = [((roundTo15 dt1).isoformat, [d1]), ((roundTo15 dt2).isoformat, [d2])] := by
      unfold appendToGroup
      simp [hbeq]
    refine ⟨[d1, d2], ?_, by simp [hk]⟩
    unfold _deduplicate_by_similarity
    rw [if_neg (by simp), htg, pure_bind, happ, List.foldlM_cons]
    have hstep1 : (if ((((roundTo15 dt1).isoformat, [d1])).2.length = 1) then
          (pure ([] ++ (((roundTo15 dt1).isoformat, [d1])).2) :
            Except PyErr (List PyDict))
        else do
          let merged ← _merge_similar_events (((roundTo15 dt1).isoformat, [d1])).2
          pure ([] ++ merged)) = pure [d1] := by
      rw [if_pos (by simp)]
      rfl
    rw [hstep1, pure_bind, List.foldlM_cons]
    have hstep2 : (if ((((roundTo15 dt2).isoformat, [d2])).2.length = 1) then
          (pure ([d1] ++ (((roundTo15 dt2).isoformat, [d2])).2) :
            Except PyErr (List PyDict))
        else do
          let merged ← _merge_similar_events (((roundTo15 dt2).isoformat, [d2])).2
          pure ([d1] ++ merged)) = pure [d1, d2] := by
      rw [if_pos (by simp)]
      rfl
    rw [hstep2, pure_bind, List.foldlM_nil]
    rfl

theorem C4_bucket_and_similarity_witness :
    ∃ out, _deduplicate_by_similarity
        [[("title", Value.str "Exam"), ("start", Value.str "2025-11-04T08:50:00+01:00")],
         [("title", Value.str "Exam appointment"),
          ("start", Value.str "2025-11-04T08:53:00+01:00")]]
      = .ok out
      ∧ (out.length = 1 ↔
          ((roundTo15 ⟨2025, 11, 4, 8, 50, 0, 0, some 60⟩).isoformat
              = (roundTo15 ⟨2025, 11, 4, 8, 53, 0, 0, some 60⟩).isoformat
            ∧ titlesSimilarStr "Exam" "Exam appointment" 0.5 = true)) :=
  C4_bucket_and_similarity _ _
    "2025-11-04T08:50:00+01:00" "2025-11-04T08:53:00+01:00"
    "Exam" "Exam appointment"
    ⟨2025, 11, 4, 8, 50, 0, 0, some 60⟩ ⟨2025, 11, 4, 8, 53, 0, 0, some 60⟩
    rfl (by decide) rfl rfl (by decide) rfl rfl rfl rfl rfl

/-! ## C5: the field-merge semantics of `_merge_event_group` -/

theorem pyGet_pySet_self (d : PyDict) (k : String) (v : Value) :
    pyGet (pySet d k v) k = v := by
  unfold pyGet
  rw [pyGet?_pySet_self]
  rfl

theorem pyContains_of_truthy (d : PyDict) (k : String)
    (h : (pyGet d k).truthy = true) : pyContains d k = true := by
  unfold pyGet pyContains at *
  cases hf : pyGet? d k with
  | none => rw [hf] at h; exact absurd h (by simp [Value.truthy])
  | some v => rfl

theorem labelsOf_falsy (d : PyDict) (h : (pyGet d "labels").truthy = false) :
    labelsOf d = [] := by
  unfold labelsOf
  cases hv : pyGet d "labels" <;> simp_all [Value.truthy]

theorem remMinutes_falsy (d : PyDict) (h : (pyGet d "reminders").truthy = false) :
    remMinutes d = [] := by
  unfold remMinutes remindersOf
  cases hv : pyGet d "reminders" <;> simp_all [Value.truthy]

theorem mem_of_pyGet? (d : PyDict) (k : String) (v : Value)
    (h : pyGet? d k = some v) : (k, v) ∈ d := by
  unfold pyGet? at h
  cases hf : d.find? (fun kv => kv.1 == k) with
  | none => rw [hf] at h; simp at h
  | some kv =>
    rw [hf] at h
    have hk : kv.1 = k := by simpa using List.find?_some hf
    have hmem := List.mem_of_find?_eq_some hf
    have hv : kv.2 = v := by simpa using h
    have : kv = (k, v) := Prod.ext hk hv
    rw [← this]
    exact hmem

theorem pyGet?_of_mem_nodup (d : PyDict) (kv : String × Value)
    (hnd : (d.map Prod.fst).Nodup) (hmem : kv ∈ d) :
    pyGet? d kv.1 = some kv.2 := by
  induction d with
  | nil => simp at hmem
  | cons hd tl ih =>
    simp only [List.map_cons, List.nodup_cons] at hnd
    obtain ⟨hnotin, hnd'⟩ := hnd
    rcases List.mem_cons.mp hmem with rfl | hmem'
    · unfold pyGet?
      rw [List.find?_cons_of_pos _ (by simp)]
      rfl
    · have hne : hd.1 ≠ kv.1 := by
        intro hcontra
        exact hnotin (hcontra ▸ List.mem_map_of_mem Prod.fst hmem')
      unfold pyGet?
      rw [List.find?_cons_of_neg _ (by simp; exact hne)]
      exact ih hnd' hmem'

theorem pyGet_of_mem_nodup (d : PyDict) (kv : String × Value)
    (hnd : (d.map Prod.fst).Nodup) (hmem : kv ∈ d) :
    pyGet d kv.1 = kv.2 := by
  unfold pyGet
  rw [pyGet?_of_mem_nodup d kv hnd hmem]
  rfl

theorem strData_ext (a b : String) (h : a.data = b.data) : a = b := by
  cases a with
  | mk d1 =>
    cases b with
    | mk d2 => exact congrArg String.mk h

theorem strData_append (a b : String) : (a ++ b).data = a.data ++ b.data := by
  cases a with
  | mk d1 =>
    cases b with
    | mk d2 => rfl

theorem str_empty_append (s : String) : "" ++ s = s := by
  apply strData_ext
  rw [strData_append]
  rfl

theorem str_append_empty (s : String) : s ++ "" = s := by
  apply strData_ext
  rw [strData_append]
  simp

theorem str_append_assoc (a b c : String) : (a ++ b) ++ c = a ++ (b ++ c) := by
  apply strData_ext
  simp [strData_append]

theorem str_append_ne_empty (a b : String) (h : a ≠ "") : a ++ b ≠ "" := by
  intro hc
  have hd := congrArg String.data hc
  rw [strData_append] at hd
  have hnil : a.data ++ b.data = ([] : List Char) := hd
  have ha : a.data = [] := (List.append_eq_nil.mp hnil).1
  exact h (strData_ext a "" ha)

theorem truthy_false_of_copyCond (d : PyDict) (k : String)
    (h : (!(pyContains d k) || !(pyGet d k).truthy) = true) :
    (pyGet d k).truthy = false := by
  simp only [Bool.or_eq_true] at h
  rcases h with h | h
  · unfold pyContains pyGet at *
    cases hf : pyGet? d k with
    | none => rfl
    | some v => rw [hf] at h; simp at h
  · simpa using h

theorem pyGet?_of_pyGet_ne_null (d : PyDict) (k : String)
    (h : pyGet d k ≠ .null) : pyGet? d k = some (pyGet d k) := by
  unfold pyGet at *
  cases hf : pyGet? d k with
  | none => rw [hf] at h; simp at h
  | some v => rfl

theorem labelsOf_pySet_val (d : PyDict) (v : Value) :
    labelsOf (pySet d "labels" v) = valueItems v := by
  unfold labelsOf valueItems
  rw [pyGet_pySet_self]

theorem remindersOf_pySet_val (d : PyDict) (v : Value) :
    remindersOf (pySet d "reminders" v) = valueItems v := by
  unfold remindersOf valueItems
  rw [pyGet_pySet_self]

theorem labelsOf_eq_of_get (d d' : PyDict)
    (h : pyGet d "labels" = pyGet d' "labels") : labelsOf d = labelsOf d' := by
  unfold labelsOf
  rw [h]

theorem remMinutes_eq_of_get (d d' : PyDict)
    (h : pyGet d "reminders" = pyGet d' "reminders") :
    remMinutes d = remMinutes d' := by
  unfold remMinutes remindersOf
  rw [h]

/-- A field the merge loop skips or keeps: an internal key, or a non-special
key whose base value is truthy, leaves the base untouched. -/
theorem mergeField_keep (base ev : PyDict) (k : String) (v : Value)
    (hl : k ≠ "labels") (hr : k ≠ "reminders") (hn : k ≠ "notes")
    (ht : (pyGet base k).truthy = true) :
    mergeField base ev k v = .ok base := by
  unfold mergeField
  by_cases hki : keyIsInternal k = true
  · rw [if_pos hki]
    rfl
  · rw [if_neg hki]
    have hcont := pyContains_of_truthy base k ht
    rw [if_neg (by simp [hcont, ht]), if_neg (by simp [hl]),
      if_neg (by simp [hr]), if_neg (by simp [hn])]
    rfl

/-- A non-special key is either kept or copied verbatim. -/
theorem mergeField_nonspecial (base ev : PyDict) (k : String) (v : Value)
    (hl : k ≠ "labels") (hr : k ≠ "reminders") (hn : k ≠ "notes") :
    mergeField base ev k v = .ok base
      ∨ mergeField base ev k v = .ok (pySet base k v) := by
  unfold mergeField
  by_cases hki : keyIsInternal k = true
  · rw [if_pos hki]
    exact Or.inl rfl
  · rw [if_neg hki]
    by_cases hcopy : (!(pyContains base k) || !(pyGet base k).truthy) = true
    · rw [if_pos hcopy]
      exact Or.inr rfl
    · rw [if_neg hcopy, if_neg (by simp [hl]), if_neg (by simp [hr]),
        if_neg (by simp [hn])]
      exact Or.inl rfl

/-- Whatever a merge step does, it writes at most the merged key. -/
theorem mergeField_shape (base ev : PyDict) (k : String) (v : Value) (b' : PyDict)
    (h : mergeField base ev k v = .ok b') :
    b' = base ∨ ∃ w, b' = pySet base k w := by
  unfold mergeField at h
  by_cases hki : keyIsInternal k = true
  · rw [if_pos hki] at h
    have h' : (Except.ok base : Except PyErr PyDict) = Except.ok b' := h
    injection h' with h''
    exact Or.inl h''.symm
  · rw [if_neg hki] at h
    by_cases hcopy : (!(pyContains base k) || !(pyGet base k).truthy) = true
    · rw [if_pos hcopy] at h
      have h' : (Except.ok (pySet base k v) : Except PyErr PyDict) = Except.ok b' := h
      injection h' with h''
      exact Or.inr ⟨v, h''.symm⟩
    · rw [if_neg hcopy] at h
      by_cases hkl : (k == "labels") = true
      · rw [if_pos hkl] at h
        have hkeq : k = "labels" := by simpa using hkl
        subst hkeq
        obtain ⟨bl, -, h⟩ := except_bind_ok h
        obtain ⟨el, -, h⟩ := except_bind_ok h
        obtain ⟨s, -, h⟩ := except_bind_ok h
        have h' : (Except.ok (pySet base "labels" (.list s)) : Except PyErr PyDict)
            = Except.ok b' := h
        injection h' with h''
        exact Or.inr ⟨.list s, h''.symm⟩
      · rw [if_neg hkl] at h
        by_cases hkr : (k == "reminders") = true
        · rw [if_pos hkr] at h
          have hkeq : k = "reminders" := by simpa using hkr
          subst hkeq
          obtain ⟨br, -, h⟩ := except_bind_ok h
          obtain ⟨m1, -, h⟩ := except_bind_ok h
          obtain ⟨er, -, h⟩ := except_bind_ok h
          obtain ⟨m2, -, h⟩ := except_bind_ok h
          have h' : (Except.ok (pySet base "reminders" (.list (m2.map (·.2))))
              : Except PyErr PyDict) = Except.ok b' := h
          injection h' with h''
          exact Or.inr ⟨.list (m2.map (·.2)), h''.symm⟩
        · rw [if_neg hkr] at h
          by_cases hkn : (k == "notes") = true
          · rw [if_pos hkn] at h
            by_cases hcond : ((pyGet base "notes").truthy
                && (pyGet ev "notes").truthy) = true
            · rw [if_pos hcond] at h
              have hkeq : k = "notes" := by simpa using hkn
              subst hkeq
              obtain ⟨upd, -, h⟩ := except_bind_ok h
              have h' : (Except.ok (pySet base "notes" upd)
                  : Except PyErr PyDict) = Except.ok b' := h
              injection h' with h''
              exact Or.inr ⟨upd, h''.symm⟩
            · rw [if_neg hcond] at h
              have h' : (Except.ok base : Except PyErr PyDict) = Except.ok b' := h
              injection h' with h''
              exact Or.inl h''.symm
          · rw [if_neg hkn] at h
            have h' : (Except.ok base : Except PyErr PyDict) = Except.ok b' := h
            injection h' with h''
            exact Or.inl h''.symm

/-- Frame rule: a merge step of key `k` leaves every other key's value. -/
theorem pyGet_mergeField_ne (base ev : PyDict) (k : String) (v : Value)
    (b' : PyDict) (h : mergeField base ev k v = .ok b')
    (k' : String) (hne : k' ≠ k) : pyGet b' k' = pyGet base k' := by
  rcases mergeField_shape base ev k v b' h with rfl | ⟨w, rfl⟩
  · rfl
  · exact pyGet_pySet_ne base k k' w hne

/-- Determinism transfer: the well-formedness `mergeField_ok` guarantees
holds of any value the step actually returned. -/
theorem mergeField_wf_of_ok (base ev : PyDict) (k : String) (v : Value)
    (b' : PyDict) (hb : WFDraft base = true) (hev : WFDraft ev = true)
    (hv : wfFieldVal k v = true) (h : mergeField base ev k v = .ok b') :
    WFDraft b' = true := by
  obtain ⟨b'', h1, h2⟩ := mergeField_ok base ev k v hb hev hv
  rw [h1] at h
  injection h with h
  exact h ▸ h2

/-- The `labels` step: the labels of the result are (as membership) the
union of the base's labels and the merged value's elements. -/
theorem mergeField_labels_char (base ev : PyDict) (v : Value)
    (hb : WFDraft base = true) (hev : WFDraft ev = true)
    (hnd : (ev.map Prod.fst).Nodup) (hmem : ("labels", v) ∈ ev)
    (b' : PyDict) (h : mergeField base ev "labels" v = .ok b') :
    ∀ x, x ∈ labelsOf b' ↔ x ∈ labelsOf base ∨ x ∈ valueItems v := by
  have hevget : pyGet? ev "labels" = some v :=
    pyGet?_of_mem_nodup ev ("labels", v) hnd hmem
  have hevd : pyGetD ev "labels" (.list []) = v := by
    unfold pyGetD
    rw [hevget]
    rfl
  unfold mergeField at h
  rw [if_neg (by decide)] at h
  by_cases hcopy : (!(pyContains base "labels")
      || !(pyGet base "labels").truthy) = true
  · rw [if_pos hcopy] at h
    have h' : (Except.ok (pySet base "labels" v) : Except PyErr PyDict)
        = Except.ok b' := h
    injection h' with h''
    subst h''
    have hfal := truthy_false_of_copyCond base "labels" hcopy
    intro x
    rw [labelsOf_pySet_val, labelsOf_falsy base hfal]
    simp
  · have hcont : pyContains base "labels" = true := by
      by_cases hc : pyContains base "labels" = true
      · exact hc
      · exfalso
        apply hcopy
        simp only [Bool.not_eq_true] at hc
        simp [hc]
    have htr : (pyGet base "labels").truthy = true := by
      by_cases hc : (pyGet base "labels").truthy = true
      · exact hc
      · exfalso
        apply hcopy
        simp only [Bool.not_eq_true] at hc
        simp [hc]
    rw [if_neg hcopy, if_pos (by decide)] at h
    obtain ⟨w, hw⟩ : ∃ w, pyGet? base "labels" = some w := by
      unfold pyContains at hcont
      exact Option.isSome_iff_exists.mp hcont
    have hdg : pyGetD base "labels" (.list []) = w := by
      unfold pyGetD
      rw [hw]
      rfl
    have hgg : pyGet base "labels" = w := by
      unfold pyGet
      rw [hw]
      rfl
    have hwfb : wfFieldVal "labels" (pyGetD base "labels" (.list [])) = true :=
      wfFieldVal_get base "labels" (.list []) hb rfl
    obtain ⟨bs, hbs1, hbs2⟩ := wfLabels_inv hwfb
    have hv : wfFieldVal "labels" v = true := by
      have := List.all_eq_true.mp hev ("labels", v) hmem
      simpa using this
    obtain ⟨es, hes1, hes2⟩ := wfLabels_inv hv
    rw [hdg] at hbs1
    rw [hdg, hbs1, hevd, hes1] at h
    simp only [pyIter, pure_bind] at h
    obtain ⟨ys, hys1, hys2, hysmem⟩ := pySetList_str (bs ++ es)
      (by simp only [List.all_append, Bool.and_eq_true]; exact ⟨hbs2, hes2⟩)
    obtain ⟨s, hs1, hs2⟩ := except_bind_ok h
    rw [hys1] at hs1
    injection hs1 with hs1
    subst hs1
    have h2' : (Except.ok (pySet base "labels" (.list ys)) : Except PyErr PyDict)
        = Except.ok b' := hs2
    injection h2' with h2''
    subst h2''
    intro x
    have hlb : labelsOf base = bs := by
      unfold labelsOf
      rw [hgg, hbs1]
    rw [labelsOf_pySet_val, hlb, hes1]
    simp only [valueItems]
    rw [hysmem x]
    exact List.mem_append

/-- The `reminders` step: the reminder minutes of the result are (as
membership) the union of the base's and the merged value's minutes keys. -/
theorem mergeField_rems_char (base ev : PyDict) (v : Value)
    (hb : WFDraft base = true) (hev : WFDraft ev = true)
    (hnd : (ev.map Prod.fst).Nodup) (hmem : ("reminders", v) ∈ ev)
    (b' : PyDict) (h : mergeField base ev "reminders" v = .ok b') :
    ∀ q, q ∈ remMinutes b' ↔ q ∈ remMinutes base
      ∨ ∃ r ∈ valueItems v, minutesOf? r = some q := by
  have hevget : pyGet? ev "reminders" = some v :=
    pyGet?_of_mem_nodup ev ("reminders", v) hnd hmem
  have hevd : pyGetD ev "reminders" (.list []) = v := by
    unfold pyGetD
    rw [hevget]
    rfl
  unfold mergeField at h
  rw [if_neg (by decide)] at h
  by_cases hcopy : (!(pyContains base "reminders")
      || !(pyGet base "reminders").truthy) = true
  · rw [if_pos hcopy] at h
    have h' : (Except.ok (pySet base "reminders" v) : Except PyErr PyDict)
        = Except.ok b' := h
    injection h' with h''
    subst h''
    have hfal := truthy_false_of_copyCond base "reminders" hcopy
    intro q
    have hL : remMinutes (pySet base "reminders" v)
        = (valueItems v).filterMap minutesOf? := by
      unfold remMinutes
      rw [remindersOf_pySet_val]
    rw [hL, remMinutes_falsy base hfal]
    simp [List.mem_filterMap]
  · have hcont : pyContains base "reminders" = true := by
      by_cases hc : pyContains base "reminders" = true
      · exact hc
      · exfalso
        apply hcopy
        simp only [Bool.not_eq_true] at hc
        simp [hc]
    have htr : (pyGet base "reminders").truthy = true := by
      by_cases hc : (pyGet base "reminders").truthy = true
      · exact hc
      · exfalso
        apply hcopy
        simp only [Bool.not_eq_true] at hc
        simp [hc]
    rw [if_neg hcopy, if_neg (by decide), if_pos (by decide)] at h
    obtain ⟨w, hw⟩ : ∃ w, pyGet? base "reminders" = some w := by
      unfold pyContains at hcont
      exact Option.isSome_iff_exists.mp hcont
    have hdg : pyGetD base "reminders" (.list []) = w := by
      unfold pyGetD
      rw [hw]
      rfl
    have hgg : pyGet base "reminders" = w := by
      unfold pyGet
      rw [hw]
      rfl
    have hwfb : wfFieldVal "reminders" (pyGetD base "reminders" (.list []))
        = true := wfFieldVal_get base "reminders" (.list []) hb rfl
    obtain ⟨brs, hbs1, hbs2⟩ := wfRems_inv hwfb
    have hv : wfFieldVal "reminders" v = true := by
      have := List.all_eq_true.mp hev ("reminders", v) hmem
      simpa using this
    obtain ⟨ers, hes1, hes2⟩ := wfRems_inv hv
    rw [hdg] at hbs1
    rw [hdg, hbs1, hevd, hes1] at h
    simp only [pyIter, pure_bind] at h
    obtain ⟨m1, hm1, hm1inv, hm1keys⟩ := remFold_ok brs hbs2 [] (by simp)
    obtain ⟨m2, hm2, hm2inv, hm2keys⟩ := remFold_ok ers hes2 m1 hm1inv
    obtain ⟨m1', hA, h⟩ := except_bind_ok h
    rw [hm1] at hA
    injection hA with hA
    subst hA
    obtain ⟨m2', hB, h⟩ := except_bind_ok h
    rw [hm2] at hB
    injection hB with hB
    subst hB
    have h' : (Except.ok (pySet base "reminders" (.list (m2.map (·.2))))
        : Except PyErr PyDict) = Except.ok b' := h
    injection h' with h''
    subst h''
    intro q
    have hL : remMinutes (pySet base "reminders" (.list (m2.map (·.2))))
        = (m2.map (·.2)).filterMap minutesOf? := by
      unfold remMinutes
      rw [remindersOf_pySet_val]
      simp only [valueItems]
    rw [hL]
    have hstep : q ∈ (m2.map (·.2)).filterMap minutesOf?
        ↔ ∃ p ∈ m2, p.1 = q := by
      rw [List.mem_filterMap]
      constructor
      · rintro ⟨x, hx, hxm⟩
        obtain ⟨p, hp, rfl⟩ := List.mem_map.mp hx
        have hmin := (hm2inv p hp).2
        rw [hmin] at hxm
        injection hxm with hxm
        exact ⟨p, hp, hxm⟩
      · rintro ⟨p, hp, rfl⟩
        exact ⟨p.2, List.mem_map_of_mem _ hp, (hm2inv p hp).2⟩
    rw [hstep, hm2keys q, hm1keys q]
    have hRB : remMinutes base = brs.filterMap minutesOf? := by
      unfold remMinutes remindersOf
      rw [hgg, hbs1]
    rw [hRB, hes1]
    simp only [valueItems, List.mem_filterMap, List.not_mem_nil, false_and,
      exists_false, false_or]

/-- The `notes` step behind a base with non-empty notes: the suffix the
draft contributes is `evNotesSuffix`. -/
theorem mergeField_notes_char (base ev : PyDict) (v : Value)
    (hev : WFDraft ev = true)
    (hnd : (ev.map Prod.fst).Nodup) (hmem : ("notes", v) ∈ ev)
    (n0 : String) (hn0 : pyGet base "notes" = .str n0) (hne : n0 ≠ "")
    (b' : PyDict) (h : mergeField base ev "notes" v = .ok b') :
    pyGet b' "notes" = .str (n0 ++ evNotesSuffix ev) := by
  have hevg : pyGet ev "notes" = v := pyGet_of_mem_nodup ev ("notes", v) hnd hmem
  have htr : (pyGet base "notes").truthy = true := by
    rw [hn0]
    simpa [Value.truthy] using hne
  have hcont : pyContains base "notes" = true := pyContains_of_truthy base "notes" htr
  unfold mergeField at h
  rw [if_neg (by decide), if_neg (by simp [hcont, htr]), if_neg (by decide),
    if_neg (by decide), if_pos (by decide)] at h
  have hv : wfFieldVal "notes" v = true := by
    have := List.all_eq_true.mp hev ("notes", v) hmem
    simpa using this
  have hv' : isStrOrNull v = true := by simpa [wfFieldVal] using hv
  by_cases hevt : (pyGet ev "notes").truthy = true
  · rw [if_pos (by simp only [Bool.and_eq_true]; exact ⟨htr, hevt⟩)] at h
    obtain ⟨s, rfl⟩ : ∃ s, v = .str s := by
      rw [hevg] at hevt
      cases v with
      | str s => exact ⟨s, rfl⟩
      | null => exact absurd hevt (by simp [Value.truthy])
      | bool b => exact absurd hv' (by simp [isStrOrNull])
      | num q => exact absurd hv' (by simp [isStrOrNull])
      | list xs => exact absurd hv' (by simp [isStrOrNull])
      | dict kvs => exact absurd hv' (by simp [isStrOrNull])
    have hsne : s ≠ "" := by
      rw [hevg] at hevt
      simpa [Value.truthy] using hevt
    rw [hn0, hevg] at h
    simp only [pyIAdd, pyFormat, pure_bind] at h
    have h' : (Except.ok (pySet base "notes" (.str (n0 ++ ("\n" ++ s))))
        : Except PyErr PyDict) = Except.ok b' := h
    injection h' with h''
    subst h''
    rw [pyGet_pySet_self]
    unfold evNotesSuffix
    rw [hevg]
    simp [hsne]
  · rw [if_neg (by simp only [Bool.and_eq_true]; exact fun hc => hevt hc.2)] at h
    have h' : (Except.ok base : Except PyErr PyDict) = Except.ok b' := h
    injection h' with h''
    subst h''
    rw [hn0]
    unfold evNotesSuffix
    rw [hevg]
    rw [hevg] at hevt
    cases v with
    | str s =>
      have hs : s = "" := by simpa [Value.truthy] using hevt
      subst hs
      simp [str_append_empty]
    | null => simp [str_append_empty]
    | bool b => exact absurd hv' (by simp [isStrOrNull])
    | num q => exact absurd hv' (by simp [isStrOrNull])
    | list xs => exact absurd hv' (by simp [isStrOrNull])
    | dict kvs => exact absurd hv' (by simp [isStrOrNull])

/-- Folding a draft's items never changes a truthy non-special base field. -/
theorem mergeItems_keep (ev : PyDict) (k : String)
    (hl : k ≠ "labels") (hr : k ≠ "reminders") (hn : k ≠ "notes") :
    ∀ (items : List (String × Value)) (base b' : PyDict),
    (pyGet base k).truthy = true →
    items.foldlM (fun b2 kv => mergeField b2 ev kv.1 kv.2) base = .ok b' →
    pyGet b' k = pyGet base k := by
  intro items
  induction items with
  | nil =>
    intro base b' _ h
    have h' : (Except.ok base : Except PyErr PyDict) = Except.ok b' := h
    injection h' with h''
    rw [← h'']
  | cons kv tl ih =>
    intro base b' ht h
    rw [List.foldlM_cons] at h
    obtain ⟨b1, h1, h2⟩ := except_bind_ok h
    by_cases hkk : kv.1 = k
    · rw [hkk, mergeField_keep base ev k kv.2 hl hr hn ht] at h1
      injection h1 with he
      rw [← he] at h2
      exact ih base b' ht h2
    · have hget : pyGet b1 k = pyGet base k :=
        pyGet_mergeField_ne base ev kv.1 kv.2 b1 h1 k (fun hc => hkk hc.symm)
      have ht1 : (pyGet b1 k).truthy = true := by rw [hget]; exact ht
      have hres := ih b1 b' ht1 h2
      rw [hres, hget]

/-- Every non-special field of the items-fold result comes verbatim from the
base or from one of the folded items. -/
theorem mergeItems_from (ev : PyDict) (k : String)
    (hl : k ≠ "labels") (hr : k ≠ "reminders") (hn : k ≠ "notes") :
    ∀ (items : List (String × Value)) (base b' : PyDict),
    items.foldlM (fun b2 kv => mergeField b2 ev kv.1 kv.2) base = .ok b' →
    pyGet b' k = pyGet base k ∨ ∃ kv ∈ items, kv.1 = k ∧ pyGet b' k = kv.2 := by
  intro items
  induction items with
  | nil =>
    intro base b' h
    have h' : (Except.ok base : Except PyErr PyDict) = Except.ok b' := h
    injection h' with h''
    exact Or.inl (by rw [← h''])
  | cons kv tl ih =>
    intro base b' h
    rw [List.foldlM_cons] at h
    obtain ⟨b1, h1, h2⟩ := except_bind_ok h
    by_cases hkk : kv.1 = k
    · rw [hkk] at h1
      rcases mergeField_nonspecial base ev k kv.2 hl hr hn with hc | hc
      all_goals rw [hc] at h1
      all_goals injection h1 with he
      · rw [← he] at h2
        rcases ih base b' h2 with hres | ⟨kv', hkv', hk', hval⟩
        · exact Or.inl hres
        · exact Or.inr ⟨kv', List.mem_cons_of_mem _ hkv', hk', hval⟩
      · rw [← he] at h2
        rcases ih (pySet base k kv.2) b' h2 with hres | ⟨kv', hkv', hk', hval⟩
        · rw [pyGet_pySet_self] at hres
          exact Or.inr ⟨kv, List.mem_cons_self _ _, hkk, hres⟩
        · exact Or.inr ⟨kv', List.mem_cons_of_mem _ hkv', hk', hval⟩
    · have hget : pyGet b1 k = pyGet base k :=
        pyGet_mergeField_ne base ev kv.1 kv.2 b1 h1 k (fun hc => hkk hc.symm)
      rcases ih b1 b' h2 with hres | ⟨kv', hkv', hk', hval⟩
      · exact Or.inl (by rw [hres, hget])
      · exact Or.inr ⟨kv', List.mem_cons_of_mem _ hkv', hk', hval⟩

/-- Folding a subset of a draft's items: labels of the result are the union
of the base's labels and those contributed by the folded `labels` items. -/
theorem mergeItems_labels (ev : PyDict) (hev : WFDraft ev = true)
    (hnd : (ev.map Prod.fst).Nodup) :
    ∀ (items : List (String × Value)), (∀ kv ∈ items, kv ∈ ev) →
    ∀ (base : PyDict), WFDraft base = true →
    ∀ b', items.foldlM (fun b2 kv => mergeField b2 ev kv.1 kv.2) base = .ok b' →
    ∀ x, x ∈ labelsOf b' ↔ x ∈ labelsOf base
      ∨ ∃ kv ∈ items, kv.1 = "labels" ∧ x ∈ valueItems kv.2 := by
  intro items
  induction items with
  | nil =>
    intro _ base _ b' h x
    have h' : (Except.ok base : Except PyErr PyDict) = Except.ok b' := h
    injection h' with h''
    subst h''
    simp
  | cons kv tl ih =>
    intro hsub base hb b' h x
    rw [List.foldlM_cons] at h
    obtain ⟨b1, h1, h2⟩ := except_bind_ok h
    have hkv_ev : kv ∈ ev := hsub kv (List.mem_cons_self _ _)
    have hkvwf : wfFieldVal kv.1 kv.2 = true := List.all_eq_true.mp hev kv hkv_ev
    have hb1 : WFDraft b1 = true :=
      mergeField_wf_of_ok base ev kv.1 kv.2 b1 hb hev hkvwf h1
    have ihx := ih (fun p hp => hsub p (List.mem_cons_of_mem _ hp)) b1 hb1 b' h2 x
    by_cases hkk : kv.1 = "labels"
    · obtain ⟨k0, v0⟩ := kv
      have hk0 : k0 = "labels" := hkk
      subst hk0
      have hchar := mergeField_labels_char base ev v0 hb hev hnd hkv_ev b1 h1
      rw [ihx, hchar x]
      constructor
      · rintro ((hx | hx) | ⟨p, hp, hp1, hp2⟩)
        · exact Or.inl hx
        · exact Or.inr ⟨("labels", v0), List.mem_cons_self _ _, rfl, hx⟩
        · exact Or.inr ⟨p, List.mem_cons_of_mem _ hp, hp1, hp2⟩
      · rintro (hx | ⟨p, hp, hp1, hp2⟩)
        · exact Or.inl (Or.inl hx)
        · rcases List.mem_cons.mp hp with rfl | hp'
          · exact Or.inl (Or.inr hp2)
          · exact Or.inr ⟨p, hp', hp1, hp2⟩
    · have hfr : pyGet b1 "labels" = pyGet base "labels" :=
        pyGet_mergeField_ne base ev kv.1 kv.2 b1 h1 "labels" (fun hc => hkk hc.symm)
      have hlb : labelsOf b1 = labelsOf base := labelsOf_eq_of_get _ _ hfr
      rw [ihx, hlb]
      constructor
      · rintro (hx | ⟨p, hp, hp1, hp2⟩)
        · exact Or.inl hx
        · exact Or.inr ⟨p, List.mem_cons_of_mem _ hp, hp1, hp2⟩
      · rintro (hx | ⟨p, hp, hp1, hp2⟩)
        · exact Or.inl hx
        · rcases List.mem_cons.mp hp with rfl | hp'
          · exact absurd hp1 hkk
          · exact Or.inr ⟨p, hp', hp1, hp2⟩

/-- Folding a subset of a draft's items: reminder minutes of the result are
the union of the base's and those contributed by folded `reminders` items. -/
theorem mergeItems_rems (ev : PyDict) (hev : WFDraft ev = true)
    (hnd : (ev.map Prod.fst).Nodup) :
    ∀ (items : List (String × Value)), (∀ kv ∈ items, kv ∈ ev) →
    ∀ (base : PyDict), WFDraft base = true →
    ∀ b', items.foldlM (fun b2 kv => mergeField b2 ev kv.1 kv.2) base = .ok b' →
    ∀ q, q ∈ remMinutes b' ↔ q ∈ remMinutes base
      ∨ ∃ kv ∈ items, kv.1 = "reminders"
        ∧ ∃ r ∈ valueItems kv.2, minutesOf? r = some q := by
  intro items
  induction items with
  | nil =>
    intro _ base _ b' h q
    have h' : (Except.ok base : Except PyErr PyDict) = Except.ok b' := h
    injection h' with h''
    subst h''
    simp
  | cons kv tl ih =>
    intro hsub base hb b' h q
    rw [List.foldlM_cons] at h
    obtain ⟨b1, h1, h2⟩ := except_bind_ok h
    have hkv_ev : kv ∈ ev := hsub kv (List.mem_cons_self _ _)
    have hkvwf : wfFieldVal kv.1 kv.2 = true := List.all_eq_true.mp hev kv hkv_ev
    have hb1 : WFDraft b1 = true :=
      mergeField_wf_of_ok base ev kv.1 kv.2 b1 hb hev hkvwf h1
    have ihq := ih (fun p hp => hsub p (List.mem_cons_of_mem _ hp)) b1 hb1 b' h2 q
    by_cases hkk : kv.1 = "reminders"
    · obtain ⟨k0, v0⟩ := kv
      have hk0 : k0 = "reminders" := hkk
      subst hk0
      have hchar := mergeField_rems_char base ev v0 hb hev hnd hkv_ev b1 h1
      rw [ihq, hchar q]
      constructor
      · rintro ((hx | hx) | ⟨p, hp, hp1, hp2⟩)
        · exact Or.inl hx
        · exact Or.inr ⟨("reminders", v0), List.mem_cons_self _ _, rfl, hx⟩
        · exact Or.inr ⟨p, List.mem_cons_of_mem _ hp, hp1, hp2⟩
      · rintro (hx | ⟨p, hp, hp1, hp2⟩)
        · exact Or.inl (Or.inl hx)
        · rcases List.mem_cons.mp hp with rfl | hp'
          · exact Or.inl (Or.inr hp2)
          · exact Or.inr ⟨p, hp', hp1, hp2⟩
    · have hfr : pyGet b1 "reminders" = pyGet base "reminders" :=
        pyGet_mergeField_ne base ev kv.1 kv.2 b1 h1 "reminders" (fun hc => hkk hc.symm)
      have hrb : remMinutes b1 = remMinutes base := remMinutes_eq_of_get _ _ hfr
      rw [ihq, hrb]
      constructor
      · rintro (hx | ⟨p, hp, hp1, hp2⟩)
        · exact Or.inl hx
        · exact Or.inr ⟨p, List.mem_cons_of_mem _ hp, hp1, hp2⟩
      · rintro (hx | ⟨p, hp, hp1, hp2⟩)
        · exact Or.inl hx
        · rcases List.mem_cons.mp hp with rfl | hp'
          · exact absurd hp1 hkk
          · exact Or.inr ⟨p, hp', hp1, hp2⟩

/-- Folding a subset of a draft's items behind a base with non-empty notes:
each folded `notes` item appends `evNotesSuffix`. -/
theorem mergeItems_notes (ev : PyDict) (hev : WFDraft ev = true)
    (hnd : (ev.map Prod.fst).Nodup) :
    ∀ (items : List (String × Value)), (∀ kv ∈ items, kv ∈ ev) →
    ∀ (base : PyDict) (n0 : String),
    pyGet base "notes" = .str n0 → n0 ≠ "" →
    ∀ b', items.foldlM (fun b2 kv => mergeField b2 ev kv.1 kv.2) base = .ok b' →
    pyGet b' "notes" = .str (n0 ++ strConcat (items.map
      (fun kv => if kv.1 = "notes" then evNotesSuffix ev else ""))) := by
  intro items
  induction items with
  | nil =>
    intro _ base n0 hn0 _ b' h
    have h' : (Except.ok base : Except PyErr PyDict) = Except.ok b' := h
    injection h' with h''
    subst h''
    rw [hn0]
    simp [strConcat, str_append_empty]
  | cons kv tl ih =>
    intro hsub base n0 hn0 hne b' h
    rw [List.foldlM_cons] at h
    obtain ⟨b1, h1, h2⟩ := except_bind_ok h
    have hkv_ev : kv ∈ ev := hsub kv (List.mem_cons_self _ _)
    by_cases hkk : kv.1 = "notes"
    · obtain ⟨k0, v0⟩ := kv
      have hk0 : k0 = "notes" := hkk
      subst hk0
      have hchar := mergeField_notes_char base ev v0 hev hnd hkv_ev n0 hn0 hne b1 h1
      have hne1 : n0 ++ evNotesSuffix ev ≠ "" := str_append_ne_empty _ _ hne
      have hrec := ih (fun p hp => hsub p (List.mem_cons_of_mem _ hp)) b1
        (n0 ++ evNotesSuffix ev) hchar hne1 b' h2
      rw [hrec]
      congr 1
      rw [str_append_assoc]
      simp [strConcat]
    · have hfr : pyGet b1 "notes" = pyGet base "notes" :=
        pyGet_mergeField_ne base ev kv.1 kv.2 b1 h1 "notes" (fun hc => hkk hc.symm)
      have hn1 : pyGet b1 "notes" = .str n0 := by rw [hfr, hn0]
      have hrec := ih (fun p hp => hsub p (List.mem_cons_of_mem _ hp)) b1 n0 hn1 hne b' h2
      rw [hrec]
      congr 1
      simp [strConcat, hkk, str_empty_append]

/-- The labels items a draft carries are exactly its `labels` field. -/
theorem labels_exists_iff (ev : PyDict) (hnd : (ev.map Prod.fst).Nodup) (x : Value) :
    (∃ kv ∈ ev, kv.1 = "labels" ∧ x ∈ valueItems kv.2) ↔ x ∈ labelsOf ev := by
  constructor
  · rintro ⟨kv, hkv, hk, hx⟩
    have hg := pyGet_of_mem_nodup ev kv hnd hkv
    rw [hk] at hg
    have hl : labelsOf ev = valueItems kv.2 := by
      unfold labelsOf valueItems
      rw [hg]
    rw [hl]
    exact hx
  · intro hx
    unfold labelsOf at hx
    cases hg : pyGet ev "labels" with
    | list xs =>
      rw [hg] at hx
      have hsome : pyGet? ev "labels" = some (.list xs) := by
        have hs := pyGet?_of_pyGet_ne_null ev "labels" (by rw [hg]; simp)
        rw [hg] at hs
        exact hs
      exact ⟨("labels", .list xs), mem_of_pyGet? ev "labels" (.list xs) hsome,
        rfl, hx⟩
    | null => rw [hg] at hx; simp at hx
    | bool b => rw [hg] at hx; simp at hx
    | num q => rw [hg] at hx; simp at hx
    | str s => rw [hg] at hx; simp at hx
    | dict kvs => rw [hg] at hx; simp at hx

/-- The reminders items a draft carries are exactly its `reminders` field. -/
theorem rems_exists_iff (ev : PyDict) (hnd : (ev.map Prod.fst).Nodup) (q : Value) :
    (∃ kv ∈ ev, kv.1 = "reminders" ∧ ∃ r ∈ valueItems kv.2, minutesOf? r = some q)
      ↔ q ∈ remMinutes ev := by
  constructor
  · rintro ⟨kv, hkv, hk, r, hr, hrm⟩
    have hg := pyGet_of_mem_nodup ev kv hnd hkv
    rw [hk] at hg
    have hre : remindersOf ev = valueItems kv.2 := by
      unfold remindersOf valueItems
      rw [hg]
    unfold remMinutes
    rw [hre]
    exact List.mem_filterMap.mpr ⟨r, hr, hrm⟩
  · intro hq
    unfold remMinutes at hq
    obtain ⟨r, hr, hrm⟩ := List.mem_filterMap.mp hq
    unfold remindersOf at hr
    cases hg : pyGet ev "reminders" with
    | list xs =>
      rw [hg] at hr
      have hsome : pyGet? ev "reminders" = some (.list xs) := by
        have hs := pyGet?_of_pyGet_ne_null ev "reminders" (by rw [hg]; simp)
        rw [hg] at hs
        exact hs
      exact ⟨("reminders", .list xs), mem_of_pyGet? ev "reminders" (.list xs) hsome,
        rfl, r, hr, hrm⟩
    | null => rw [hg] at hr; simp at hr
    | bool b => rw [hg] at hr; simp at hr
    | num q2 => rw [hg] at hr; simp at hr
    | str s => rw [hg] at hr; simp at hr
    | dict kvs => rw [hg] at hr; simp at hr

/-- Under distinct keys, the per-item suffix sum collapses to a single
occurrence of the constant (or nothing when the key is absent). -/
theorem strConcat_if_key (l : List (String × Value)) (key c : String)
    (hnd : (l.map Prod.fst).Nodup) :
    strConcat (l.map (fun kv => if kv.1 = key then c else ""))
      = if l.any (fun kv => kv.1 == key) then c else "" := by
  induction l with
  | nil => simp [strConcat]
  | cons hd tl ih =>
    have hnd' : (tl.map Prod.fst).Nodup := by
      simp only [List.map_cons, List.nodup_cons] at hnd
      exact hnd.2
    have hnotin : hd.1 ∉ tl.map Prod.fst := by
      simp only [List.map_cons, List.nodup_cons] at hnd
      exact hnd.1
    simp only [List.map_cons, strConcat]
    rw [ih hnd']
    by_cases hdk : hd.1 = key
    · have htl : tl.any (fun kv => kv.1 == key) = false := by
        cases hb : tl.any (fun kv => kv.1 == key)
        · rfl
        · obtain ⟨p, hp, hpe⟩ := List.any_eq_true.mp hb
          have hpk : p.1 = key := by simpa using hpe
          exfalso
          apply hnotin
          rw [hdk, ← hpk]
          exact List.mem_map_of_mem _ hp
      have hany : (hd :: tl).any (fun kv => kv.1 == key) = true := by
        simp [List.any_cons, hdk]
      rw [if_pos hdk, htl, hany]
      simp [str_append_empty]
    · have hany : (hd :: tl).any (fun kv => kv.1 == key)
          = tl.any (fun kv => kv.1 == key) := by
        simp [List.any_cons, hdk]
      rw [if_neg hdk, hany, str_empty_append]

/-- Merging one whole draft into the base: labels union. -/
theorem mergeEvent_labels (ev : PyDict) (hev : WFDraft ev = true)
    (hnd : (ev.map Prod.fst).Nodup) (base : PyDict) (hb : WFDraft base = true)
    (b' : PyDict)
    (h : ev.foldlM (fun b2 kv => mergeField b2 ev kv.1 kv.2) base = .ok b') :
    ∀ x, x ∈ labelsOf b' ↔ x ∈ labelsOf base ∨ x ∈ labelsOf ev := by
  intro x
  rw [mergeItems_labels ev hev hnd ev (fun kv hkv => hkv) base hb b' h x,
    labels_exists_iff ev hnd x]

/-- Merging one whole draft into the base: reminder-minutes union. -/
theorem mergeEvent_rems (ev : PyDict) (hev : WFDraft ev = true)
    (hnd : (ev.map Prod.fst).Nodup) (base : PyDict) (hb : WFDraft base = true)
    (b' : PyDict)
    (h : ev.foldlM (fun b2 kv => mergeField b2 ev kv.1 kv.2) base = .ok b') :
    ∀ q, q ∈ remMinutes b' ↔ q ∈ remMinutes base ∨ q ∈ remMinutes ev := by
  intro q
  rw [mergeItems_rems ev hev hnd ev (fun kv hkv => hkv) base hb b' h q,
    rems_exists_iff ev hnd q]

/-- Merging one whole draft into the base: notes concatenation. -/
theorem mergeEvent_notes (ev : PyDict) (hev : WFDraft ev = true)
    (hnd : (ev.map Prod.fst).Nodup) (base : PyDict) (n0 : String)
    (hn0 : pyGet base "notes" = .str n0) (hne : n0 ≠ "") (b' : PyDict)
    (h : ev.foldlM (fun b2 kv => mergeField b2 ev kv.1 kv.2) base = .ok b') :
    pyGet b' "notes" = .str (n0 ++ evNotesSuffix ev) := by
  have hmain := mergeItems_notes ev hev hnd ev (fun kv hkv => hkv) base n0 hn0 hne b' h
  rw [hmain, strConcat_if_key ev "notes" (evNotesSuffix ev) hnd]
  by_cases hany : ev.any (fun kv => kv.1 == "notes") = true
  · rw [if_pos hany]
  · have hfind : ev.find? (fun kv => kv.1 == "notes") = none :=
      List.find?_eq_none.mpr
        (fun kv hkv hc => hany (List.any_eq_true.mpr ⟨kv, hkv, hc⟩))
    have hnone : pyGet? ev "notes" = none := by
      unfold pyGet?
      rw [hfind]
      rfl
    have hsfx : evNotesSuffix ev = "" := by
      unfold evNotesSuffix pyGet
      rw [hnone]
      rfl
    rw [if_neg hany, hsfx]

/-- The group fold never changes a truthy non-special base field. -/
theorem mergeFold_keep (k : String)
    (hl : k ≠ "labels") (hr : k ≠ "reminders") (hn : k ≠ "notes") :
    ∀ (rest : List PyDict) (base b' : PyDict),
    (pyGet base k).truthy = true →
    rest.foldlM (fun b ev =>
        List.foldlM (fun b2 kv => mergeField b2 ev kv.1 kv.2) b ev) base = .ok b' →
    pyGet b' k = pyGet base k := by
  intro rest
  induction rest with
  | nil =>
    intro base b' _ h
    have h' : (Except.ok base : Except PyErr PyDict) = Except.ok b' := h
    injection h' with h''
    rw [← h'']
  | cons ev tl ih =>
    intro base b' ht h
    rw [List.foldlM_cons] at h
    obtain ⟨b1, h1, h2⟩ := except_bind_ok h
    have hstep := mergeItems_keep ev k hl hr hn ev base b1 ht h1
    have ht1 : (pyGet b1 k).truthy = true := by rw [hstep]; exact ht
    have hres := ih b1 b' ht1 h2
    rw [hres, hstep]

/-- Every non-special field of the group-fold result comes verbatim from the
base or from one of the folded drafts. -/
theorem mergeFold_from (k : String)
    (hl : k ≠ "labels") (hr : k ≠ "reminders") (hn : k ≠ "notes") :
    ∀ (rest : List PyDict), (∀ e ∈ rest, (e.map Prod.fst).Nodup) →
    ∀ (base b' : PyDict),
    rest.foldlM (fun b ev =>
        List.foldlM (fun b2 kv => mergeField b2 ev kv.1 kv.2) b ev) base = .ok b' →
    pyGet b' k = pyGet base k ∨ ∃ e ∈ rest, pyGet b' k = pyGet e k := by
  intro rest
  induction rest with
  | nil =>
    intro _ base b' h
    have h' : (Except.ok base : Except PyErr PyDict) = Except.ok b' := h
    injection h' with h''
    exact Or.inl (by rw [← h''])
  | cons ev tl ih =>
    intro hnds base b' h
    rw [List.foldlM_cons] at h
    obtain ⟨b1, h1, h2⟩ := except_bind_ok h
    have hndev : (ev.map Prod.fst).Nodup := hnds ev (List.mem_cons_self _ _)
    have hrec := ih (fun e he => hnds e (List.mem_cons_of_mem _ he)) b1 b' h2
    rcases mergeItems_from ev k hl hr hn ev base b1 h1 with hstep | ⟨kv, hkv, hk1, hval⟩
    · rcases hrec with hres | ⟨e, he, hres⟩
      · exact Or.inl (by rw [hres, hstep])
      · exact Or.inr ⟨e, List.mem_cons_of_mem _ he, hres⟩
    · have hevk : pyGet ev k = kv.2 := by
        have hg := pyGet_of_mem_nodup ev kv hndev hkv
        rw [hk1] at hg
        exact hg
      rcases hrec with hres | ⟨e, he, hres⟩
      · refine Or.inr ⟨ev, List.mem_cons_self _ _, ?_⟩
        rw [hres, hval, hevk]
      · exact Or.inr ⟨e, List.mem_cons_of_mem _ he, hres⟩

/-- The group fold: labels union over all folded drafts. -/
theorem mergeFold_labels :
    ∀ (rest : List PyDict), (∀ e ∈ rest, WFDraft e = true) →
    (∀ e ∈ rest, (e.map Prod.fst).Nodup) →
    ∀ (base : PyDict), WFDraft base = true →
    ∀ b', rest.foldlM (fun b ev =>
        List.foldlM (fun b2 kv => mergeField b2 ev kv.1 kv.2) b ev) base = .ok b' →
    ∀ x, x ∈ labelsOf b' ↔ x ∈ labelsOf base ∨ ∃ e ∈ rest, x ∈ labelsOf e := by
  intro rest
  induction rest with
  | nil =>
    intro _ _ base _ b' h x
    have h' : (Except.ok base : Except PyErr PyDict) = Except.ok b' := h
    injection h' with h''
    subst h''
    simp
  | cons ev tl ih =>
    intro hwfs hnds base hb b' h x
    rw [List.foldlM_cons] at h
    obtain ⟨b1, h1, h2⟩ := except_bind_ok h
    have hev : WFDraft ev = true := hwfs ev (List.mem_cons_self _ _)
    have hndev : (ev.map Prod.fst).Nodup := hnds ev (List.mem_cons_self _ _)
    have hb1 : WFDraft b1 = true := by
      obtain ⟨b'', hok, hwf'⟩ := mergeItems_ok ev hev ev
        (fun kv hkv => List.all_eq_true.mp hev kv hkv) base hb
      rw [hok] at h1
      injection h1 with heq
      exact heq ▸ hwf'
    have hevch := mergeEvent_labels ev hev hndev base hb b1 h1
    have ihx := ih (fun e he => hwfs e (List.mem_cons_of_mem _ he))
      (fun e he => hnds e (List.mem_cons_of_mem _ he)) b1 hb1 b' h2 x
    rw [ihx]
    constructor
    · rintro (hx | ⟨e, he, hx⟩)
      · rcases (hevch x).mp hx with hx' | hx'
        · exact Or.inl hx'
        · exact Or.inr ⟨ev, List.mem_cons_self _ _, hx'⟩
      · exact Or.inr ⟨e, List.mem_cons_of_mem _ he, hx⟩
    · rintro (hx | ⟨e, he, hx⟩)
      · exact Or.inl ((hevch x).mpr (Or.inl hx))
      · rcases List.mem_cons.mp he with rfl | he'
        · exact Or.inl ((hevch x).mpr (Or.inr hx))
        · exact Or.inr ⟨e, he', hx⟩

/-- The group fold: reminder-minutes union over all folded drafts. -/
theorem mergeFold_rems :
    ∀ (rest : List PyDict), (∀ e ∈ rest, WFDraft e = true) →
    (∀ e ∈ rest, (e.map Prod.fst).Nodup) →
    ∀ (base : PyDict), WFDraft base = true →
    ∀ b', rest.foldlM (fun b ev =>
        List.foldlM (fun b2 kv => mergeField b2 ev kv.1 kv.2) b ev) base = .ok b' →
    ∀ q, q ∈ remMinutes b' ↔ q ∈ remMinutes base ∨ ∃ e ∈ rest, q ∈ remMinutes e := by
  intro rest
  induction rest with
  | nil =>
    intro _ _ base _ b' h q
    have h' : (Except.ok base : Except PyErr PyDict) = Except.ok b' := h
    injection h' with h''
    subst h''
    simp
  | cons ev tl ih =>
    intro hwfs hnds base hb b' h q
    rw [List.foldlM_cons] at h
    obtain ⟨b1, h1, h2⟩ := except_bind_ok h
    have hev : WFDraft ev = true := hwfs ev (List.mem_cons_self _ _)
    have hndev : (ev.map Prod.fst).Nodup := hnds ev (List.mem_cons_self _ _)
    have hb1 : WFDraft b1 = true := by
      obtain ⟨b'', hok, hwf'⟩ := mergeItems_ok ev hev ev
        (fun kv hkv => List.all_eq_true.mp hev kv hkv) base hb
      rw [hok] at h1
      injection h1 with heq
      exact heq ▸ hwf'
    have hevch := mergeEvent_rems ev hev hndev base hb b1 h1
    have ihq := ih (fun e he => hwfs e (List.mem_cons_of_mem _ he))
      (fun e he => hnds e (List.mem_cons_of_mem _ he)) b1 hb1 b' h2 q
    rw [ihq]
    constructor
    · rintro (hx | ⟨e, he, hx⟩)
      · rcases (hevch q).mp hx with hx' | hx'
        · exact Or.inl hx'
        · exact Or.inr ⟨ev, List.mem_cons_self _ _, hx'⟩
      · exact Or.inr ⟨e, List.mem_cons_of_mem _ he, hx⟩
    · rintro (hx | ⟨e, he, hx⟩)
      · exact Or.inl ((hevch q).mpr (Or.inl hx))
      · rcases List.mem_cons.mp he with rfl | he'
        · exact Or.inl ((hevch q).mpr (Or.inr hx))
        · exact Or.inr ⟨e, he', hx⟩

/-- The group fold: notes are the base's notes followed by each later
draft's suffix in fold order. -/
theorem mergeFold_notes :
    ∀ (rest : List PyDict), (∀ e ∈ rest, WFDraft e = true) →
    (∀ e ∈ rest, (e.map Prod.fst).Nodup) →
    ∀ (base : PyDict) (n0 : String),
    pyGet base "notes" = .str n0 → n0 ≠ "" →
    ∀ b', rest.foldlM (fun b ev =>
        List.foldlM (fun b2 kv => mergeField b2 ev kv.1 kv.2) b ev) base = .ok b' →
    pyGet b' "notes" = .str (n0 ++ strConcat (rest.map evNotesSuffix)) := by
  intro rest
  induction rest with
  | nil =>
    intro _ _ base n0 hn0 _ b' h
    have h' : (Except.ok base : Except PyErr PyDict) = Except.ok b' := h
    injection h' with h''
    subst h''
    rw [hn0]
    simp [strConcat, str_append_empty]
  | cons ev tl ih =>
    intro hwfs hnds base n0 hn0 hne b' h
    rw [List.foldlM_cons] at h
    obtain ⟨b1, h1, h2⟩ := except_bind_ok h
    have hev : WFDraft ev = true := hwfs ev (List.mem_cons_self _ _)
    have hndev : (ev.map Prod.fst).Nodup := hnds ev (List.mem_cons_self _ _)
    have hstep := mergeEvent_notes ev hev hndev base n0 hn0 hne b1 h1
    have hne1 : n0 ++ evNotesSuffix ev ≠ "" := str_append_ne_empty _ _ hne
    have hrec := ih (fun e he => hwfs e (List.mem_cons_of_mem _ he))
      (fun e he => hnds e (List.mem_cons_of_mem _ he)) b1
      (n0 ++ evNotesSuffix ev) hstep hne1 b' h2
    rw [hrec]
    congr 1
    rw [str_append_assoc]
    simp [strConcat]

/-- When the group holds a deterministic draft, the head of the stable sort
is one. -/
theorem sortHead_det (g : List PyDict) (base : PyDict) (rest : List PyDict)
    (hs : sortBySourcePref g = base :: rest)
    (hdet : ∃ e ∈ g, (pyGet e "_source").eqStr "deterministic" = true) :
    (pyGet base "_source").eqStr "deterministic" = true := by
  obtain ⟨e, he, hed⟩ := hdet
  unfold sortBySourcePref at hs
  cases hf : g.filter (fun e => (pyGet e "_source").eqStr "deterministic") with
  | nil =>
    exfalso
    have hmem : e ∈ g.filter (fun e => (pyGet e "_source").eqStr "deterministic") :=
      List.mem_filter.mpr ⟨he, hed⟩
    rw [hf] at hmem
    simp at hmem
  | cons b0 tl =>
    rw [hf, List.cons_append] at hs
    injection hs with h1 h2
    have hb0 : b0 ∈ g.filter (fun e => (pyGet e "_source").eqStr "deterministic") := by
      rw [hf]
      exact List.mem_cons_self _ _
    have hpred := (List.mem_filter.mp hb0).2
    exact h1 ▸ hpred

/-- C5: when `_merge_event_group` combines a group of canonical-shape drafts
with distinct keys, the drafts are stably sorted so deterministic ones
precede llm ones and the first becomes the base; the merge succeeds, a
truthy non-special base field is never overwritten, every non-special field
comes verbatim from the base or a later draft, labels and reminder minutes
are the membership union over the group, and notes are the base's notes
followed by each later draft's newline-prefixed notes in sorted order. -/
theorem C5_merge_group_field_semantics (g : List PyDict) (hne : g ≠ [])
    (hwf : ∀ e ∈ g, WFDraft e = true)
    (hnd : ∀ e ∈ g, (e.map Prod.fst).Nodup) :
    ∃ (m base : PyDict) (rest : List PyDict),
      sortBySourcePref g = base :: rest
      ∧ _merge_event_group g = .ok m
      ∧ ((∃ e ∈ g, (pyGet e "_source").eqStr "deterministic" = true) →
          (pyGet base "_source").eqStr "deterministic" = true)
      ∧ (∀ k, k ≠ "labels" → k ≠ "reminders" → k ≠ "notes" →
          (pyGet base k).truthy = true → pyGet m k = pyGet base k)
      ∧ (∀ k, k ≠ "labels" → k ≠ "reminders" → k ≠ "notes" →
          pyGet m k = pyGet base k ∨ ∃ e ∈ rest, pyGet m k = pyGet e k)
      ∧ (∀ x, x ∈ labelsOf m ↔ ∃ e ∈ g, x ∈ labelsOf e)
      ∧ (∀ q, q ∈ remMinutes m ↔ ∃ e ∈ g, q ∈ remMinutes e)
      ∧ (∀ n0, pyGet base "notes" = .str n0 → n0 ≠ "" →
          pyGet m "notes" = .str (n0 ++ strConcat (rest.map evNotesSuffix))) := by
  have hperm : List.Perm (sortBySourcePref g) g := List.filter_append_perm _ g
  cases hs : sortBySourcePref g with
  | nil =>
    exfalso
    rw [hs] at hperm
    exact hne hperm.symm.eq_nil
  | cons base rest =>
    have hmemall : ∀ e ∈ base :: rest, e ∈ g := by
      intro e hee
      have hin : e ∈ sortBySourcePref g := hs ▸ hee
      exact hperm.mem_iff.mp hin
    have hbase_g : base ∈ g := hmemall base (List.mem_cons_self _ _)
    have hbwf : WFDraft base = true := hwf base hbase_g
    have hrwf : ∀ e ∈ rest, WFDraft e = true :=
      fun e he => hwf e (hmemall e (List.mem_cons_of_mem _ he))
    have hrnd : ∀ e ∈ rest, (e.map Prod.fst).Nodup :=
      fun e he => hnd e (hmemall e (List.mem_cons_of_mem _ he))
    obtain ⟨m, hm, hmwf⟩ := mergeFold_ok rest hrwf base hbwf
    have hmg : _merge_event_group g = .ok m := by
      unfold _merge_event_group
      rw [hs]
      exact hm
    refine ⟨m, base, rest, rfl, hmg, ?_, ?_, ?_, ?_, ?_, ?_⟩
    · exact fun hdet => sortHead_det g base rest hs hdet
    · intro k hl hr hn ht
      exact mergeFold_keep k hl hr hn rest base m ht hm
    · intro k hl hr hn
      exact mergeFold_from k hl hr hn rest hrnd base m hm
    · intro x
      rw [mergeFold_labels rest hrwf hrnd base hbwf m hm x]
      constructor
      · rintro (hx | ⟨e, he, hx⟩)
        · exact ⟨base, hbase_g, hx⟩
        · exact ⟨e, hmemall e (List.mem_cons_of_mem _ he), hx⟩
      · rintro ⟨e, he, hx⟩
        have hin : e ∈ base :: rest := by
          rw [← hs]
          exact hperm.mem_iff.mpr he
        rcases List.mem_cons.mp hin with rfl | hin'
        · exact Or.inl hx
        · exact Or.inr ⟨e, hin', hx⟩
    · intro q
      rw [mergeFold_rems rest hrwf hrnd base hbwf m hm q]
      constructor
      · rintro (hx | ⟨e, he, hx⟩)
        · exact ⟨base, hbase_g, hx⟩
        · exact ⟨e, hmemall e (List.mem_cons_of_mem _ he), hx⟩
      · rintro ⟨e, he, hx⟩
        have hin : e ∈ base :: rest := by
          rw [← hs]
          exact hperm.mem_iff.mpr he
        rcases List.mem_cons.mp hin with rfl | hin'
        · exact Or.inl hx
        · exact Or.inr ⟨e, hin', hx⟩
    · intro n0 hn0 hne0
      exact mergeFold_notes rest hrwf hrnd base n0 hn0 hne0 m hm

/-- Witness: the merge-semantics theorem applied to a concrete
deterministic-plus-llm group. -/
theorem C5_merge_group_field_semantics_witness :
    ∃ (m base : PyDict) (rest : List PyDict),
      sortBySourcePref c5ExampleGroup = base :: rest
      ∧ _merge_event_group c5ExampleGroup = .ok m
      ∧ ((∃ e ∈ c5ExampleGroup, (pyGet e "_source").eqStr "deterministic" = true) →
          (pyGet base "_source").eqStr "deterministic" = true)
      ∧ (∀ k, k ≠ "labels" → k ≠ "reminders" → k ≠ "notes" →
          (pyGet base k).truthy = true → pyGet m k = pyGet base k)
      ∧ (∀ k, k ≠ "labels" → k ≠ "reminders" → k ≠ "notes" →
          pyGet m k = pyGet base k ∨ ∃ e ∈ rest, pyGet m k = pyGet e k)
      ∧ (∀ x, x ∈ labelsOf m ↔ ∃ e ∈ c5ExampleGroup, x ∈ labelsOf e)
      ∧ (∀ q, q ∈ remMinutes m ↔ ∃ e ∈ c5ExampleGroup, q ∈ remMinutes e)
      ∧ (∀ n0, pyGet base "notes" = .str n0 → n0 ≠ "" →
          pyGet m "notes" = .str (n0 ++ strConcat (rest.map evNotesSuffix))) :=
  C5_merge_group_field_semantics c5ExampleGroup (by simp [c5ExampleGroup])
    (by decide) (by decide)

/-! ## C8 -/

/-- Two drafts sharing a bucket with similar titles deduplicate to the
group-merge result. -/
theorem dedup_pair_same_bucket (x y : PyDict) (sx sy tx ty : String)
    (dtx dty : PyDateTime)
    (hxs : pyGet x "start" = .str sx) (hxne : sx ≠ "") (hxp : pyFromIso sx = some dtx)
    (hys : pyGet y "start" = .str sy) (hyne : sy ≠ "") (hyp : pyFromIso sy = some dty)
    (hxt : pyGetD x "title" (.str "") = .str tx)
    (hyt : pyGetD y "title" (.str "") = .str ty)
    (hk : (roundTo15 dtx).isoformat = (roundTo15 dty).isoformat)
    (hsim : titlesSimilarStr tx ty 0.5 = true)
    (m : PyDict) (hm : _merge_event_group [x, y] = .ok m) :
    _deduplicate_by_similarity [x, y] = .ok [m] := by
  have hg1 : appendToGroup [] ((roundTo15 dtx).isoformat) x
      = [((roundTo15 dtx).isoformat, [x])] := rfl
  have htg : buildTimeGroups [x, y]
      = pure (appendToGroup [((roundTo15 dtx).isoformat, [x])]
          ((roundTo15 dty).isoformat) y) := by
    unfold buildTimeGroups
    rw [List.foldlM_cons, buildTimeGroupsStep_eval [] x sx dtx hxs hxne hxp,
      pure_bind, List.foldlM_cons,
      buildTimeGroupsStep_eval _ y sy dty hys hyne hyp, hg1, pure_bind,
      List.foldlM_nil]
  have hlt : lowerTitles [x, y] = .ok [(x, tx), (y, ty)] := by
    unfold lowerTitles
    rw [List.mapM_cons, hxt]
    simp only [asPyStr, pure_bind]
    rw [List.mapM_cons, hyt]
    simp only [asPyStr, pure_bind, List.mapM_nil, pure_bind]
    rfl
  have happ : appendToGroup [((roundTo15 dtx).isoformat, [x])]
      ((roundTo15 dty).isoformat) y
      = [((roundTo15 dtx).isoformat, [x, y])] := by
    unfold appendToGroup
    rw [← hk]
    simp
  have hgrp : groupSimilarPure [(x, tx), (y, ty)] = [[(x, tx), (y, ty)]] := by
    rw [groupSimilarPure]
    simp only [List.filter, hsim, Bool.not_true]
    rw [groupSimilarPure]
  have hmse : _merge_similar_events [x, y] = .ok [m] := by
    unfold _merge_similar_events
    rw [if_neg (by simp), hlt, ok_bind, hgrp, List.mapM_cons]
    have hmap : ([(x, tx), (y, ty)].map (fun p => p.1)) = [x, y] := rfl
    rw [hmap, hm, ok_bind, List.mapM_nil, pure_bind]
    rfl
  unfold _deduplicate_by_similarity
  rw [if_neg (by simp), htg, pure_bind, happ, List.foldlM_cons]
  have hstep : (if ((((roundTo15 dtx).isoformat, [x, y])).2.length = 1) then
        (pure ([] ++ (((roundTo15 dtx).isoformat, [x, y])).2) :
          Except PyErr (List PyDict))
      else do
        let merged ← _merge_similar_events (((roundTo15 dtx).isoformat, [x, y])).2
        pure ([] ++ merged)) = pure [m] := by
    rw [if_neg (by simp)]
    show (do
      let merged ← _merge_similar_events [x, y]
      pure ([] ++ merged) : Except PyErr (List PyDict)) = pure [m]
    rw [hmse, ok_bind]
    rfl
  rw [hstep, pure_bind, List.foldlM_nil]
  rfl

theorem c8_titles_similar_ab :
    titlesSimilarStr "Exam" "Exam appointment" 0.5 = true := by
  have h1 : dedupFirst (pySplitWs (asciiLower "Exam")) = ["exam"] := rfl
  have h2 : dedupFirst (pySplitWs (asciiLower "Exam appointment"))
      = ["exam", "appointment"] := rfl
  unfold titlesSimilarStr
  rw [h1, h2]
  have h3 : ((["exam"].filter
      (fun w => ["exam", "appointment"].contains w)).length : ℚ) = 1 := rfl
  have h4 : ((["exam"] ++ ["exam", "appointment"].filter
      (fun w => !(["exam"].contains w))).length : ℚ) = 2 := rfl
  simp only [h3, h4]
  norm_num

theorem c8_titles_similar_ba :
    titlesSimilarStr "Exam appointment" "Exam" 0.5 = true := by
  have h1 : dedupFirst (pySplitWs (asciiLower "Exam appointment"))
      = ["exam", "appointment"] := rfl
  have h2 : dedupFirst (pySplitWs (asciiLower "Exam")) = ["exam"] := rfl
  unfold titlesSimilarStr
  rw [h1, h2]
  have h3 : ((["exam", "appointment"].filter
      (fun w => ["exam"].contains w)).length : ℚ) = 1 := rfl
  have h4 : ((["exam", "appointment"] ++ ["exam"].filter
      (fun w => !(["exam", "appointment"].contains w))).length : ℚ) = 2 := rfl
  simp only [h3, h4]
  norm_num

theorem c8_confidence_ab :
    calculate_event_confidence c8e6AB
      (some [("extraction_method", .str "deterministic")]) = .ok 0.7 := by
  norm_num +decide [calculate_event_confidence, titleBonus, ocrAttenuate,
    c8e6AB, pyGet, pyGetD, pyGet?, pyLen, pyLtNum, Value.truthy, Value.eqStr,
    Bind.bind, Except.bind, pure, Except.pure, min_def,
    List.find?_cons_of_neg, List.find?_cons_of_pos]

theorem c8_confidence_ba :
    calculate_event_confidence c8e6BA
      (some [("extraction_method", .str "deterministic")]) = .ok 0.7 := by
  norm_num +decide [calculate_event_confidence, titleBonus, ocrAttenuate,
    c8e6BA, pyGet, pyGetD, pyGet?, pyLen, pyLtNum, Value.truthy, Value.eqStr,
    Bind.bind, Except.bind, pure, Except.pure, min_def,
    List.find?_cons_of_neg, List.find?_cons_of_pos]

theorem c8_run_ab :
    merge_and_validate_events [c8a] [c8b] none = .ok [c8OutAB] := by
  have htag : ([c8a].map (fun e => pySet e "_source" (.str "deterministic"))
      ++ [c8b].map (fun e => pySet e "_source" (.str "llm"))) = [c8aDet, c8b] := rfl
  have hdedup : _deduplicate_by_similarity [c8aDet, c8b] = .ok [c8aDet] :=
    dedup_pair_same_bucket c8aDet c8b
      "2025-11-04T08:50:00+01:00" "2025-11-04T08:50:00+01:00"
      "Exam" "Exam appointment"
      ⟨2025, 11, 4, 8, 50, 0, 0, some 60⟩ ⟨2025, 11, 4, 8, 50, 0, 0, some 60⟩
      rfl (by decide) rfl rfl (by decide) rfl rfl rfl rfl
      c8_titles_similar_ab c8aDet rfl
  have hval : _validate_event c8aDet = .ok (true, c8e6AB) := rfl
  have hctx : pySet ([] : PyDict) "extraction_method"
      (pyGetD c8e6AB "_source" (.str "unknown"))
      = [("extraction_method", .str "deterministic")] := rfl
  unfold merge_and_validate_events
  dsimp only [Option.getD]
  rw [htag, hdedup, ok_bind]
  simp only [List.foldlM_cons, List.foldlM_nil]
  rw [hval, ok_bind]
  rw [if_pos rfl, hctx, c8_confidence_ab, ok_bind]
  rfl

theorem c8_run_ba :
    merge_and_validate_events [c8b] [c8a] none = .ok [c8OutBA] := by
  have htag : ([c8b].map (fun e => pySet e "_source" (.str "deterministic"))
      ++ [c8a].map (fun e => pySet e "_source" (.str "llm"))) = [c8bDet, c8a] := rfl
  have hdedup : _deduplicate_by_similarity [c8bDet, c8a] = .ok [c8bDet] :=
    dedup_pair_same_bucket c8bDet c8a
      "2025-11-04T08:50:00+01:00" "2025-11-04T08:50:00+01:00"
      "Exam appointment" "Exam"
      ⟨2025, 11, 4, 8, 50, 0, 0, some 60⟩ ⟨2025, 11, 4, 8, 50, 0, 0, some 60⟩
      rfl (by decide) rfl rfl (by decide) rfl rfl rfl rfl
      c8_titles_similar_ba c8bDet rfl
  have hval : _validate_event c8bDet = .ok (true, c8e6BA) := rfl
  have hctx : pySet ([] : PyDict) "extraction_method"
      (pyGetD c8e6BA "_source" (.str "unknown"))
      = [("extraction_method", .str "deterministic")] := rfl
  unfold merge_and_validate_events
  dsimp only [Option.getD]
  rw [htag, hdedup, ok_bind]
  simp only [List.foldlM_cons, List.foldlM_nil]
  rw [hval, ok_bind]
  rw [if_pos rfl, hctx, c8_confidence_ba, ok_bind]
  rfl

/-- C8 counterexample: two single-draft lists carrying the *same* source tag
(`llm`), identical starts and Jaccard-0.5-similar titles.  The merger retags
positionally (first argument `deterministic`, second `llm`), so the retagged
first draft always wins the in-bucket merge as base: `merge(A,B)` emits one
event titled `Exam`, `merge(B,A)` one titled `Exam appointment` — different
sets, refuting commutativity. -/
theorem C8_counterexample_positional_retag :
    pyGet c8a "_source" = pyGet c8b "_source"
    ∧ merge_and_validate_events [c8a] [c8b] none = .ok [c8OutAB]
    ∧ merge_and_validate_events [c8b] [c8a] none = .ok [c8OutBA]
    ∧ [c8OutAB].map (fun e => pyGet e "title") = [.str "Exam"]
    ∧ [c8OutBA].map (fun e => pyGet e "title") = [.str "Exam appointment"]
    ∧ ¬ List.Perm [c8OutAB] [c8OutBA] := by
  refine ⟨rfl, c8_run_ab, c8_run_ba, rfl, rfl, ?_⟩
  intro hperm
  have hmap := hperm.map (fun e => pyGet e "title")
  have hmap2 : List.Perm [Value.str "Exam"] [Value.str "Exam appointment"] := hmap
  have heq := List.perm_singleton.mp hmap2
  injection heq with h1 h2
  injection h1 with h3
  exact absurd h3 (by decide)

theorem filter_ne_map_set (l : List (String × Value)) (k : String) (v : Value) :
    (l.map (fun kv => if kv.1 == k then (k, v) else kv)).filter
        (fun kv => kv.1 ≠ k)
      = l.filter (fun kv => kv.1 ≠ k) := by
  induction l with
  | nil => rfl
  | cons hd tl ih =>
    simp only [List.map_cons, List.filter_cons]
    by_cases h1 : (hd.1 == k) = true
    · have hk : hd.1 = k := by simpa using h1
      rw [if_pos h1, if_neg (by simp), if_neg (by simp [hk])]
      exact ih
    · rw [if_neg h1]
      have hne : ¬(hd.1 = k) := by simpa using h1
      rw [if_pos (by simp [hne]), if_pos (by simp [hne]), ih]

/-- Popping the key a `pySet` wrote recovers the pop of the original dict. -/
theorem pyPop_pySet_same (e : PyDict) (k : String) (v : Value) :
    pyPop (pySet e k v) k = pyPop e k := by
  unfold pyPop pySet
  by_cases hc : pyContains e k
  · rw [if_pos hc]
    exact filter_ne_map_set e k v
  · rw [if_neg hc, List.filter_append]
    simp

/-- Retagging `_source` does not move a draft's bucket key. -/
theorem draftKey_pySet_tag (e : PyDict) (v : Value) :
    draftKey (pySet e "_source" v) = draftKey e := by
  unfold draftKey
  rw [pyGet_pySet_ne e "_source" "start" v (by decide)]

theorem buildTimeGroups_distinct_aux :
    ∀ (events : List PyDict) (groups : List (String × List PyDict)),
    (∀ e ∈ events, ∃ s dt, pyGet e "start" = .str s ∧ s ≠ ""
      ∧ pyFromIso s = some dt) →
    (∀ e ∈ events, ∀ g ∈ groups, g.1 ≠ draftKey e) →
    (events.map draftKey).Pairwise (fun a b => a ≠ b) →
    events.foldlM buildTimeGroupsStep groups
      = .ok (groups ++ events.map (fun e => (draftKey e, [e]))) := by
  intro events
  induction events with
  | nil =>
    intro groups _ _ _
    simp
    rfl
  | cons e tl ih =>
    intro groups hparse hfresh hpw
    obtain ⟨s, dt, hs, hne, hp⟩ := hparse e (List.mem_cons_self _ _)
    have hkey : draftKey e = (roundTo15 dt).isoformat := by
      unfold draftKey
      rw [hs]
      dsimp only
      rw [hp]
    rw [List.map_cons] at hpw
    obtain ⟨hhead, htail⟩ := List.pairwise_cons.mp hpw
    rw [List.foldlM_cons, buildTimeGroupsStep_eval groups e s dt hs hne hp,
      pure_bind]
    have hnone : groups.any (fun g => g.1 == (roundTo15 dt).isoformat) = false := by
      cases hb : groups.any (fun g => g.1 == (roundTo15 dt).isoformat)
      · rfl
      · obtain ⟨g, hg, hge⟩ := List.any_eq_true.mp hb
        have hgk : g.1 = (roundTo15 dt).isoformat := by simpa using hge
        rw [← hkey] at hgk
        exact absurd hgk (hfresh e (List.mem_cons_self _ _) g hg)
    have happ : appendToGroup groups ((roundTo15 dt).isoformat) e
        = groups ++ [(draftKey e, [e])] := by
      unfold appendToGroup
      rw [if_neg (by simp [hnone]), hkey]
    rw [happ]
    have hfresh' : ∀ e' ∈ tl, ∀ g ∈ groups ++ [(draftKey e, [e])],
        g.1 ≠ draftKey e' := by
      intro e' he' g hg
      rcases List.mem_append.mp hg with hg | hg
      · exact hfresh e' (List.mem_cons_of_mem _ he') g hg
      · have hgd : g = (draftKey e, [e]) := by simpa using hg
        rw [hgd]
        exact hhead (draftKey e') (List.mem_map_of_mem _ he')
    have hrec := ih (groups ++ [(draftKey e, [e])])
      (fun e' he' => hparse e' (List.mem_cons_of_mem _ he')) hfresh' htail
    rw [hrec]
    simp

/-- Deduplication with pairwise-distinct bucket keys is the identity. -/
theorem dedup_distinct_id (events : List PyDict)
    (hparse : ∀ e ∈ events, ∃ s dt, pyGet e "start" = .str s ∧ s ≠ ""
      ∧ pyFromIso s = some dt)
    (hpw : (events.map draftKey).Pairwise (fun a b => a ≠ b)) :
    _deduplicate_by_similarity events = .ok events := by
  unfold _deduplicate_by_similarity
  by_cases he : events.isEmpty = true
  · rw [if_pos he]
    have hnil : events = [] := by simpa [List.isEmpty_iff] using he
    rw [hnil]
    rfl
  · rw [if_neg he]
    have hbt : buildTimeGroups events
        = .ok (events.map (fun e => (draftKey e, [e]))) := by
      unfold buildTimeGroups
      have := buildTimeGroups_distinct_aux events [] hparse
        (by intro e he2 g hg; simp at hg) hpw
      simpa using this
    rw [hbt, ok_bind]
    have hfold : ∀ (evs : List PyDict) (acc : List PyDict),
        (evs.map (fun e => (draftKey e, [e]))).foldlM (fun acc g =>
          if g.2.length = 1 then pure (acc ++ g.2)
          else do
            let merged ← _merge_similar_events g.2
            pure (acc ++ merged)) acc = .ok (acc ++ evs) := by
      intro evs
      induction evs with
      | nil =>
        intro acc
        simp
        rfl
      | cons e2 tl2 ih2 =>
        intro acc
        rw [List.map_cons, List.foldlM_cons]
        have hif : (if (((draftKey e2, [e2])).2.length = 1) then
              (pure (acc ++ ((draftKey e2, [e2])).2) : Except PyErr (List PyDict))
            else do
              let merged ← _merge_similar_events ((draftKey e2, [e2])).2
              pure (acc ++ merged)) = pure (acc ++ [e2]) := by
          rw [if_pos (by simp)]
        rw [hif, pure_bind, ih2 (acc ++ [e2])]
        simp
    have := hfold events []
    simpa using this

/-- C8 (amended): when no cross-list merging can occur — every draft has a
truthy, parseable string start and all rounded bucket keys are pairwise
distinct — the deduplication stage commutes as a set once the positional
`_source` tags are discarded: both orders return their inputs verbatim, and
the tag-stripped outputs are permutations of each other.  (The full pipeline
still does not commute: the positional retag feeds the extraction-method
confidence bonus, as the counterexample shows.) -/
theorem C8_dedup_commutes_modulo_tags (A B : List PyDict)
    (hparse : ∀ e ∈ A ++ B, ∃ s dt, pyGet e "start" = .str s ∧ s ≠ ""
      ∧ pyFromIso s = some dt)
    (hpw : ((A ++ B).map draftKey).Pairwise (fun a b => a ≠ b)) :
    ∃ out1 out2,
      _deduplicate_by_similarity
        (A.map (fun e => pySet e "_source" (.str "deterministic"))
          ++ B.map (fun e => pySet e "_source" (.str "llm"))) = .ok out1
      ∧ _deduplicate_by_similarity
        (B.map (fun e => pySet e "_source" (.str "deterministic"))
          ++ A.map (fun e => pySet e "_source" (.str "llm"))) = .ok out2
      ∧ List.Perm (out1.map (fun e => pyPop e "_source"))
          (out2.map (fun e => pyPop e "_source")) := by
  have hkeymap : ∀ (l : List PyDict) (v : Value),
      (l.map (fun e => pySet e "_source" v)).map draftKey = l.map draftKey := by
    intro l v
    rw [List.map_map]
    exact List.map_congr_left (fun e _ => draftKey_pySet_tag e v)
  have hparse2 : ∀ (X Y : List PyDict) (vX vY : Value),
      (∀ e ∈ X ++ Y, ∃ s dt, pyGet e "start" = .str s ∧ s ≠ ""
        ∧ pyFromIso s = some dt) →
      ∀ e ∈ (X.map (fun e => pySet e "_source" vX)
          ++ Y.map (fun e => pySet e "_source" vY)),
        ∃ s dt, pyGet e "start" = .str s ∧ s ≠ "" ∧ pyFromIso s = some dt := by
    intro X Y vX vY hp e he
    rcases List.mem_append.mp he with he | he
    · obtain ⟨e0, he0, rfl⟩ := List.mem_map.mp he
      obtain ⟨s, dt, hs, hne, hpi⟩ := hp e0 (List.mem_append_left _ he0)
      refine ⟨s, dt, ?_, hne, hpi⟩
      rw [pyGet_pySet_ne e0 "_source" "start" vX (by decide)]
      exact hs
    · obtain ⟨e0, he0, rfl⟩ := List.mem_map.mp he
      obtain ⟨s, dt, hs, hne, hpi⟩ := hp e0 (List.mem_append_right _ he0)
      refine ⟨s, dt, ?_, hne, hpi⟩
      rw [pyGet_pySet_ne e0 "_source" "start" vY (by decide)]
      exact hs
  have hpwBA : ((B ++ A).map draftKey).Pairwise (fun a b => a ≠ b) := by
    have hpm : List.Perm ((A ++ B).map draftKey) ((B ++ A).map draftKey) :=
      (List.perm_append_comm).map draftKey
    exact hpw.perm hpm (fun {a b} h => h.symm)
  have hparseBA : ∀ e ∈ B ++ A, ∃ s dt, pyGet e "start" = .str s ∧ s ≠ ""
      ∧ pyFromIso s = some dt := by
    intro e he
    rcases List.mem_append.mp he with he | he
    · exact hparse e (List.mem_append_right _ he)
    · exact hparse e (List.mem_append_left _ he)
  have hpw1 : ((A.map (fun e => pySet e "_source" (.str "deterministic"))
      ++ B.map (fun e => pySet e "_source" (.str "llm"))).map draftKey).Pairwise
      (fun a b => a ≠ b) := by
    rw [List.map_append, hkeymap, hkeymap, ← List.map_append]
    exact hpw
  have hpw2 : ((B.map (fun e => pySet e "_source" (.str "deterministic"))
      ++ A.map (fun e => pySet e "_source" (.str "llm"))).map draftKey).Pairwise
      (fun a b => a ≠ b) := by
    rw [List.map_append, hkeymap, hkeymap, ← List.map_append]
    exact hpwBA
  refine ⟨_, _, dedup_distinct_id _ (hparse2 A B _ _ hparse) hpw1,
    dedup_distinct_id _ (hparse2 B A _ _ hparseBA) hpw2, ?_⟩
  have hpopmap : ∀ (l : List PyDict) (v : Value),
      (l.map (fun e => pySet e "_source" v)).map (fun e => pyPop e "_source")
        = l.map (fun e => pyPop e "_source") := by
    intro l v
    rw [List.map_map]
    exact List.map_congr_left (fun e _ => pyPop_pySet_same e "_source" v)
  rw [List.map_append, List.map_append, hpopmap, hpopmap, hpopmap, hpopmap]
  exact List.perm_append_comm

/-- Witness: the amended dedup-commutativity applied to two single-draft
lists in distinct 15-minute buckets. -/
theorem C8_dedup_commutes_modulo_tags_witness :
    ∃ out1 out2,
      _deduplicate_by_similarity
        ([[("title", Value.str "Standup"),
           ("start", Value.str "2025-11-04T08:50:00+01:00")]].map
            (fun e => pySet e "_source" (.str "deterministic"))
          ++ [[("title", Value.str "Retro"),
               ("start", Value.str "2025-11-04T10:00:00+01:00")]].map
            (fun e => pySet e "_source" (.str "llm"))) = .ok out1
      ∧ _deduplicate_by_similarity
        ([[("title", Value.str "Retro"),
           ("start", Value.str "2025-11-04T10:00:00+01:00")]].map
            (fun e => pySet e "_source" (.str "deterministic"))
          ++ [[("title", Value.str "Standup"),
               ("start", Value.str "2025-11-04T08:50:00+01:00")]].map
            (fun e => pySet e "_source" (.str "llm"))) = .ok out2
      ∧ List.Perm (out1.map (fun e => pyPop e "_source"))
          (out2.map (fun e => pyPop e "_source")) :=
  C8_dedup_commutes_modulo_tags
    [[("title", Value.str "Standup"), ("start", Value.str "2025-11-04T08:50:00+01:00")]]
    [[("title", Value.str "Retro"), ("start", Value.str "2025-11-04T10:00:00+01:00")]]
    (by
      intro e he
      rcases List.mem_append.mp he with he | he
      · have he2 : e = [("title", Value.str "Standup"),
            ("start", Value.str "2025-11-04T08:50:00+01:00")] := by simpa using he
        exact ⟨"2025-11-04T08:50:00+01:00", ⟨2025, 11, 4, 8, 50, 0, 0, some 60⟩,
          by rw [he2]; rfl, by decide, rfl⟩
      · have he2 : e = [("title", Value.str "Retro"),
            ("start", Value.str "2025-11-04T10:00:00+01:00")] := by simpa using he
        exact ⟨"2025-11-04T10:00:00+01:00", ⟨2025, 11, 4, 10, 0, 0, 0, some 60⟩,
          by rw [he2]; rfl, by decide, rfl⟩)
    (by decide)

/-! ## C6 -/

set_option maxRecDepth 1000000 in
/-- C6: for the literal scenario — preferred name `Balogh Csaba`, timezone
`Europe/Budapest`, text `"2025.11.04.\nBalogh Csaba — 8 óra 50 perc\nKovács
Anna — 9 óra 20 perc"` — deterministic extraction yields exactly one draft:
start `2025-11-04T08:50:00+01:00`, end `2025-11-04T09:20:00+01:00`, labels
`["exam"]`, popup reminders at 1440, 120 and 30 minutes, and null location
(for every behaviour `dp` of the external `dateparser`, which the scenario
never consults). -/
theorem C6_hungarian_exam_scenario (dp : String → Option PyDateTime) :
    extract_events_deterministic dp scenarioText "Europe/Budapest"
      (some "Balogh Csaba") none = .ok [scenarioExamDraft] := rfl

/-! ## C7 -/

/-- C7: `extract_events_llm` never raises to its caller.  An absent API key
or a disabled feature flag yields `[]` without touching the API; any
exception inside the `try:` body (network, malformed JSON, wrong JSON shape,
non-dict events, bad `notes` values) yields `[]`; and in every case the
function returns a plain list — either `[]` or the successfully annotated
events. -/
theorem C7_llm_extractor_never_raises :
    (∀ (st : LLMSettings) (call : Except PyErr String)
        (pj : String → Except PyErr Value),
        st.OPENAI_API_KEY = "" → extract_events_llm st call pj = [])
    ∧ (∀ (st : LLMSettings) (call : Except PyErr String)
        (pj : String → Except PyErr Value),
        st.ENABLE_LLM_FALLBACK = false → extract_events_llm st call pj = [])
    ∧ (∀ (st : LLMSettings) (call : Except PyErr String)
        (pj : String → Except PyErr Value) (err : PyErr),
        llmTryBody call pj = .error err → extract_events_llm st call pj = [])
    ∧ (∀ (st : LLMSettings) (call : Except PyErr String)
        (pj : String → Except PyErr Value),
        extract_events_llm st call pj = []
        ∨ ∃ evs, llmTryBody call pj = .ok evs ∧ extract_events_llm st call pj = evs) := by
  refine ⟨?_, ?_, ?_, ?_⟩
  · intro st call pj h
    simp [extract_events_llm, h]
  · intro st call pj h
    simp [extract_events_llm, h]
  · intro st call pj err h
    simp only [extract_events_llm, h]
    split <;> [rfl; skip]
    split <;> rfl
  · intro st call pj
    unfold extract_events_llm
    split
    · exact Or.inl rfl
    · split
      · exact Or.inl rfl
      · cases hb : llmTryBody call pj with
        | ok evs => exact Or.inr ⟨evs, rfl, rfl⟩
        | error err => exact Or.inl rfl

theorem C7_llm_extractor_never_raises_witness :
    extract_events_llm ⟨"", true⟩ (.ok "x") (fun _ => .ok (.dict [])) = []
    ∧ extract_events_llm ⟨"key", false⟩ (.ok "x") (fun _ => .ok (.dict [])) = []
    ∧ extract_events_llm ⟨"key", true⟩ (.ok "x") (fun _ => .error .valueError) = [] := by
  obtain ⟨h1, h2, h3, -⟩ := C7_llm_extractor_never_raises
  exact ⟨h1 _ _ _ rfl, h2 _ _ _ rfl,
    h3 ⟨"key", true⟩ (.ok "x") (fun _ => .error .valueError) .valueError rfl⟩

end EventHint
